import Mathlib

set_option maxRecDepth 100000

/-!
Verification of the ai-suit-tracker pipeline (src/): the snapshot
deduplication engine (src/dedup.py and the inline copy in src/run.py),
the CourtListener aggregation helpers (src/courtlistener.py, src/run.py)
and the risk scorer (src/render.py), shallowly embedded over `List Char`
models of Python strings.
-/

namespace AiSuit


/-- Python strings are modelled as lists of characters. -/
abbrev PyStr := List Char

/-- Coerce a Lean string literal into the `PyStr` model. -/
def pstr (s : String) : PyStr := s.data

/-- Equality of `Except` values is decidable when it is on both sides;
used to evaluate the embedded error paths on concrete inputs. -/
instance {ε α : Type} [DecidableEq ε] [DecidableEq α] : DecidableEq (Except ε α) := fun a b =>
  match a, b with
  | Except.error e1, Except.error e2 =>
      if h : e1 = e2 then isTrue (by rw [h])
      else isFalse (by intro hx; cases hx; exact h rfl)
  | Except.error _, Except.ok _ => isFalse (by intro hx; cases hx)
  | Except.ok _, Except.error _ => isFalse (by intro hx; cases hx)
  | Except.ok v1, Except.ok v2 =>
      if h : v1 = v2 then isTrue (by rw [h])
      else isFalse (by intro hx; cases hx; exact h rfl)

/-- Python whitespace characters stripped by `str.strip()`. -/
def pySpace (c : Char) : Bool :=
  c = ' ' || c = '\t' || c = '\n' || c = '\r' || c = '\x0b' || c = '\x0c'

/-- Model of Python `str.strip()`: drop whitespace from both ends. -/
def pyStrip (s : PyStr) : PyStr :=
  ((s.dropWhile pySpace).reverse.dropWhile pySpace).reverse

/-- Model of Python `str.startswith(p)`. -/
def pyStartswith (s p : PyStr) : Bool :=
  p.isPrefixOf s

/-- Model of Python `s.split("\n")`: split at every newline, keeping empty
pieces; the empty string yields one empty piece. -/
def splitNL : PyStr → List PyStr
  | [] => [[]]
  | c :: rest =>
    if c = '\n' then [] :: splitNL rest
    else
      match splitNL rest with
      | h :: t => (c :: h) :: t
      | [] => [[c]]

/-- Model of `"\n".join(lines)`. -/
def joinNL : List PyStr → PyStr
  | [] => []
  | [l] => l
  | l :: ls => l ++ '\n' :: joinNL ls

/-- Does `needle` occur as a contiguous substring of `hay`?
(Python `needle in hay`.) -/
def containsSub (hay needle : PyStr) : Bool :=
  needle.isPrefixOf hay ||
    match hay with
    | [] => false
    | _ :: rest => containsSub rest needle

/-- Fuel-driven worker for `pyReplace`: scan left to right, replacing each
non-overlapping occurrence of `old` (assumed nonempty) by `new`. -/
def replaceGo (old new : PyStr) : Nat → PyStr → PyStr
  | 0, s => s
  | _ + 1, [] => []
  | fuel + 1, c :: rest =>
    if old.isPrefixOf (c :: rest) then
      new ++ replaceGo old new fuel (List.drop old.length (c :: rest))
    else
      c :: replaceGo old new fuel rest

/-- Model of Python `s.replace(old, new)` (replaces every non-overlapping
occurrence, scanning left to right; an empty `old` inserts `new` at every
position, as in Python). -/
def pyReplace (s old new : PyStr) : PyStr :=
  if old = [] then new ++ s.flatMap (fun c => [c] ++ new)
  else replaceGo old new s.length s

/-- First index of `x` in `l` (Python `list.index`, defined only when
present; returns `l.length` otherwise). -/
def pyIndexOf (l : List PyStr) (x : PyStr) : Nat :=
  match l with
  | [] => 0
  | y :: ys => if y = x then 0 else pyIndexOf ys x + 1

/-- Add an element to a modelled Python set (list with distinct members):
insert only if absent, so that the list length is the set's cardinality. -/
def setAdd (s : List PyStr) (x : PyStr) : List PyStr :=
  if x ∈ s then s else s ++ [x]

/-- Fuel-driven decimal printer (most significant digit first). -/
def natDigitsAux : Nat → Nat → PyStr
  | 0, _ => []
  | fuel + 1, n =>
    if n < 10 then [Char.ofNat (48 + n)]
    else natDigitsAux fuel (n / 10) ++ [Char.ofNat (48 + n % 10)]

/-- Decimal digit characters of a natural number (Python `str(n)`). -/
def pyNatStr (n : Nat) : PyStr :=
  natDigitsAux (n + 1) n

/-- Model of `" | ".join(cells)`-style joining. -/
def pyJoin (sep : PyStr) : List PyStr → PyStr
  | [] => []
  | [x] => x
  | x :: xs => x ++ sep ++ pyJoin sep xs

/-!
## Embedding of src/dedup.py
-/

/-- Scanner for `extract_section` (src/dedup.py lines 6-22): walks the lines
carrying the current index and the `start` marker; a line whose stripped
form starts with the section title (re)sets `start` to the next index and
skips the heading test; once `start` is set, the first line starting with
`"## "` ends the section.  Returns `(start?, end?)`. -/
def sectionScan (title : PyStr) : List PyStr → Nat → Option Nat → Option Nat × Option Nat
  | [], _, st => (st, none)
  | l :: rest, i, st =>
    if pyStartswith (pyStrip l) title then
      sectionScan title rest (i + 1) (some (i + 1))
    else if st.isSome ∧ pyStartswith l (pstr "## ") then
      (st, some i)
    else
      sectionScan title rest (i + 1) st

/-- `extract_section(md_text, section_title)` from src/dedup.py: the lines
strictly between the section-title line and the next `"## "` heading
(or the end of the text), rejoined with newlines; `""` when the title is
absent. -/
def extract_section (md_text section_title : PyStr) : PyStr :=
  let lines := splitNL md_text
  match sectionScan section_title lines 0 none with
  | (none, _) => []
  | (some s, e?) =>
    let e := e?.getD lines.length
    joinNL ((lines.drop s).take (e - s))

/-- Split on pipes not preceded by a backslash, tracking the previous
character — the model of `re.split(r'(?<!\\)\|', row_text)`. -/
def splitUP (prev : Option Char) : PyStr → List PyStr
  | [] => [[]]
  | c :: rest =>
    if c = '|' ∧ prev ≠ some '\\' then
      [] :: splitUP (some c) rest
    else
      match splitUP (some c) rest with
      | h :: t => (c :: h) :: t
      | [] => [[c]]

/-- `split_row` from `parse_table` (src/dedup.py lines 34-36): strip the row,
split on unescaped pipes, drop the first and last pieces (`[1:-1]`) and
strip each cell. -/
def split_row (row_text : PyStr) : List PyStr :=
  (((splitUP none (pyStrip row_text)).drop 1).dropLast).map pyStrip

/-- `parse_table(section_md)` from src/dedup.py lines 24-47: pipe-prefixed
lines form the table; the first is the header, the second the separator;
later rows are kept only when their column count matches the header's.
Returns `(header_cols, parsed_rows, (header_line, separator_line))`. -/
def parse_table (section_md : PyStr) :
    List PyStr × List (List PyStr) × (PyStr × PyStr) :=
  let lines := (splitNL section_md).filter (fun l => pyStartswith (pyStrip l) (pstr "|"))
  if lines.length < 3 then ([], [], ([], []))
  else
    let header := lines.headI
    let separator := lines.getD 1 []
    let rows := lines.drop 2
    let header_cols := split_row header
    let parsed_rows := rows.foldl
      (fun acc row =>
        if (split_row row).length = header_cols.length then acc ++ [split_row row] else acc) []
    (header_cols, parsed_rows, (header, separator))

/-- Try to match `\((https?://[^\)]+)\)` at the head of `s`, returning the
captured URL. -/
def matchUrlAt : PyStr → Option PyStr
  | '(' :: rest =>
    let scheme : Option (PyStr × PyStr) :=
      if pyStartswith rest (pstr "https://") then some (pstr "https://", rest.drop 8)
      else if pyStartswith rest (pstr "http://") then some (pstr "http://", rest.drop 7)
      else none
    match scheme with
    | none => none
    | some (sch, rest2) =>
      let chunk := rest2.takeWhile (fun c => ¬ (c = ')'))
      if chunk = [] then none
      else
        match rest2.drop chunk.length with
        | ')' :: _ => some (sch ++ chunk)
        | _ => none
  | _ => none

/-- Leftmost match of the URL pattern, as `re.search` finds it. -/
def urlScan : PyStr → Option PyStr
  | [] => none
  | c :: rest =>
    match matchUrlAt (c :: rest) with
    | some u => some u
    | none => urlScan rest

/-- The prefix of `s` before the first occurrence of `marker`
(`s.split(marker)[0]` for nonempty `marker`). -/
def splitFirstPrefix (s marker : PyStr) : PyStr :=
  if marker.isPrefixOf s then []
  else
    match s with
    | [] => []
    | c :: rest => c :: splitFirstPrefix rest marker

/-- `extract_article_url(cell)` from src/dedup.py lines 49-54: leftmost
parenthesised `http(s)` URL with any `&hl=` tracking suffix stripped. -/
def extract_article_url (cell : PyStr) : Option PyStr :=
  (urlScan cell).map (fun u => splitFirstPrefix u (pstr "&hl="))

/-- A GitHub comment as consumed by `apply_deduplication`: only the
`"body"` entry is read (`comment.get("body") or ""`). -/
structure Comment where
  body : Option PyStr
  deriving DecidableEq

/-- `comment.get("body") or ""`. -/
def commentBody (c : Comment) : PyStr := c.body.getD []

/-- The News section title used by src/dedup.py. -/
def newsTitle : PyStr := pstr "## 📰 News"

/-- The Cases section title used by src/dedup.py. -/
def casesTitle : PyStr := pstr "## ⚖️ Cases"

/-- News half of the base-snapshot loop (src/dedup.py lines 70-78):
collect article URLs from one historical body into the accumulated set. -/
def baseArticleSetOfBody (acc : List PyStr) (body : PyStr) : List PyStr :=
  let t := parse_table (extract_section body newsTitle)
  if pstr "제목" ∈ t.1 then
    let idx := pyIndexOf t.1 (pstr "제목")
    t.2.1.foldl
      (fun s r =>
        match extract_article_url (r.getD idx []) with
        | some url => if url ≠ [] then setAdd s url else s
        | none => s) acc
  else acc

/-- `base_article_set` accumulated over every historical comment. -/
def baseArticleSet (comments : List Comment) : List PyStr :=
  comments.foldl (fun s c => baseArticleSetOfBody s (commentBody c)) []

/-- Cases half of the base-snapshot loop (src/dedup.py lines 80-86):
collect docket numbers from one historical body. -/
def baseDocketSetOfBody (acc : List PyStr) (body : PyStr) : List PyStr :=
  let t := parse_table (extract_section body casesTitle)
  if pstr "도켓번호" ∈ t.1 then
    let idx := pyIndexOf t.1 (pstr "도켓번호")
    t.2.1.foldl (fun s r => setAdd s (r.getD idx [])) acc
  else acc

/-- `base_docket_set` accumulated over every historical comment. -/
def baseDocketSet (comments : List Comment) : List PyStr :=
  comments.foldl (fun s c => baseDocketSetOfBody s (commentBody c)) []

/-- The placeholder emitted when a section has no new rows. -/
def zeroLine : PyStr := pstr "새로운 소식이 0건입니다."

/-- `"| " + " | ".join(r) + " |"` — the emitted form of a table row. -/
def rowLine (r : List PyStr) : PyStr :=
  pstr "| " ++ pyJoin (pstr " | ") r ++ pstr " |"

/-- `r[no_idx] = str(row_idx)` before emission, when a `No.` column exists. -/
def renumberRow (noIdx : Option Nat) (i : Nat) (r : List PyStr) : List PyStr :=
  match noIdx with
  | some k => r.set k (pyNatStr i)
  | none => r

/-- Emit `header, separator` then the rows renumbered from 1. -/
def emitTable (meta : PyStr × PyStr) (noIdx : Option Nat) (rows : List (List PyStr)) : PyStr :=
  joinNL ([meta.1, meta.2] ++ rows.enum.map (fun p => rowLine (renumberRow noIdx (p.1 + 1) p.2)))

/-- Is this News row a duplicate (its extracted URL already in the base
set)?  `None in set` is `False` in Python, hence the `none` branch. -/
def newsDup (baseSet : List PyStr) (titleIdx : Nat) (r : List PyStr) : Bool :=
  match extract_article_url (r.getD titleIdx []) with
  | some url => decide (url ∈ baseSet)
  | none => false

/-- News processing of the current report (src/dedup.py lines 88-122):
returns the rewritten markdown together with `total_article_count` and
`new_article_count`.  Duplicate rows are dropped (only non-skip rows are
emitted); when no row is new the whole section is replaced by the
zero-count line.  The source also computes `date_idx` here but never uses
it. -/
def newsStage (md : PyStr) (baseSet : List PyStr) : PyStr × Nat × Nat :=
  let sec := extract_section md newsTitle
  let t := parse_table sec
  let total := t.2.1.length
  if t.1 ≠ [] ∧ pstr "제목" ∈ t.1 then
    let titleIdx := pyIndexOf t.1 (pstr "제목")
    let noIdx := if pstr "No." ∈ t.1 then some (pyIndexOf t.1 (pstr "No.")) else none
    let newRows := t.2.1.foldl (fun acc r => if newsDup baseSet titleIdx r then acc else acc ++ [r]) []
    let nn := newRows.length
    let newSec := if nn = 0 then zeroLine ++ pstr "\n" else emitTable t.2.2 noIdx newRows
    (pyReplace md sec newSec, total, nn)
  else (md, total, 0)

/-- Message of the `TypeError` Python raises for `r[case_idx]` when
`case_idx` is `None` (src/dedup.py line 143). -/
def typeErrorMsg : PyStr :=
  pstr "TypeError: list indices must be integers or slices, not NoneType"

/-- The Cases row loop of src/dedup.py lines 140-146.  Each row's docket
cell is looked up in the base set.  A duplicate row runs
`debug_log(f"Skipping duplicate Case: {r[case_idx]} ({docket})")` whose
f-string evaluates `r[case_idx]` before `debug_log` is even entered:
when the header has no 케이스명 column, `case_idx` is `None` and the
lookup raises `TypeError`; with a 케이스명 column the duplicate row is
simply skipped.  A non-duplicate row is appended to `non_skip_rows`. -/
def casesLoop (baseSet : List PyStr) (docketIdx : Nat) (caseIdx : Option Nat) :
    List (List PyStr) → Except PyStr (List (List PyStr))
  | [] => Except.ok []
  | r :: rest =>
      if r.getD docketIdx [] ∈ baseSet then
        match caseIdx with
        | none => Except.error typeErrorMsg
        | some _ => casesLoop baseSet docketIdx caseIdx rest
      else
        match casesLoop baseSet docketIdx caseIdx rest with
        | Except.error e => Except.error e
        | Except.ok l => Except.ok (r :: l)

/-- Cases processing of the current report (src/dedup.py lines 124-158),
analogous to `newsStage` with the docket-number cell as identity, except
that the duplicate branch's debug f-string indexes the row with
`case_idx` (line 143): when the header lacks 케이스명 and some row is a
duplicate, the stage raises `TypeError` instead of returning.  The
source also computes `status_idx` (line 134), which is never used. -/
def casesStage (md : PyStr) (baseSet : List PyStr) : Except PyStr (PyStr × Nat × Nat) :=
  let sec := extract_section md casesTitle
  let t := parse_table sec
  let total := t.2.1.length
  if t.1 ≠ [] ∧ pstr "도켓번호" ∈ t.1 then
    let docketIdx := pyIndexOf t.1 (pstr "도켓번호")
    let noIdx := if pstr "No." ∈ t.1 then some (pyIndexOf t.1 (pstr "No.")) else none
    let caseIdx := if pstr "케이스명" ∈ t.1 then some (pyIndexOf t.1 (pstr "케이스명")) else none
    match casesLoop baseSet docketIdx caseIdx t.2.1 with
    | Except.error e => Except.error e
    | Except.ok newRows =>
        let nn := newRows.length
        let newSec := if nn = 0 then zeroLine ++ pstr "\n" else emitTable t.2.2 noIdx newRows
        Except.ok (pyReplace md sec newSec, total, nn)
  else Except.ok (md, total, 0)

/-- The summary block prepended by `apply_deduplication`
(src/dedup.py lines 166-175). -/
def summaryHeader (bn dn nn bc dc nc : Nat) : PyStr :=
  pstr "### 중복 제거 요약:\n🔁 Dedup Summary\n└ News " ++ pyNatStr bn ++
  pstr " (Baseline): " ++ pyNatStr dn ++ pstr " (Dup), " ++ pyNatStr nn ++
  pstr " (New)\n└ Cases " ++ pyNatStr bc ++ pstr " (Baseline): " ++ pyNatStr dc ++
  pstr " (Dup), " ++ pyNatStr nc ++ pstr " (New)\n\n"

/-- The observable outcome of one `apply_deduplication` run: the rewritten
report plus the counters that feed the summary block. -/
structure DedupOut where
  md : PyStr
  baseNews : Nat
  baseCases : Nat
  newsTotal : Nat
  newsNew : Nat
  casesTotal : Nat
  casesNew : Nat
  deriving DecidableEq

/-- The body of `apply_deduplication` after the empty-comments early
return: base sets, News rewrite, then Cases rewrite on the News-rewritten
text, with all counters.  The Cases stage's `TypeError` propagates. -/
def dedupRun (md : PyStr) (comments : List Comment) : Except PyStr DedupOut :=
  let A := baseArticleSet comments
  let D := baseDocketSet comments
  let n := newsStage md A
  match casesStage n.1 D with
  | Except.error e => Except.error e
  | Except.ok c => Except.ok ⟨c.1, A.length, D.length, n.2.1, n.2.2, c.2.1, c.2.2⟩

/-- `apply_deduplication(md, comments)` from src/dedup.py lines 56-177:
returns `md` unchanged when there are no historical comments, otherwise
prepends the dedup summary (duplicate counts are `total - new`) to the
rewritten report; the `TypeError` of the Cases loop escapes to the
caller. -/
def apply_deduplication (md : PyStr) (comments : List Comment) : Except PyStr PyStr :=
  if comments = [] then Except.ok md
  else
    match dedupRun md comments with
    | Except.error e => Except.error e
    | Except.ok o =>
        Except.ok (summaryHeader o.baseNews (o.newsTotal - o.newsNew) o.newsNew o.baseCases
          (o.casesTotal - o.casesNew) o.casesNew ++ o.md)

/-!
## Embedding of the inline dedup block of src/run.py (lines 130-324)

`main` re-defines `extract_section`, `parse_table` and
`extract_article_url` with bodies identical to src/dedup.py (only the
degenerate metadata value of `parse_table` differs — `()` instead of
`("", "")` — and it is consumed only in the guarded branch where at
least three lines exist), so those models are shared.  The row
processing differs from src/dedup.py: duplicate rows are kept, masked
with `"skip"` outside a fixed set of preserved columns, and appended
after the new rows.
-/

/-- Mask one duplicate row (src/run.py lines 236-242 and 281-287): keep
the cells whose index is in the preserved tuple, replace the rest by
`"skip"`.  `i in (no_idx, date_idx, title_idx)` never equates an `int`
with `None`, hence the `Option Nat` membership. -/
def maskRow (keep : List (Option Nat)) (r : List PyStr) : List PyStr :=
  r.enum.map (fun p => if some p.1 ∈ keep then p.2 else pstr "skip")

/-- News processing of src/run.py lines 216-257: new rows first, masked
duplicate rows after them, `No.` renumbered over the concatenation; the
section is rebuilt even when nothing is new. -/
def runNewsStage (md : PyStr) (baseSet : List PyStr) : PyStr × Nat × Nat :=
  let sec := extract_section md newsTitle
  let t := parse_table sec
  let total := t.2.1.length
  if t.1 ≠ [] ∧ pstr "제목" ∈ t.1 then
    let titleIdx := pyIndexOf t.1 (pstr "제목")
    let noIdx := if pstr "No." ∈ t.1 then some (pyIndexOf t.1 (pstr "No.")) else none
    let dateIdx := if pstr "기사일자⬇️" ∈ t.1 then some (pyIndexOf t.1 (pstr "기사일자⬇️")) else none
    let acc := t.2.1.foldl
      (fun acc r =>
        if newsDup baseSet titleIdx r then
          (acc.1, acc.2.1 ++ [maskRow [noIdx, dateIdx, some titleIdx] r], acc.2.2)
        else (acc.1 ++ [r], acc.2.1, acc.2.2 + 1))
      (([] : List (List PyStr)), ([] : List (List PyStr)), (0 : Nat))
    let finalRows := acc.1 ++ acc.2.1
    (pyReplace md sec (emitTable t.2.2 noIdx finalRows), total, acc.2.2)
  else (md, total, 0)

/-- Cases processing of src/run.py lines 260-302, with preserved columns
`No.`, `상태`, `케이스명`, `도켓번호`. -/
def runCasesStage (md : PyStr) (baseSet : List PyStr) : PyStr × Nat × Nat :=
  let sec := extract_section md casesTitle
  let t := parse_table sec
  let total := t.2.1.length
  if t.1 ≠ [] ∧ pstr "도켓번호" ∈ t.1 then
    let docketIdx := pyIndexOf t.1 (pstr "도켓번호")
    let noIdx := if pstr "No." ∈ t.1 then some (pyIndexOf t.1 (pstr "No.")) else none
    let statusIdx := if pstr "상태" ∈ t.1 then some (pyIndexOf t.1 (pstr "상태")) else none
    let caseIdx := if pstr "케이스명" ∈ t.1 then some (pyIndexOf t.1 (pstr "케이스명")) else none
    let acc := t.2.1.foldl
      (fun acc r =>
        if decide (r.getD docketIdx [] ∈ baseSet) then
          (acc.1, acc.2.1 ++ [maskRow [noIdx, statusIdx, caseIdx, some docketIdx] r], acc.2.2)
        else (acc.1 ++ [r], acc.2.1, acc.2.2 + 1))
      (([] : List (List PyStr)), ([] : List (List PyStr)), (0 : Nat))
    let finalRows := acc.1 ++ acc.2.1
    (pyReplace md sec (emitTable t.2.2 noIdx finalRows), total, acc.2.2)
  else (md, total, 0)

/-- The baseline-comparison block of src/run.py `main` (lines 127-324):
skipped entirely on the first run of the day (no comments), otherwise the
summary block is prepended to the rewritten report. -/
def runMainDedup (md : PyStr) (comments : List Comment) : PyStr :=
  if comments = [] then md
  else
    let A := baseArticleSet comments
    let D := baseDocketSet comments
    let n := runNewsStage md A
    let c := runCasesStage n.1 D
    summaryHeader A.length (n.2.1 - n.2.2) n.2.2 D.length (c.2.1 - c.2.2) c.2.2 ++ c.1

/-!
## Embedding of src/courtlistener.py and the aggregation in src/run.py
-/

/-- A scalar held in a search-hit dictionary: the source distinguishes
`isinstance(v, int)` from string values. -/
inductive PyVal where
  | int (i : Int)
  | str (s : PyStr)
  deriving DecidableEq

/-- A CourtListener search hit, restricted to the keys the embedded code
reads. -/
structure Hit where
  docket_id : Option PyVal := none
  docketId : Option PyVal := none
  docket : Option PyVal := none
  absolute_url : Option PyStr := none
  url : Option PyStr := none
  caseName : Option PyStr := none
  title : Option PyStr := none
  dateFiled : Option PyStr := none
  date_filed : Option PyStr := none
  deriving DecidableEq

/-- The value when it is a Python `int` (`isinstance(v, int)`). -/
def asInt : Option PyVal → Option Int
  | some (.int v) => some v
  | _ => none

/-- Decimal digits to a number (`int(m.group(1))`). -/
def digitsToNat (ds : PyStr) : Nat :=
  ds.foldl (fun n c => 10 * n + (c.toNat - '0'.toNat)) 0

/-- Try `/dockets/(\d+)/` at the head of `s`. -/
def docketsAt (s : PyStr) : Option Int :=
  if pyStartswith s (pstr "/dockets/") then
    let rest := s.drop 9
    let ds := rest.takeWhile Char.isDigit
    if ds ≠ [] then
      match rest.drop ds.length with
      | '/' :: _ => some (digitsToNat ds)
      | _ => none
    else none
  else none

/-- Leftmost match of `re.search(r"/dockets/(\d+)/", s)`. -/
def scanDockets : PyStr → Option Int
  | [] => none
  | c :: rest =>
    match docketsAt (c :: rest) with
    | some v => some v
    | none => scanDockets rest

/-- `_pick_docket_id(hit)` from src/courtlistener.py lines 302-318: an
integer under `docket_id`, `docketId` or `docket`, else the number
pattern-matched out of a string `docket` URL. -/
def pick_docket_id (h : Hit) : Option Int :=
  match asInt h.docket_id with
  | some v => some v
  | none =>
    match asInt h.docketId with
    | some v => some v
    | none =>
      match asInt h.docket with
      | some v => some v
      | none =>
        match h.docket with
        | some (.str s) => scanDockets s
        | _ => none

/-- First truthy string in the chain, else `""` — the Python
`a or b or ""` idiom over optional string fields. -/
def firstTruthy : List (Option PyStr) → PyStr
  | [] => []
  | x :: rest =>
    match x with
    | some s => if s ≠ [] then s else firstTruthy rest
    | none => firstTruthy rest

/-- Python-dict model: keys keep their first-insertion position, a
repeated key overwrites the stored value. -/
def upsert {α β : Type} [DecidableEq α] (m : List (α × β)) (k : α) (v : β) : List (α × β) :=
  if m.any (fun p => decide (p.1 = k)) then
    m.map (fun p => if p.1 = k then (k, v) else p)
  else m ++ [(k, v)]

/-- The hit-dedup key of src/run.py line 57:
`(absolute_url or url or "") + "|" + (caseName or title or "")`. -/
def hitKey (h : Hit) : PyStr :=
  firstTruthy [h.absolute_url, h.url] ++ pstr "|" ++ firstTruthy [h.caseName, h.title]

/-- The hit dedup of src/run.py lines 55-59: a dict keyed by `hitKey`,
then its values. -/
def hitDedup (hits : List Hit) : List Hit :=
  ((hits.foldl (fun m h => upsert m (hitKey h) h) []).map Prod.snd)

/-- Loop body of `build_case_summaries_from_hits`: record a resolution
call when the picked docket id is truthy (nonzero). -/
def resCallStep (acc : List Int) (h : Hit) : List Int :=
  match pick_docket_id h with
  | some d => if d ≠ 0 then acc ++ [d] else acc
  | none => acc

/-- The docket ids for which `build_case_summaries_from_hits`
(src/courtlistener.py lines 348-358) invokes the resolution chain
`build_case_summary_from_docket_id`: one call per hit whose picked docket
id is truthy (nonzero). -/
def resolutionCalls (hits : List Hit) : List Int :=
  hits.foldl resCallStep []

/-- The resolution calls issued by `main` for the search hits: the hit
dedup of src/run.py lines 55-59 followed by
`build_case_summaries_from_hits` (src/run.py line 63). -/
def mainResolutionCalls (hits : List Hit) : List Int :=
  resolutionCalls (hitDedup hits)

/-- Spec-side quantity for claim C5: the distinct truthy docket
identifiers derivable from the raw hits, in first-appearance order. -/
def distinctDocketIds (hits : List Hit) : List Int :=
  hits.foldl
    (fun acc h =>
      match pick_docket_id h with
      | some d => if d ≠ 0 ∧ d ∉ acc then acc ++ [d] else acc
      | none => acc) []

/-- `CLCaseSummary` from src/courtlistener.py lines 57-78. -/
structure CLCaseSummary where
  docket_id : Int
  case_name : PyStr := []
  docket_number : PyStr := []
  court : PyStr := []
  court_short_name : PyStr := []
  court_api_url : PyStr := []
  date_filed : PyStr := []
  status : PyStr := []
  judge : PyStr := []
  magistrate : PyStr := []
  nature_of_suit : PyStr := []
  cause : PyStr := []
  parties : PyStr := []
  complaint_doc_no : PyStr := []
  complaint_link : PyStr := []
  complaint_type : PyStr := []
  recent_updates : PyStr := []
  extracted_causes : PyStr := []
  extracted_ai_snippet : PyStr := []
  docket_candidates : PyStr := []
  deriving DecidableEq

/-- The case merge of src/run.py lines 78-79:
`merged_cases = {c.docket_id: c for c in (cl_cases + extra_cases + extra_cases_by_title)}`
followed by `list(merged_cases.values())`. -/
def mergeCases (cs : List CLCaseSummary) : List CLCaseSummary :=
  ((cs.foldl (fun m c => upsert m c.docket_id c) []).map Prod.snd)

/-- A RECAP document record, restricted to the keys read by the
complaint-selection loop. -/
structure RecapDoc where
  description : Option PyStr := none
  date_filed : Option PyStr := none
  document_number : Option PyStr := none
  filepath_local : Option PyStr := none
  absolute_url : Option PyStr := none
  deriving DecidableEq

/-- `_safe_str` from src/courtlistener.py lines 85-86 over an optional
string. -/
def safeStr (x : Option PyStr) : PyStr :=
  match x with
  | some s => pyStrip s
  | none => []

/-- ASCII lowercasing, the model of `str.lower()` (all keywords compared
against are ASCII). -/
def pyLower (s : PyStr) : PyStr := s.map Char.toLower

/-- `COMPLAINT_KEYWORDS` from src/courtlistener.py lines 27-32. -/
def complaintKeywords : List PyStr :=
  [pstr "complaint", pstr "amended complaint", pstr "petition", pstr "class action complaint"]

/-- Does the document's description contain a complaint keyword
(case-insensitively)? -/
def matchesComplaint (d : RecapDoc) : Bool :=
  complaintKeywords.any (fun k => containsSub (pyLower (safeStr d.description)) k)

/-- The complaint-document selection of
`build_case_summary_from_docket_id` (src/courtlistener.py lines 580-587):
walk the paginated documents in order and stop at the first whose
description matches a complaint keyword. -/
def complaintPick : List RecapDoc → Option RecapDoc
  | [] => none
  | d :: rest => if matchesComplaint d then some d else complaintPick rest

/-- A calendar date as produced by `datetime.fromisoformat(...).date()`. -/
structure PDate where
  y : Nat
  m : Nat
  d : Nat
  deriving DecidableEq

/-- Gregorian leap year. -/
def isLeap (y : Nat) : Bool :=
  (y % 4 = 0 ∧ y % 100 ≠ 0) ∨ y % 400 = 0

/-- Length of a month. -/
def daysInMonth (y m : Nat) : Nat :=
  if m = 2 then (if isLeap y then 29 else 28)
  else if m = 4 ∨ m = 6 ∨ m = 9 ∨ m = 11 then 30
  else 31

/-- Days before month `m` in a non-leap year. -/
def cumMonthDays : Nat → Nat
  | 1 => 0
  | 2 => 31
  | 3 => 59
  | 4 => 90
  | 5 => 120
  | 6 => 151
  | 7 => 181
  | 8 => 212
  | 9 => 243
  | 10 => 273
  | 11 => 304
  | 12 => 334
  | _ => 0

/-- Rata-die day number of a date: the denotation of a Python `date`
object; Python's `date` ordering and `timedelta` arithmetic coincide
with ordering and subtraction of these numbers. -/
def toRD (dt : PDate) : Nat :=
  let p := dt.y - 1
  365 * p + p / 4 + p / 400 - p / 100 + cumMonthDays dt.m +
    (if 2 < dt.m ∧ isLeap dt.y then 1 else 0) + dt.d

/-- Modelled from `datetime.fromisoformat` restricted to the dashed
`YYYY-MM-DD` form (the shape CourtListener emits): the stdlib call is
not part of the repository; garbage strings yield `none` exactly as the
stdlib raises `ValueError`. -/
def parseIsoDate (s : PyStr) : Option PDate :=
  match s with
  | [y1, y2, y3, y4, h1, m1, m2, h2, d1, d2] =>
    if ([y1, y2, y3, y4, m1, m2, d1, d2].all Char.isDigit) ∧ h1 = '-' ∧ h2 = '-' then
      let y := digitsToNat [y1, y2, y3, y4]
      let m := digitsToNat [m1, m2]
      let d := digitsToNat [d1, d2]
      if 1 ≤ m ∧ m ≤ 12 ∧ 1 ≤ d ∧ d ≤ daysInMonth y m then some ⟨y, m, d⟩ else none
    else none
  | _ => none

/-- The exception escaping the date-filter `except` block of
src/courtlistener.py line 285: the handler's debug print references `e`,
which is not bound by the bare `except Exception:` clause. -/
def nameErrorMsg : PyStr := pstr "NameError: name 'e' is not defined"

/-- The date-filtering loop of `search_recent_documents`
(src/courtlistener.py lines 270-287): keep an item when its date is
missing, or parses to a date not strictly before `today - days`; an
unparseable nonempty date string reaches the broken handler and raises.
`build_complaint_documents_from_hits` lines 448-463 repeats the same
pattern (including the unbound `e`). -/
def searchDateFilter (todayRD days : Int) : List Hit → Except PyStr (List Hit)
  | [] => .ok []
  | r :: rest =>
    let dateVal := pyStrip (firstTruthy [r.dateFiled, r.date_filed])
    let keep : Except PyStr Bool :=
      if dateVal ≠ [] then
        match parseIsoDate (dateVal.take 10) with
        | some dt => .ok (decide (¬ ((toRD dt : Int) < todayRD - days)))
        | none => .error nameErrorMsg
      else .ok true
    match keep with
    | .error msg => .error msg
    | .ok true => (searchDateFilter todayRD days rest).map (fun out => r :: out)
    | .ok false => searchDateFilter todayRD days rest

/-!
## Embedding of the risk scorers (src/render.py)
-/

/-- Group 1, unauthorized data collection (+30). -/
def riskGroup1 : List PyStr :=
  [pstr "scrape", pstr "crawl", pstr "ingest", pstr "harvest", pstr "mining",
   pstr "extraction", pstr "bulk", pstr "collection", pstr "robots.txt",
   pstr "common crawl", pstr "laion", pstr "the pile", pstr "bookcorpus",
   pstr "unauthorized"]

/-- Group 2, model training (+30). -/
def riskGroup2 : List PyStr :=
  [pstr "train", pstr "training", pstr "model", pstr "llm", pstr "generative ai",
   pstr "genai", pstr "gpt", pstr "transformer", pstr "weight", pstr "fine-tune",
   pstr "diffusion", pstr "inference"]

/-- Group 3, commercial use (+15). -/
def riskGroup3 : List PyStr :=
  [pstr "commercial", pstr "profit", pstr "monetiz", pstr "revenue",
   pstr "subscription", pstr "enterprise", pstr "paid", pstr "for-profit"]

/-- Group 4 for News, copyright/statutory keywords including the literal
`820` code (+15). -/
def riskGroup4News : List PyStr :=
  [pstr "copyright", pstr "infringement", pstr "dmca", pstr "fair use",
   pstr "derivative", pstr "exclusive", pstr "820"]

/-- Group 4 for Cases, textual copyright keywords (+15); the `820`
nature-of-suit code is tested separately. -/
def riskGroup4Case : List PyStr :=
  [pstr "copyright", pstr "infringement", pstr "dmca", pstr "fair use",
   pstr "derivative", pstr "exclusive"]

/-- Group 5, class action (+10). -/
def riskGroup5 : List PyStr :=
  [pstr "class action", pstr "putative class", pstr "representative"]

/-- `any(k in text for k in group)`. -/
def groupHit (text : PyStr) (g : List PyStr) : Bool :=
  g.any (fun k => containsSub text k)

/-- `calculate_news_risk_score(title, reason)` from src/render.py
lines 54-78: sequential keyword-group additions over the lowercased
`f"{title or ''} {reason or ''}"`, capped by `min(score, 100)`. -/
def calculate_news_risk_score (title reason : Option PyStr) : Nat :=
  let text := pyLower ((title.getD []) ++ pstr " " ++ (reason.getD []))
  let score := 0
  let score := score + (if groupHit text riskGroup1 then 30 else 0)
  let score := score + (if groupHit text riskGroup2 then 30 else 0)
  let score := score + (if groupHit text riskGroup3 then 15 else 0)
  let score := score + (if groupHit text riskGroup4News then 15 else 0)
  let score := score + (if groupHit text riskGroup5 then 10 else 0)
  min score 100

/-- `calculate_case_risk_score(case)` from src/render.py lines 94-119:
the same groups over the lowercased snippet-and-causes text, with the
copyright group also triggered by `"820" in case.nature_of_suit`. -/
def calculate_case_risk_score (c : CLCaseSummary) : Nat :=
  let text := pyLower (c.extracted_ai_snippet ++ pstr " " ++ c.extracted_causes)
  let score := 0
  let score := score + (if groupHit text riskGroup1 then 30 else 0)
  let score := score + (if groupHit text riskGroup2 then 30 else 0)
  let score := score + (if groupHit text riskGroup3 then 15 else 0)
  let score := score +
    (if (c.nature_of_suit ≠ [] ∧ containsSub c.nature_of_suit (pstr "820")) ∨
        groupHit text riskGroup4Case then 15 else 0)
  let score := score + (if groupHit text riskGroup5 then 10 else 0)
  min score 100

/-!
## Spec-side reference quantities
-/

/-- The spec's reading of the News risk score: each keyword group
contributes its fixed weight exactly once when any of its keywords is
present (presence, not occurrence count). -/
def newsRiskRaw (title reason : Option PyStr) : Nat :=
  let text := pyLower ((title.getD []) ++ pstr " " ++ (reason.getD []))
  (if groupHit text riskGroup1 then 30 else 0) +
  (if groupHit text riskGroup2 then 30 else 0) +
  (if groupHit text riskGroup3 then 15 else 0) +
  (if groupHit text riskGroup4News then 15 else 0) +
  (if groupHit text riskGroup5 then 10 else 0)

/-- The spec's reading of the Cases risk score, with the copyright group
present when the nature-of-suit carries code 820 or a copyright keyword
occurs in the text. -/
def caseRiskRaw (c : CLCaseSummary) : Nat :=
  let text := pyLower (c.extracted_ai_snippet ++ pstr " " ++ c.extracted_causes)
  (if groupHit text riskGroup1 then 30 else 0) +
  (if groupHit text riskGroup2 then 30 else 0) +
  (if groupHit text riskGroup3 then 15 else 0) +
  (if (c.nature_of_suit ≠ [] ∧ containsSub c.nature_of_suit (pstr "820")) ∨
      groupHit text riskGroup4Case then 15 else 0) +
  (if groupHit text riskGroup5 then 10 else 0)

/-!
## Claim C4: the merged case list never repeats a docket id
-/

/-- Invariant of the `{c.docket_id: c}` dict: every stored value carries
its key, and keys are pairwise distinct. -/
def MergeInv (m : List (Int × CLCaseSummary)) : Prop :=
  (∀ p ∈ m, p.2.docket_id = p.1) ∧ (m.map Prod.fst).Nodup

/-!
## Claim C5: resolution calls are bounded by the URL-and-name hit dedup,
not by distinct docket ids
-/

/-- Does a hit trigger a resolution call (`if did:` after
`_pick_docket_id`, Python truthiness)? -/
def hitResolvable (h : Hit) : Bool :=
  match pick_docket_id h with
  | some d => decide (d ≠ 0)
  | none => false

/-- Two raw hits for docket 555 that differ in their `absolute_url`. -/
def exHitA : Hit := { docket_id := some (.int 555), absolute_url := some (pstr "https://a") }

/-- Second hit for docket 555 with a different URL. -/
def exHitB : Hit := { docket_id := some (.int 555), absolute_url := some (pstr "https://b") }

/-!
## Claim C6: which matching docket entry becomes the operative complaint
-/

/-- A complaint-matching document with the earlier filing date. -/
def exDocEarly : RecapDoc :=
  { description := some (pstr "COMPLAINT against OpenFoo"),
    date_filed := some (pstr "2020-01-01") }

/-- A complaint-matching document with the later filing date. -/
def exDocLate : RecapDoc :=
  { description := some (pstr "Amended Complaint"),
    date_filed := some (pstr "2024-06-01") }

/-- Rata-die value of a document's filing date (0 when unparseable) —
the temporal order the claim refers to. -/
def docDateRD (d : RecapDoc) : Nat :=
  (parseIsoDate (safeStr d.date_filed)).elim 0 toRD

/-!
## Claim C7: date filtering boundaries and the broken fail-open branch
-/

/-- A search hit carrying an unparseable filing-date string. -/
def exBadDateHit : Hit := { dateFiled := some (pstr "unknown") }

/-- A hit dated exactly three days before 2026-10-12. -/
def exBoundaryHit : Hit := { dateFiled := some (pstr "2026-10-09") }

/-- A hit dated four days before 2026-10-12. -/
def exExpiredHit : Hit := { dateFiled := some (pstr "2026-10-08") }

/-- A hit with no filing date at all. -/
def exNoDateHit : Hit := { }

/-- A historical body whose Cases table has one well-formed row and one
row with a surplus column. -/
def exC8body : PyStr :=
  pstr "## ⚖️ Cases\n| No. | 도켓번호 |\n|---|---|\n| 1 | D1 |\n| 2 | D2 | extra |"

/-!
## Claim C1: duplicate docket rows are counted as duplicates, not new
-/

/-- A current report with two case rows, one already seen. -/
def exC1md : PyStr :=
  pstr "## ⚖️ Cases\n| No. | 도켓번호 |\n|---|---|\n| 1 | D1 |\n| 2 | D2 |"

/-- One historical comment whose Cases table already lists docket D1. -/
def exC1hist : List Comment :=
  [⟨some (pstr "## ⚖️ Cases\n| No. | 도켓번호 |\n|---|---|\n| 1 | D1 |")⟩]

/-- The same two-row report with a 케이스명 column, on which the Cases
loop's duplicate logging does not crash. -/
def exC1mdCase : PyStr :=
  pstr "## ⚖️ Cases\n| No. | 케이스명 | 도켓번호 |\n|---|---|---|\n| 1 | A | D1 |\n| 2 | B | D2 |"

/-- A current three-column Cases report (with 케이스명) holding one
already-seen docket D1 and one new docket D2. -/
def exC2caseMd : PyStr :=
  pstr "## ⚖️ Cases\n| No. | 케이스명 | 도켓번호 |\n|---|---|---|\n| 1 | A | D1 |\n| 2 | B | D2 |"

/-- The output dedup.py produces for `exC2caseMd` against a history that
already holds D1: the duplicate D1 row is gone. -/
def exC2caseOut : PyStr :=
  summaryHeader 0 0 0 1 1 1 ++
    pstr "## ⚖️ Cases\n| No. | 케이스명 | 도켓번호 |\n|---|---|---|\n| 1 | B | D2 |"

/-- A current News report with one already-seen and one new article,
plus a detail column that the inline dedup masks. -/
def exC2newsMd : PyStr :=
  pstr "## 📰 News\n| No. | 제목 | 소송사유 |\n|---|---|---|\n| 1 | [t](https://a.com) | r1 |\n| 2 | [u](https://b.com) | r2 |"

/-- Is the head (if any) a non-whitespace character? -/
def headNotWS (c : PyStr) : Bool :=
  match c with
  | [] => true
  | a :: _ => !pySpace a

/-- Scan over `s` without splitting: true when no unescaped pipe is hit,
starting from the given previous character. -/
def pipeFree : Option Char → PyStr → Bool
  | _, [] => true
  | prev, c :: rest => if c = '|' ∧ prev ≠ some '\\' then false else pipeFree (some c) rest

/-- The previous-character state after scanning `s`. -/
def scanPrev : Option Char → PyStr → Option Char
  | prev, [] => prev
  | _, c :: rest => scanPrev (some c) rest

/-- A cell is well formed when it is stripped (non-whitespace at both
ends), contains no unescaped pipe in row context, and has no newline. -/
def goodCell (c : PyStr) : Bool :=
  headNotWS c && headNotWS c.reverse && pipeFree (some ' ') c && !(decide ('\n' ∈ c))

/-- A well-formed separator line: starts with a pipe, ends in
non-whitespace, has no newline. -/
def goodSep (s : PyStr) : Bool :=
  pyStartswith s (pstr "|") && headNotWS s.reverse && !(decide ('\n' ∈ s))

/-- The emitted line list of one Markdown table: header row, separator,
data rows. -/
def tableLines (hdr : List PyStr) (sep : PyStr) (rows : List (List PyStr)) : List PyStr :=
  rowLine hdr :: sep :: rows.map rowLine

/-- The "└ News ..." summary line with its three variable counters. -/
def summaryLine3 (bn dn nn : Nat) : PyStr :=
  pstr "└ News " ++ pyNatStr bn ++ pstr " (Baseline): " ++ pyNatStr dn ++
    pstr " (Dup), " ++ pyNatStr nn ++ pstr " (New)"

/-- The "└ Cases ..." summary line with its three variable counters. -/
def summaryLine4 (bc dc nc : Nat) : PyStr :=
  pstr "└ Cases " ++ pyNatStr bc ++ pstr " (Baseline): " ++ pyNatStr dc ++
    pstr " (Dup), " ++ pyNatStr nc ++ pstr " (New)"

/-- The News heading line emitted by the renderer. -/
def newsHeadingLine : PyStr := pstr "## 📰 News"

/-- The Cases heading line emitted by the renderer. -/
def casesHeadingLine : PyStr := pstr "## ⚖️ Cases (Courtlistener+RECAP)"

/-- A well-formed two-section report in the renderer's shape: the News
heading, a News table, the Cases heading, a Cases table. -/
def mkReport (nh : List PyStr) (nsep : PyStr) (nrows : List (List PyStr))
    (ch : List PyStr) (csep : PyStr) (crows : List (List PyStr)) : PyStr :=
  joinNL (newsHeadingLine ::
    (tableLines nh nsep nrows ++ casesHeadingLine :: tableLines ch csep crows))

/-- Well-formedness of one table's data. -/
def goodTable (hdr : List PyStr) (sep : PyStr) (rows : List (List PyStr)) : Prop :=
  hdr ≠ [] ∧ (∀ c ∈ hdr, goodCell c = true) ∧ goodSep sep = true ∧ rows ≠ [] ∧
    ∀ r ∈ rows, r ≠ [] ∧ (∀ c ∈ r, goodCell c = true) ∧ r.length = hdr.length

/-- The new (non-duplicate) News rows kept by the News stage. -/
def newRowsN (A : List PyStr) (tIdx : Nat) (rows : List (List PyStr)) : List (List PyStr) :=
  rows.filter (fun r => !newsDup A tIdx r)

/-- The new (non-duplicate) Cases rows kept by the Cases stage. -/
def newRowsC (D : List PyStr) (dIdx : Nat) (rows : List (List PyStr)) : List (List PyStr) :=
  rows.filter (fun x => !(decide (x.getD dIdx [] ∈ D)))

/-- The optional index of the `No.` column of a header. -/
def noIdxOf (hdr : List PyStr) : Option Nat :=
  if pstr "No." ∈ hdr then some (pyIndexOf hdr (pstr "No.")) else none

/-- The emitted rows: kept rows renumbered from 1 in the `No.` column. -/
def renumbered (noIdx : Option Nat) (rows : List (List PyStr)) : List (List PyStr) :=
  rows.enum.map (fun p => renumberRow noIdx (p.1 + 1) p.2)

/-- The lines a stage writes back into its section: the zero-count line
when nothing is new, otherwise the renumbered table. -/
def outLines (hdr : List PyStr) (sep : PyStr) (noIdx : Option Nat)
    (rows' : List (List PyStr)) : List PyStr :=
  if rows'.length = 0 then [zeroLine, []] else tableLines hdr sep (renumbered noIdx rows')

/-- The five lines of the prepended dedup summary block. -/
def summaryLines (bn dn nn bc dc nc : Nat) : List PyStr :=
  [pstr "### 중복 제거 요약:", pstr "🔁 Dedup Summary",
   summaryLine3 bn dn nn, summaryLine4 bc dc nc, []]

/-- A concrete News header for the C10 witness. -/
def exC10nh : List PyStr := [pstr "No.", pstr "제목"]

/-- A concrete News data row whose article URL is already historical. -/
def exC10nrows : List (List PyStr) := [[pstr "1", pstr "[T](http://u)"]]

/-- A concrete Cases header for the C10 witness. -/
def exC10ch : List PyStr := [pstr "No.", pstr "도켓번호"]

/-- A concrete Cases data row whose docket number is already historical. -/
def exC10crows : List (List PyStr) := [[pstr "1", pstr "D1"]]

/-- The shared separator line of the C10 witness tables. -/
def exC10sep : PyStr := pstr "|---|---|"

/-- A one-comment history already holding the URL and the docket number of
the current report's rows. -/
def exC10hist : List Comment :=
  [⟨some (pstr "## 📰 News\n| No. | 제목 |\n|---|---|\n| 1 | [T](http://u) |\n## ⚖️ Cases\n| No. | 도켓번호 |\n|---|---|\n| 1 | D1 |")⟩]

/-- The history of the next run: the previous history plus the previous
run's output posted as a new historical comment. -/
def histAfter (md : PyStr) (comments : List Comment) : List Comment :=
  comments ++ [⟨(apply_deduplication md comments).toOption⟩]

/-- A current report whose single News row has a plain-text title cell
with no markdown link. -/
def exC3md : PyStr := pstr "## 📰 News\n| No. | 제목 |\n|---|---|\n| 1 | plain |"

/-- A nonempty but unrelated one-comment history. -/
def exC3hist : List Comment := [⟨some (pstr "x")⟩]

/-- News header of the C3 amended-theorem witness. -/
def exC3nh : List PyStr := [pstr "No.", pstr "제목"]

/-- News data row of the C3 amended-theorem witness, whose title cell
carries a markdown link. -/
def exC3nrows : List (List PyStr) := [[pstr "2", pstr "[S](http://v)"]]

/-- Cases header of the C3 amended-theorem witness. -/
def exC3ch : List PyStr := [pstr "No.", pstr "케이스명", pstr "도켓번호"]

/-- Cases data row of the C3 amended-theorem witness. -/
def exC3crows : List (List PyStr) := [[pstr "7", pstr "K", pstr "D9"]]

/-- Separator line of the C3 amended-theorem witness tables. -/
def exC3sep : PyStr := pstr "|---|---|"

/-- Cases header of the C10 amended-theorem witness, carrying the
케이스명 column that keeps the duplicate logging from crashing. -/
def exC10chC : List PyStr := [pstr "No.", pstr "케이스명", pstr "도켓번호"]

/-- Cases data row of the C10 amended-theorem witness, whose docket
number is already historical. -/
def exC10crowsC : List (List PyStr) := [[pstr "1", pstr "K", pstr "D1"]]

/-!
## General helper lemmas
-/

theorem ite_weight_le (b : Bool) (w : Nat) : (if b then w else 0) ≤ w := by
  cases b <;> simp

theorem foldl_snoc_filter {α : Type} (p : α → Bool) :
    ∀ (l acc : List α),
      l.foldl (fun acc x => if p x then acc else acc ++ [x]) acc =
        acc ++ l.filter (fun x => !p x) := by
  intro l
  induction l with
  | nil => intro acc; simp
  | cons a t ih =>
    intro acc
    by_cases h : p a = true <;> simp [List.foldl_cons, h, ih, List.filter_cons]

theorem foldl_concat_map {α β : Type} (g : α → List β) :
    ∀ (l : List α) (acc : List β),
      l.foldl (fun acc x => acc ++ g x) acc = acc ++ l.flatMap g := by
  intro l
  induction l with
  | nil => intro acc; simp
  | cons a t ih => intro acc; simp [List.foldl_cons, ih, List.flatMap_cons]

theorem length_filter_add_length_filter_not {α : Type} (p : α → Bool) (l : List α) :
    (l.filter p).length + (l.filter (fun x => !p x)).length = l.length := by
  induction l with
  | nil => simp
  | cons a t ih =>
    by_cases h : p a = true <;> simp [List.filter_cons, h, ← ih] <;> omega

/-- Claim C9: both risk scorers are pure functions equal to the additive
group-weight sum (30/30/15/15/10, one contribution per present group
regardless of occurrence counts, presence being `any keyword in text`),
the raw sum never exceeds 100, and the returned value is the sum capped
at 100 and hence lies in [0, 100]. -/
theorem risk_scorers_are_capped_group_sums :
    (∀ title reason : Option PyStr,
      calculate_news_risk_score title reason = min (newsRiskRaw title reason) 100 ∧
      newsRiskRaw title reason ≤ 100 ∧
      calculate_news_risk_score title reason ≤ 100) ∧
    (∀ c : CLCaseSummary,
      calculate_case_risk_score c = min (caseRiskRaw c) 100 ∧
      caseRiskRaw c ≤ 100 ∧
      calculate_case_risk_score c ≤ 100) := by
  constructor
  · intro title reason
    have heq : calculate_news_risk_score title reason = min (newsRiskRaw title reason) 100 := by
      simp [calculate_news_risk_score, newsRiskRaw]
    have hle : newsRiskRaw title reason ≤ 100 := by
      have hraw : newsRiskRaw title reason =
          (if groupHit (pyLower ((title.getD []) ++ pstr " " ++ (reason.getD []))) riskGroup1 then 30 else 0) +
          (if groupHit (pyLower ((title.getD []) ++ pstr " " ++ (reason.getD []))) riskGroup2 then 30 else 0) +
          (if groupHit (pyLower ((title.getD []) ++ pstr " " ++ (reason.getD []))) riskGroup3 then 15 else 0) +
          (if groupHit (pyLower ((title.getD []) ++ pstr " " ++ (reason.getD []))) riskGroup4News then 15 else 0) +
          (if groupHit (pyLower ((title.getD []) ++ pstr " " ++ (reason.getD []))) riskGroup5 then 10 else 0) := by
        simp [newsRiskRaw]
      rw [hraw]
      have h1 := ite_weight_le (groupHit (pyLower ((title.getD []) ++ pstr " " ++ (reason.getD []))) riskGroup1) 30
      have h2 := ite_weight_le (groupHit (pyLower ((title.getD []) ++ pstr " " ++ (reason.getD []))) riskGroup2) 30
      have h3 := ite_weight_le (groupHit (pyLower ((title.getD []) ++ pstr " " ++ (reason.getD []))) riskGroup3) 15
      have h4 := ite_weight_le (groupHit (pyLower ((title.getD []) ++ pstr " " ++ (reason.getD []))) riskGroup4News) 15
      have h5 := ite_weight_le (groupHit (pyLower ((title.getD []) ++ pstr " " ++ (reason.getD []))) riskGroup5) 10
      omega
    exact ⟨heq, hle, by rw [heq]; exact min_le_right _ _⟩
  · intro c
    have heq : calculate_case_risk_score c = min (caseRiskRaw c) 100 := by
      simp [calculate_case_risk_score, caseRiskRaw]
    have hle : caseRiskRaw c ≤ 100 := by
      have hraw : caseRiskRaw c =
          (if groupHit (pyLower (c.extracted_ai_snippet ++ pstr " " ++ c.extracted_causes)) riskGroup1 then 30 else 0) +
          (if groupHit (pyLower (c.extracted_ai_snippet ++ pstr " " ++ c.extracted_causes)) riskGroup2 then 30 else 0) +
          (if groupHit (pyLower (c.extracted_ai_snippet ++ pstr " " ++ c.extracted_causes)) riskGroup3 then 15 else 0) +
          (if (c.nature_of_suit ≠ [] ∧ containsSub c.nature_of_suit (pstr "820")) ∨
              groupHit (pyLower (c.extracted_ai_snippet ++ pstr " " ++ c.extracted_causes)) riskGroup4Case
              then 15 else 0) +
          (if groupHit (pyLower (c.extracted_ai_snippet ++ pstr " " ++ c.extracted_causes)) riskGroup5 then 10 else 0) := by
        simp [caseRiskRaw]
      rw [hraw]
      have h1 := ite_weight_le (groupHit (pyLower (c.extracted_ai_snippet ++ pstr " " ++ c.extracted_causes)) riskGroup1) 30
      have h2 := ite_weight_le (groupHit (pyLower (c.extracted_ai_snippet ++ pstr " " ++ c.extracted_causes)) riskGroup2) 30
      have h3 := ite_weight_le (groupHit (pyLower (c.extracted_ai_snippet ++ pstr " " ++ c.extracted_causes)) riskGroup3) 15
      have h5 := ite_weight_le (groupHit (pyLower (c.extracted_ai_snippet ++ pstr " " ++ c.extracted_causes)) riskGroup5) 10
      have h4 : (if (c.nature_of_suit ≠ [] ∧ containsSub c.nature_of_suit (pstr "820")) ∨
          groupHit (pyLower (c.extracted_ai_snippet ++ pstr " " ++ c.extracted_causes)) riskGroup4Case
          then 15 else 0) ≤ 15 := by split <;> simp
      omega
    exact ⟨heq, hle, by rw [heq]; exact min_le_right _ _⟩

theorem upsert_merge_inv (m : List (Int × CLCaseSummary)) (c : CLCaseSummary)
    (h : MergeInv m) : MergeInv (upsert m c.docket_id c) := by
  obtain ⟨hval, hnd⟩ := h
  unfold upsert
  split
  · constructor
    · intro p hp
      simp only [List.mem_map] at hp
      obtain ⟨q, hq, hpq⟩ := hp
      by_cases hk : q.1 = c.docket_id
      · subst hpq; simp [hk]
      · subst hpq; simp [hk]; exact hval q hq
    · have : ((m.map (fun p => if p.1 = c.docket_id then (c.docket_id, c) else p)).map Prod.fst)
          = m.map Prod.fst := by
        rw [List.map_map]
        apply List.map_congr_left
        intro p _
        by_cases hk : p.1 = c.docket_id <;> simp [hk]
      rw [this]; exact hnd
  · rename_i hnotin
    constructor
    · intro p hp
      rcases List.mem_append.mp hp with h1 | h1
      · exact hval p h1
      · simp at h1; subst h1; rfl
    · rw [List.map_append]
      simp only [List.map_cons, List.map_nil]
      rw [List.nodup_append]
      refine ⟨hnd, List.nodup_singleton _, ?_⟩
      intro a ha
      simp only [List.mem_map] at ha
      obtain ⟨q, hq, hqa⟩ := ha
      simp only [List.mem_singleton]
      intro hcontra
      apply hnotin
      rw [List.any_eq_true]
      exact ⟨q, hq, by simp [hqa, hcontra]⟩

theorem foldl_merge_inv (cs : List CLCaseSummary) :
    ∀ m, MergeInv m → MergeInv (cs.foldl (fun m c => upsert m c.docket_id c) m) := by
  induction cs with
  | nil => intro m h; exact h
  | cons c t ih =>
    intro m h
    exact ih _ (upsert_merge_inv m c h)

/-- Claim C4: however the three discovery paths populate the three input
lists, the merged case list of src/run.py lines 78-79 contains at most
one `CLCaseSummary` per docket identifier. -/
theorem merged_cases_docket_ids_nodup (l1 l2 l3 : List CLCaseSummary) :
    ((mergeCases (l1 ++ l2 ++ l3)).map (fun c => c.docket_id)).Nodup := by
  have hinv := foldl_merge_inv (l1 ++ l2 ++ l3) [] ⟨by simp, by simp⟩
  obtain ⟨hval, hnd⟩ := hinv
  unfold mergeCases
  have : (((l1 ++ l2 ++ l3).foldl (fun m c => upsert m c.docket_id c) []).map Prod.snd).map
      (fun c => c.docket_id) =
      ((l1 ++ l2 ++ l3).foldl (fun m c => upsert m c.docket_id c) []).map Prod.fst := by
    rw [List.map_map]
    apply List.map_congr_left
    intro p hp
    exact hval p hp
  rw [this]
  exact hnd

/-- Counterexample to claim C5 as stated: two hits that both resolve to
docket 555 but differ in URL survive the composite-key dedup of
src/run.py lines 55-59, so two resolution calls are issued for one
distinct docket id. -/
theorem resolution_calls_exceed_distinct_dockets :
    mainResolutionCalls [exHitA, exHitB] = [555, 555] ∧
    distinctDocketIds [exHitA, exHitB] = [555] ∧
    ¬ (mainResolutionCalls [exHitA, exHitB]).length =
        (distinctDocketIds [exHitA, exHitB]).length := by
  refine ⟨by decide, by decide, by decide⟩

theorem resCallStep_eq (acc : List Int) (h : Hit) :
    resCallStep acc h = if hitResolvable h then acc ++ [(pick_docket_id h).getD 0] else acc := by
  unfold resCallStep hitResolvable
  rcases pick_docket_id h with _ | d
  · simp
  · by_cases hz : d = 0 <;> simp [hz]

theorem resolutionCalls_go_length (hits : List Hit) :
    ∀ acc : List Int,
      (hits.foldl resCallStep acc).length = acc.length + (hits.filter hitResolvable).length := by
  induction hits with
  | nil => intro acc; simp
  | cons h t ih =>
    intro acc
    rw [List.foldl_cons, resCallStep_eq, List.filter_cons]
    by_cases hr : hitResolvable h = true
    · rw [if_pos hr, if_pos hr, ih]
      simp
      omega
    · rw [if_neg hr, if_neg hr, ih]

/-- Claim C5 as amended: `main` dedups hits by the composite
`(absolute_url or url) + "|" + (caseName or title)` key before resolving,
so the number of resolution calls equals the number of post-dedup hits
that yield a truthy docket id (not the number of distinct docket ids);
hits that agree on the composite key do collapse to a single entry. -/
theorem resolution_calls_follow_hit_key_dedup (hits : List Hit) (h1 h2 : Hit)
    (hk : hitKey h1 = hitKey h2) :
    (mainResolutionCalls hits).length = ((hitDedup hits).filter hitResolvable).length ∧
    hitDedup [h1, h2] = [h2] := by
  constructor
  · unfold mainResolutionCalls resolutionCalls
    simpa using resolutionCalls_go_length (hitDedup hits) []
  · show (List.foldl (fun m h => upsert m (hitKey h) h) [] [h1, h2]).map Prod.snd = [h2]
    rw [List.foldl_cons, List.foldl_cons, List.foldl_nil]
    have h0 : upsert ([] : List (PyStr × Hit)) (hitKey h1) h1 = [(hitKey h1, h1)] := by
      unfold upsert
      simp
    rw [h0]
    have hcond : ([(hitKey h1, h1)].any (fun p => decide (p.1 = hitKey h2))) = true := by
      simp [hk]
    unfold upsert
    rw [if_pos hcond]
    simp [hk]

/-- Witness for the amended C5: evaluated at the two distinct-URL hits
and at a repeated identical hit. -/
theorem resolution_calls_follow_hit_key_dedup_witness :
    (mainResolutionCalls [exHitA, exHitB]).length =
      ((hitDedup [exHitA, exHitB]).filter hitResolvable).length ∧
    hitDedup [exHitA, exHitA] = [exHitA] :=
  resolution_calls_follow_hit_key_dedup [exHitA, exHitB] exHitA exHitA rfl

/-- Counterexample to claim C6 as stated: with two keyword-matching
documents, src/courtlistener.py lines 580-587 selects the first in
pagination order even though a strictly later-dated match exists, so the
selected entry is not the latest-dated matching entry. -/
theorem complaint_pick_ignores_dates :
    complaintPick [exDocEarly, exDocLate] = some exDocEarly ∧
    matchesComplaint exDocLate = true ∧
    docDateRD exDocEarly < docDateRD exDocLate := by
  refine ⟨by decide, by decide, by decide⟩

/-- Claim C6 as amended: the operative complaint is exactly the first
entry of the paginated document list (in pagination order) whose
description contains a complaint keyword; filing dates play no role. -/
theorem complaint_pick_is_first_match (docs : List RecapDoc) (d : RecapDoc) :
    complaintPick docs = some d ↔
      ∃ pre post, docs = pre ++ d :: post ∧ matchesComplaint d = true ∧
        ∀ x ∈ pre, matchesComplaint x = false := by
  induction docs with
  | nil =>
    simp only [complaintPick]
    constructor
    · intro h; cases h
    · rintro ⟨pre, post, h, -, -⟩
      exact absurd h (by simp)
  | cons a t ih =>
    by_cases ha : matchesComplaint a = true
    · simp only [complaintPick, ha, if_pos rfl, reduceIte]
      constructor
      · intro h
        injection h with h
        exact ⟨[], t, by simp [h], h ▸ ha, by simp⟩
      · rintro ⟨pre, post, heq, hd, hpre⟩
        cases pre with
        | nil =>
          simp only [List.nil_append, List.cons.injEq] at heq
          simp [heq.1]
        | cons p ps =>
          simp only [List.cons_append, List.cons.injEq] at heq
          have hpf := hpre p (by simp)
          rw [← heq.1] at hpf
          rw [ha] at hpf
          exact Bool.noConfusion hpf
    · have ha' : matchesComplaint a = false := by
        cases hx : matchesComplaint a
        · rfl
        · exact absurd hx ha
      simp only [complaintPick, ha', Bool.false_eq_true, if_false]
      rw [ih]
      constructor
      · rintro ⟨pre, post, heq, hd, hpre⟩
        refine ⟨a :: pre, post, by simp [heq], hd, ?_⟩
        intro x hx
        rcases List.mem_cons.mp hx with h | h
        · subst h; exact ha'
        · exact hpre x h
      · rintro ⟨pre, post, heq, hd, hpre⟩
        cases pre with
        | nil =>
          simp only [List.nil_append, List.cons.injEq] at heq
          rw [← heq.1] at hd
          rw [ha'] at hd
          exact Bool.noConfusion hd
        | cons p ps =>
          simp only [List.cons_append, List.cons.injEq] at heq
          refine ⟨ps, post, heq.2, hd, ?_⟩
          intro x hx
          exact hpre x (by simp [hx])

/-- Witness for the amended C6: the first-match characterisation applied
to a concrete two-document list. -/
theorem complaint_pick_is_first_match_witness :
    complaintPick [exDocEarly, exDocLate] = some exDocEarly :=
  (complaint_pick_is_first_match [exDocEarly, exDocLate] exDocEarly).mpr
    ⟨[], [exDocLate], rfl, by decide, by simp⟩

/-- Evaluation of the date-filtering loop of `search_recent_documents`
at `today = 2026-10-12`, `days = 3`: the item dated exactly three days
ago is kept, the item dated four days ago is dropped, the dateless item
is kept, but an unparseable date string reaches the `except` handler
whose debug print references the unbound name `e`, so the function
raises `NameError` instead of failing open. -/
theorem search_date_filter_boundaries_and_crash :
    searchDateFilter ((toRD ⟨2026, 10, 12⟩ : Nat) : Int) 3 [exBoundaryHit] = .ok [exBoundaryHit] ∧
    searchDateFilter ((toRD ⟨2026, 10, 12⟩ : Nat) : Int) 3 [exExpiredHit] = .ok [] ∧
    searchDateFilter ((toRD ⟨2026, 10, 12⟩ : Nat) : Int) 3 [exNoDateHit] = .ok [exNoDateHit] ∧
    searchDateFilter ((toRD ⟨2026, 10, 12⟩ : Nat) : Int) 3 [exBadDateHit] = .error nameErrorMsg := by
  refine ⟨rfl, rfl, rfl, rfl⟩

/-!
## Claim C8: escaped pipes and column-count rejection in table parsing
-/

theorem table_fold_mem_length (n : Nat) :
    ∀ (rows : List PyStr) (acc : List (List PyStr)),
      (∀ x ∈ acc, x.length = n) →
      ∀ x ∈ rows.foldl
          (fun acc row => if (split_row row).length = n then acc ++ [split_row row] else acc) acc,
        x.length = n := by
  intro rows
  induction rows with
  | nil => intro acc hacc x hx; exact hacc x hx
  | cons row t ih =>
    intro acc hacc x hx
    rw [List.foldl_cons] at hx
    by_cases hlen : (split_row row).length = n
    · rw [if_pos hlen] at hx
      refine ih _ ?_ x hx
      intro y hy
      rcases List.mem_append.mp hy with h | h
      · exact hacc y h
      · simp at h; subst h; exact hlen
    · rw [if_neg hlen] at hx
      exact ih _ hacc x hx

/-- Claim C8: (a) every row kept by `parse_table` has exactly the
header's column count; (b) an escaped pipe (`\|`) inside a cell does not
open an extra column; (c) concretely, a row whose column count disagrees
with the header is rejected — it appears neither among the parsed data
rows nor in the docket identity set built from the comment. -/
theorem table_parsing_row_discipline :
    (∀ (s : PyStr) (hdr : List PyStr) (rows : List (List PyStr)) (meta : PyStr × PyStr),
        parse_table s = (hdr, rows, meta) → ∀ r ∈ rows, r.length = hdr.length) ∧
    split_row (pstr "| 1 | a \\| b | c |") = [pstr "1", pstr "a \\| b", pstr "c"] ∧
    parse_table (extract_section exC8body casesTitle) =
      ([pstr "No.", pstr "도켓번호"], [[pstr "1", pstr "D1"]],
        (pstr "| No. | 도켓번호 |", pstr "|---|---|")) ∧
    baseDocketSet [⟨some exC8body⟩] = [pstr "D1"] := by
  refine ⟨?_, by decide, by decide, by decide⟩
  intro s hdr rows meta hparse r hr
  unfold parse_table at hparse
  dsimp only at hparse
  split at hparse
  · injection hparse with h1 h2
    injection h2 with h2 h3
    subst h2
    cases hr
  · injection hparse with h1 h2
    injection h2 with h2 h3
    subst h1
    subst h2
    exact table_fold_mem_length _ _ [] (by simp) r hr

/-- Witness for C8 part (a): the kept row of the concrete example indeed
has the header's column count. -/
theorem table_parsing_row_discipline_witness :
    ([pstr "1", pstr "D1"] : List PyStr) ∈
      [([pstr "1", pstr "D1"] : List PyStr)] ∧
    ([pstr "1", pstr "D1"] : List PyStr).length = ([pstr "No.", pstr "도켓번호"] : List PyStr).length :=
  ⟨by decide,
    table_parsing_row_discipline.1 (extract_section exC8body casesTitle)
      [pstr "No.", pstr "도켓번호"] [[pstr "1", pstr "D1"]]
      (pstr "| No. | 도켓번호 |", pstr "|---|---|") (by decide)
      [pstr "1", pstr "D1"] (by decide)⟩

/-!
## Stage characterisation lemmas for the dedup engine
-/

theorem casesLoop_cons (baseSet : List PyStr) (docketIdx : Nat) (caseIdx : Option Nat)
    (r : List PyStr) (rest : List (List PyStr)) :
    casesLoop baseSet docketIdx caseIdx (r :: rest) =
      if r.getD docketIdx [] ∈ baseSet then
        match caseIdx with
        | none => Except.error typeErrorMsg
        | some _ => casesLoop baseSet docketIdx caseIdx rest
      else
        match casesLoop baseSet docketIdx caseIdx rest with
        | Except.error e => Except.error e
        | Except.ok l => Except.ok (r :: l) := rfl

theorem casesLoop_ok (baseSet : List PyStr) (docketIdx : Nat) (caseIdx : Option Nat) :
    ∀ rows : List (List PyStr),
      (caseIdx ≠ none ∨ ∀ r ∈ rows, r.getD docketIdx [] ∉ baseSet) →
      casesLoop baseSet docketIdx caseIdx rows =
        Except.ok (rows.filter (fun x => !(decide (x.getD docketIdx [] ∈ baseSet)))) := by
  intro rows
  induction rows with
  | nil => intro _; rfl
  | cons r rest ih =>
    intro h
    rw [casesLoop_cons]
    have htail : caseIdx ≠ none ∨ ∀ x ∈ rest, x.getD docketIdx [] ∉ baseSet := by
      rcases h with h | h
      · exact Or.inl h
      · exact Or.inr (fun x hx => h x (List.mem_cons.mpr (Or.inr hx)))
    by_cases hd : r.getD docketIdx [] ∈ baseSet
    · rw [if_pos hd]
      rcases Option.eq_none_or_eq_some caseIdx with hk | ⟨k, hk⟩
      · rcases h with h | h
        · exact absurd hk h
        · exact absurd hd (h r (List.mem_cons.mpr (Or.inl rfl)))
      · subst hk
        dsimp only
        rw [ih htail]
        rw [List.filter_cons_of_neg (by
          simp only [Bool.not_eq_true', decide_eq_false_iff_not, not_not]
          exact hd)]
    · rw [if_neg hd]
      rw [ih htail]
      rw [List.filter_cons_of_pos (by
        simp only [Bool.not_eq_true', decide_eq_false_iff_not]
        exact hd)]

theorem casesLoop_error (baseSet : List PyStr) (docketIdx : Nat) :
    ∀ rows : List (List PyStr), (∃ r ∈ rows, r.getD docketIdx [] ∈ baseSet) →
      casesLoop baseSet docketIdx none rows = Except.error typeErrorMsg := by
  intro rows
  induction rows with
  | nil =>
    rintro ⟨r, hr, _⟩
    cases hr
  | cons r rest ih =>
    rintro ⟨x, hx, hdx⟩
    rw [casesLoop_cons]
    by_cases hd : r.getD docketIdx [] ∈ baseSet
    · rw [if_pos hd]
    · rw [if_neg hd]
      rcases List.mem_cons.mp hx with rfl | hx'
      · exact absurd hdx hd
      · rw [ih ⟨x, hx', hdx⟩]

theorem casesStage_spec (md : PyStr) (D : List PyStr) (hdr : List PyStr)
    (rows : List (List PyStr)) (meta : PyStr × PyStr)
    (hparse : parse_table (extract_section md casesTitle) = (hdr, rows, meta))
    (hcol : pstr "도켓번호" ∈ hdr)
    (hsafe : pstr "케이스명" ∈ hdr ∨
      ∀ r ∈ rows, r.getD (pyIndexOf hdr (pstr "도켓번호")) [] ∉ D) :
    casesStage md D = Except.ok
      (pyReplace md (extract_section md casesTitle)
        (if (rows.filter (fun x =>
              !(decide (x.getD (pyIndexOf hdr (pstr "도켓번호")) [] ∈ D)))).length = 0
         then zeroLine ++ pstr "\n"
         else emitTable meta (if pstr "No." ∈ hdr then some (pyIndexOf hdr (pstr "No.")) else none)
            (rows.filter (fun x =>
              !(decide (x.getD (pyIndexOf hdr (pstr "도켓번호")) [] ∈ D))))),
       rows.length,
       (rows.filter (fun x =>
          !(decide (x.getD (pyIndexOf hdr (pstr "도켓번호")) [] ∈ D)))).length) := by
  unfold casesStage
  dsimp only
  rw [hparse]
  dsimp only
  rw [if_pos ⟨List.ne_nil_of_mem hcol, hcol⟩]
  have hcond : (if pstr "케이스명" ∈ hdr then some (pyIndexOf hdr (pstr "케이스명")) else none) ≠
      none ∨ ∀ r ∈ rows, r.getD (pyIndexOf hdr (pstr "도켓번호")) [] ∉ D := by
    rcases hsafe with h | h
    · exact Or.inl (by simp [h])
    · exact Or.inr h
  rw [casesLoop_ok D (pyIndexOf hdr (pstr "도켓번호")) _ rows hcond]

theorem casesStage_crash (md : PyStr) (D : List PyStr) (hdr : List PyStr)
    (rows : List (List PyStr)) (meta : PyStr × PyStr)
    (hparse : parse_table (extract_section md casesTitle) = (hdr, rows, meta))
    (hcol : pstr "도켓번호" ∈ hdr) (hnocase : pstr "케이스명" ∉ hdr)
    (hdup : ∃ r ∈ rows, r.getD (pyIndexOf hdr (pstr "도켓번호")) [] ∈ D) :
    casesStage md D = Except.error typeErrorMsg := by
  unfold casesStage
  dsimp only
  rw [hparse]
  dsimp only
  rw [if_pos ⟨List.ne_nil_of_mem hcol, hcol⟩]
  rw [if_neg hnocase]
  rw [casesLoop_error D (pyIndexOf hdr (pstr "도켓번호")) rows hdup]

theorem newsStage_spec (md : PyStr) (A : List PyStr) (hdr : List PyStr)
    (rows : List (List PyStr)) (meta : PyStr × PyStr)
    (hparse : parse_table (extract_section md newsTitle) = (hdr, rows, meta))
    (hcol : pstr "제목" ∈ hdr) :
    newsStage md A =
      (pyReplace md (extract_section md newsTitle)
        (if (rows.filter (fun r => !newsDup A (pyIndexOf hdr (pstr "제목")) r)).length = 0
         then zeroLine ++ pstr "\n"
         else emitTable meta (if pstr "No." ∈ hdr then some (pyIndexOf hdr (pstr "No.")) else none)
            (rows.filter (fun r => !newsDup A (pyIndexOf hdr (pstr "제목")) r))),
       rows.length,
       (rows.filter (fun r => !newsDup A (pyIndexOf hdr (pstr "제목")) r)).length) := by
  unfold newsStage
  dsimp only
  rw [hparse]
  dsimp only
  rw [if_pos ⟨List.ne_nil_of_mem hcol, hcol⟩]
  rw [foldl_snoc_filter (fun r => newsDup A (pyIndexOf hdr (pstr "제목")) r) rows []]
  rw [List.nil_append]

/-- Claim C1: when a row of the current report's Cases table (as the
engine parses it, after the News rewrite) carries a docket number already
present in the historical docket identity set, the intended accounting
holds only when the header also has a 케이스명 column: then the `new`
count is the number of rows whose docket is *not* in the base set, the
total is the number of parsed rows, the emitted duplicate figure
`total - new` equals the number of rows whose docket *is* in the base set
(which the given duplicate row makes positive), and the returned report
starts with the summary block carrying exactly those figures.  Without a
케이스명 column, the duplicate branch's debug f-string evaluates
`r[case_idx]` with `case_idx = None` (src/dedup.py line 143), so
`apply_deduplication` raises `TypeError` instead of emitting anything. -/
theorem dedup_counts_duplicate_docket_rows
    (md md1 : PyStr) (comments : List Comment) (hdr : List PyStr)
    (rows : List (List PyStr)) (meta : PyStr × PyStr) (r : List PyStr)
    (hne : comments ≠ [])
    (hmd1 : md1 = (newsStage md (baseArticleSet comments)).1)
    (hparse : parse_table (extract_section md1 casesTitle) = (hdr, rows, meta))
    (hcol : pstr "도켓번호" ∈ hdr)
    (hr : r ∈ rows)
    (hdup : r.getD (pyIndexOf hdr (pstr "도켓번호")) [] ∈ baseDocketSet comments) :
    (pstr "케이스명" ∈ hdr →
      ∃ o, dedupRun md comments = Except.ok o ∧
      o.casesNew =
        (rows.filter (fun x =>
          !(decide (x.getD (pyIndexOf hdr (pstr "도켓번호")) [] ∈ baseDocketSet comments)))).length ∧
      o.casesTotal = rows.length ∧
      rows.length - o.casesNew =
        (rows.filter (fun x =>
          decide (x.getD (pyIndexOf hdr (pstr "도켓번호")) [] ∈ baseDocketSet comments))).length ∧
      0 < (rows.filter (fun x =>
          decide (x.getD (pyIndexOf hdr (pstr "도켓번호")) [] ∈ baseDocketSet comments))).length ∧
      apply_deduplication md comments = Except.ok
        (summaryHeader o.baseNews (o.newsTotal - o.newsNew) o.newsNew o.baseCases
          ((rows.filter (fun x =>
            decide (x.getD (pyIndexOf hdr (pstr "도켓번호")) [] ∈ baseDocketSet comments))).length)
          ((rows.filter (fun x =>
            !(decide (x.getD (pyIndexOf hdr (pstr "도켓번호")) [] ∈ baseDocketSet comments)))).length)
        ++ o.md)) ∧
    (pstr "케이스명" ∉ hdr →
      apply_deduplication md comments = Except.error typeErrorMsg) := by
  have hsplit := length_filter_add_length_filter_not
    (fun x => decide (x.getD (pyIndexOf hdr (pstr "도켓번호")) [] ∈ baseDocketSet comments)) rows
  constructor
  · intro hcase
    have hstage := casesStage_spec md1 (baseDocketSet comments) hdr rows meta hparse hcol
      (Or.inl hcase)
    rw [hmd1] at hstage
    have hrun : dedupRun md comments = Except.ok
        ⟨pyReplace (newsStage md (baseArticleSet comments)).1
            (extract_section (newsStage md (baseArticleSet comments)).1 casesTitle)
            (if (rows.filter (fun x =>
                  !(decide (x.getD (pyIndexOf hdr (pstr "도켓번호")) [] ∈
                    baseDocketSet comments)))).length = 0
             then zeroLine ++ pstr "\n"
             else emitTable meta
                (if pstr "No." ∈ hdr then some (pyIndexOf hdr (pstr "No.")) else none)
                (rows.filter (fun x =>
                  !(decide (x.getD (pyIndexOf hdr (pstr "도켓번호")) [] ∈
                    baseDocketSet comments))))),
         (baseArticleSet comments).length, (baseDocketSet comments).length,
         (newsStage md (baseArticleSet comments)).2.1,
         (newsStage md (baseArticleSet comments)).2.2,
         rows.length,
         (rows.filter (fun x =>
            !(decide (x.getD (pyIndexOf hdr (pstr "도켓번호")) [] ∈
              baseDocketSet comments)))).length⟩ := by
      unfold dedupRun
      dsimp only
      rw [hstage]
    have hPos : 0 < (rows.filter (fun x =>
        decide (x.getD (pyIndexOf hdr (pstr "도켓번호")) [] ∈ baseDocketSet comments))).length := by
      have : r ∈ rows.filter (fun x =>
          decide (x.getD (pyIndexOf hdr (pstr "도켓번호")) [] ∈ baseDocketSet comments)) := by
        rw [List.mem_filter]
        exact ⟨hr, by simpa using hdup⟩
      exact List.length_pos.mpr (List.ne_nil_of_mem this)
    refine ⟨_, hrun, rfl, rfl, by dsimp only; omega, hPos, ?_⟩
    unfold apply_deduplication
    rw [if_neg hne]
    rw [hrun]
    dsimp only
    have hdupEq : rows.length -
        (rows.filter (fun x =>
          !(decide (x.getD (pyIndexOf hdr (pstr "도켓번호")) [] ∈
            baseDocketSet comments)))).length =
        (rows.filter (fun x =>
          decide (x.getD (pyIndexOf hdr (pstr "도켓번호")) [] ∈ baseDocketSet comments))).length := by
      omega
    rw [hdupEq]
  · intro hnocase
    have hcrash := casesStage_crash md1 (baseDocketSet comments) hdr rows meta hparse hcol
      hnocase ⟨r, hr, hdup⟩
    rw [hmd1] at hcrash
    unfold apply_deduplication
    rw [if_neg hne]
    unfold dedupRun
    dsimp only
    rw [hcrash]

/-- Witness for C1: with a 케이스명 column the engine reports one new and
one duplicate row on the concrete two-row report against a history
containing docket D1; on the same report without the 케이스명 column the
run ends in the `TypeError` of the duplicate-logging line. -/
theorem dedup_counts_duplicate_docket_rows_witness :
    (∃ o, dedupRun exC1mdCase exC1hist = Except.ok o ∧
      o.casesNew = 1 ∧ o.casesTotal = 2) ∧
    apply_deduplication exC1md exC1hist = Except.error typeErrorMsg := by
  have hA := (dedup_counts_duplicate_docket_rows exC1mdCase exC1mdCase exC1hist
    [pstr "No.", pstr "케이스명", pstr "도켓번호"]
    [[pstr "1", pstr "A", pstr "D1"], [pstr "2", pstr "B", pstr "D2"]]
    (pstr "| No. | 케이스명 | 도켓번호 |", pstr "|---|---|---|") [pstr "1", pstr "A", pstr "D1"]
    (by decide) (by decide) (by decide) (by decide) (by decide) (by decide)).1 (by decide)
  have hB := (dedup_counts_duplicate_docket_rows exC1md exC1md exC1hist
    [pstr "No.", pstr "도켓번호"] [[pstr "1", pstr "D1"], [pstr "2", pstr "D2"]]
    (pstr "| No. | 도켓번호 |", pstr "|---|---|") [pstr "1", pstr "D1"]
    (by decide) (by decide) (by decide) (by decide) (by decide) (by decide)).2 (by decide)
  obtain ⟨o, ho, h1, h2, _⟩ := hA
  exact ⟨⟨o, ho, by rw [h1]; decide, by rw [h2]; decide⟩, hB⟩

/-!
## Claim C2: what happens to duplicate rows in the emitted table
-/

theorem foldl_skip_partition (p : List PyStr → Bool) (f : List PyStr → List PyStr) :
    ∀ (l : List (List PyStr)) (a b : List (List PyStr)) (n : Nat),
      l.foldl
        (fun acc r =>
          if p r then (acc.1, acc.2.1 ++ [f r], acc.2.2)
          else (acc.1 ++ [r], acc.2.1, acc.2.2 + 1)) (a, b, n) =
      (a ++ l.filter (fun r => !p r), b ++ (l.filter p).map f,
        n + (l.filter (fun r => !p r)).length) := by
  intro l
  induction l with
  | nil => intro a b n; simp
  | cons x t ih =>
    intro a b n
    rw [List.foldl_cons]
    by_cases hx : p x = true
    · rw [if_pos hx, ih]
      simp [List.filter_cons, hx]
    · have hx' : p x = false := by
        cases hv : p x
        · rfl
        · exact absurd hv hx
      rw [if_neg (by simp [hx']), ih]
      simp [List.filter_cons, hx', List.append_assoc]
      omega

theorem runCasesStage_spec (md : PyStr) (D : List PyStr) (hdr : List PyStr)
    (rows : List (List PyStr)) (meta : PyStr × PyStr)
    (hparse : parse_table (extract_section md casesTitle) = (hdr, rows, meta))
    (hcol : pstr "도켓번호" ∈ hdr) :
    runCasesStage md D =
      (pyReplace md (extract_section md casesTitle)
        (emitTable meta (if pstr "No." ∈ hdr then some (pyIndexOf hdr (pstr "No.")) else none)
          (rows.filter (fun r =>
              !(decide (r.getD (pyIndexOf hdr (pstr "도켓번호")) [] ∈ D))) ++
           (rows.filter (fun r =>
              decide (r.getD (pyIndexOf hdr (pstr "도켓번호")) [] ∈ D))).map
             (maskRow [if pstr "No." ∈ hdr then some (pyIndexOf hdr (pstr "No.")) else none,
                       if pstr "상태" ∈ hdr then some (pyIndexOf hdr (pstr "상태")) else none,
                       if pstr "케이스명" ∈ hdr then some (pyIndexOf hdr (pstr "케이스명")) else none,
                       some (pyIndexOf hdr (pstr "도켓번호"))]))),
       rows.length,
       (rows.filter (fun r =>
          !(decide (r.getD (pyIndexOf hdr (pstr "도켓번호")) [] ∈ D)))).length) := by
  unfold runCasesStage
  dsimp only
  rw [hparse]
  dsimp only
  rw [if_pos ⟨List.ne_nil_of_mem hcol, hcol⟩]
  rw [foldl_skip_partition (fun r => decide (r.getD (pyIndexOf hdr (pstr "도켓번호")) [] ∈ D))]
  simp only [List.nil_append, Nat.zero_add]

theorem runNewsStage_spec (md : PyStr) (A : List PyStr) (hdr : List PyStr)
    (rows : List (List PyStr)) (meta : PyStr × PyStr)
    (hparse : parse_table (extract_section md newsTitle) = (hdr, rows, meta))
    (hcol : pstr "제목" ∈ hdr) :
    runNewsStage md A =
      (pyReplace md (extract_section md newsTitle)
        (emitTable meta (if pstr "No." ∈ hdr then some (pyIndexOf hdr (pstr "No.")) else none)
          (rows.filter (fun r => !newsDup A (pyIndexOf hdr (pstr "제목")) r) ++
           (rows.filter (fun r => newsDup A (pyIndexOf hdr (pstr "제목")) r)).map
             (maskRow [if pstr "No." ∈ hdr then some (pyIndexOf hdr (pstr "No.")) else none,
                       if pstr "기사일자⬇️" ∈ hdr then some (pyIndexOf hdr (pstr "기사일자⬇️")) else none,
                       some (pyIndexOf hdr (pstr "제목"))]))),
       rows.length,
       (rows.filter (fun r => !newsDup A (pyIndexOf hdr (pstr "제목")) r)).length) := by
  unfold runNewsStage
  dsimp only
  rw [hparse]
  dsimp only
  rw [if_pos ⟨List.ne_nil_of_mem hcol, hcol⟩]
  rw [foldl_skip_partition (fun r => newsDup A (pyIndexOf hdr (pstr "제목")) r)]
  simp only [List.nil_append, Nat.zero_add]

/-- Counterexample to claim C2 as stated: `apply_deduplication`
(src/dedup.py) does not keep duplicate rows — on the concrete input
(whose Cases header carries a 케이스명 column, so the run completes) the
duplicate docket `D1` row vanishes from the output entirely (no
placeholder row remains), refuting both "still emitted" and "never
silently removed". -/
theorem duplicate_rows_are_dropped_by_apply_deduplication :
    containsSub exC2caseMd (pstr "D1") = true ∧
    apply_deduplication exC2caseMd exC1hist = Except.ok exC2caseOut ∧
    containsSub exC2caseOut (pstr "D1") = false := by
  refine ⟨by decide, by decide, by decide⟩

/-- Claim C2 as amended: the two dedup implementations treat duplicate
rows differently.  In src/dedup.py (here on inputs whose Cases header
has a 케이스명 column or no duplicate, so the duplicate-logging line
does not raise) the emitted table holds exactly the non-duplicate rows,
in order, renumbered from 1 (duplicates are dropped; an all-duplicate
section collapses to the zero-count line).  In the inline dedup of
src/run.py `main`, duplicate rows are kept, but appended after the new
rows with every cell outside the preserved columns (`No.`/date/title
for News, `No.`/status/case-name/docket for Cases) overwritten by
`"skip"`, and the `No.` column renumbered continuously over the
new-then-duplicate order. -/
theorem dedup_row_emission_per_implementation
    (mdA mdB : PyStr) (D A : List PyStr) (hdrA hdrB : List PyStr)
    (rowsA rowsB : List (List PyStr)) (metaA metaB : PyStr × PyStr)
    (hparseA : parse_table (extract_section mdA casesTitle) = (hdrA, rowsA, metaA))
    (hcolA : pstr "도켓번호" ∈ hdrA)
    (hsafeA : pstr "케이스명" ∈ hdrA ∨
      ∀ r ∈ rowsA, r.getD (pyIndexOf hdrA (pstr "도켓번호")) [] ∉ D)
    (hparseB : parse_table (extract_section mdB newsTitle) = (hdrB, rowsB, metaB))
    (hcolB : pstr "제목" ∈ hdrB) :
    casesStage mdA D = Except.ok
      (pyReplace mdA (extract_section mdA casesTitle)
        (if (rowsA.filter (fun x =>
              !(decide (x.getD (pyIndexOf hdrA (pstr "도켓번호")) [] ∈ D)))).length = 0
         then zeroLine ++ pstr "\n"
         else emitTable metaA (if pstr "No." ∈ hdrA then some (pyIndexOf hdrA (pstr "No.")) else none)
            (rowsA.filter (fun x =>
              !(decide (x.getD (pyIndexOf hdrA (pstr "도켓번호")) [] ∈ D))))),
       rowsA.length,
       (rowsA.filter (fun x =>
          !(decide (x.getD (pyIndexOf hdrA (pstr "도켓번호")) [] ∈ D)))).length) ∧
    runCasesStage mdA D =
      (pyReplace mdA (extract_section mdA casesTitle)
        (emitTable metaA (if pstr "No." ∈ hdrA then some (pyIndexOf hdrA (pstr "No.")) else none)
          (rowsA.filter (fun r =>
              !(decide (r.getD (pyIndexOf hdrA (pstr "도켓번호")) [] ∈ D))) ++
           (rowsA.filter (fun r =>
              decide (r.getD (pyIndexOf hdrA (pstr "도켓번호")) [] ∈ D))).map
             (maskRow [if pstr "No." ∈ hdrA then some (pyIndexOf hdrA (pstr "No.")) else none,
                       if pstr "상태" ∈ hdrA then some (pyIndexOf hdrA (pstr "상태")) else none,
                       if pstr "케이스명" ∈ hdrA then some (pyIndexOf hdrA (pstr "케이스명")) else none,
                       some (pyIndexOf hdrA (pstr "도켓번호"))]))),
       rowsA.length,
       (rowsA.filter (fun r =>
          !(decide (r.getD (pyIndexOf hdrA (pstr "도켓번호")) [] ∈ D)))).length) ∧
    newsStage mdB A =
      (pyReplace mdB (extract_section mdB newsTitle)
        (if (rowsB.filter (fun r => !newsDup A (pyIndexOf hdrB (pstr "제목")) r)).length = 0
         then zeroLine ++ pstr "\n"
         else emitTable metaB (if pstr "No." ∈ hdrB then some (pyIndexOf hdrB (pstr "No.")) else none)
            (rowsB.filter (fun r => !newsDup A (pyIndexOf hdrB (pstr "제목")) r))),
       rowsB.length,
       (rowsB.filter (fun r => !newsDup A (pyIndexOf hdrB (pstr "제목")) r)).length) ∧
    runNewsStage mdB A =
      (pyReplace mdB (extract_section mdB newsTitle)
        (emitTable metaB (if pstr "No." ∈ hdrB then some (pyIndexOf hdrB (pstr "No.")) else none)
          (rowsB.filter (fun r => !newsDup A (pyIndexOf hdrB (pstr "제목")) r) ++
           (rowsB.filter (fun r => newsDup A (pyIndexOf hdrB (pstr "제목")) r)).map
             (maskRow [if pstr "No." ∈ hdrB then some (pyIndexOf hdrB (pstr "No.")) else none,
                       if pstr "기사일자⬇️" ∈ hdrB then some (pyIndexOf hdrB (pstr "기사일자⬇️")) else none,
                       some (pyIndexOf hdrB (pstr "제목"))]))),
       rowsB.length,
       (rowsB.filter (fun r => !newsDup A (pyIndexOf hdrB (pstr "제목")) r)).length) :=
  ⟨casesStage_spec mdA D hdrA rowsA metaA hparseA hcolA hsafeA,
   runCasesStage_spec mdA D hdrA rowsA metaA hparseA hcolA,
   newsStage_spec mdB A hdrB rowsB metaB hparseB hcolB,
   runNewsStage_spec mdB A hdrB rowsB metaB hparseB hcolB⟩

/-- Witness for the amended C2: on concrete inputs, src/run.py keeps the
duplicate row after the new one — renumbered, with non-preserved cells
masked — while src/dedup.py drops it. -/
theorem dedup_row_emission_per_implementation_witness :
    (runCasesStage exC2caseMd [pstr "D1"]).1 =
      pstr "## ⚖️ Cases\n| No. | 케이스명 | 도켓번호 |\n|---|---|---|\n| 1 | B | D2 |\n| 2 | A | D1 |" ∧
    casesStage exC2caseMd [pstr "D1"] = Except.ok
      (pstr "## ⚖️ Cases\n| No. | 케이스명 | 도켓번호 |\n|---|---|---|\n| 1 | B | D2 |", 2, 1) ∧
    (runNewsStage exC2newsMd [pstr "https://a.com"]).1 =
      pstr "## 📰 News\n| No. | 제목 | 소송사유 |\n|---|---|---|\n| 1 | [u](https://b.com) | r2 |\n| 2 | [t](https://a.com) | skip |" ∧
    (newsStage exC2newsMd [pstr "https://a.com"]).1 =
      pstr "## 📰 News\n| No. | 제목 | 소송사유 |\n|---|---|---|\n| 1 | [u](https://b.com) | r2 |" := by
  have h := dedup_row_emission_per_implementation exC2caseMd exC2newsMd
    [pstr "D1"] [pstr "https://a.com"]
    [pstr "No.", pstr "케이스명", pstr "도켓번호"] [pstr "No.", pstr "제목", pstr "소송사유"]
    [[pstr "1", pstr "A", pstr "D1"], [pstr "2", pstr "B", pstr "D2"]]
    [[pstr "1", pstr "[t](https://a.com)", pstr "r1"], [pstr "2", pstr "[u](https://b.com)", pstr "r2"]]
    (pstr "| No. | 케이스명 | 도켓번호 |", pstr "|---|---|---|")
    (pstr "| No. | 제목 | 소송사유 |", pstr "|---|---|---|")
    (by decide) (by decide) (Or.inl (by decide)) (by decide) (by decide)
  refine ⟨?_, ?_, ?_, ?_⟩
  · rw [h.2.1]; decide
  · rw [h.1]; decide
  · rw [h.2.2.2]; decide
  · rw [h.2.2.1]; decide

/-!
## Structural lemmas about the string primitives

These relate the character-level models (`splitNL`, `pyStrip`,
`splitUP`, `pyReplace`) to the line/cell structure of constructed
reports, and carry the well-formed-report reasoning for claims C3 and
C10.
-/

theorem splitNL_no_newline : ∀ l : PyStr, '\n' ∉ l → splitNL l = [l] := by
  intro l
  induction l with
  | nil => intro _; rfl
  | cons c rest ih =>
    intro h
    have hc : ¬ (c = '\n') := fun hc => h (by simp [hc])
    have hr : '\n' ∉ rest := fun hr => h (by simp [hr])
    rw [splitNL, if_neg hc, ih hr]

theorem splitNL_append_newline :
    ∀ l s : PyStr, '\n' ∉ l → splitNL (l ++ '\n' :: s) = l :: splitNL s := by
  intro l
  induction l with
  | nil => intro s _; simp [splitNL]
  | cons c rest ih =>
    intro s h
    have hc : ¬ (c = '\n') := fun hc => h (by simp [hc])
    have hr : '\n' ∉ rest := fun hr => h (by simp [hr])
    rw [List.cons_append, splitNL, if_neg hc, ih s hr]

theorem joinNL_cons (l : PyStr) (ls : List PyStr) (h : ls ≠ []) :
    joinNL (l :: ls) = l ++ '\n' :: joinNL ls := by
  cases ls with
  | nil => exact absurd rfl h
  | cons x xs => rfl

theorem splitNL_joinNL :
    ∀ ls : List PyStr, ls ≠ [] → (∀ l ∈ ls, '\n' ∉ l) → splitNL (joinNL ls) = ls := by
  intro ls
  induction ls with
  | nil => intro h _; exact absurd rfl h
  | cons l rest ih =>
    intro _ hnl
    cases rest with
    | nil =>
      show splitNL (joinNL [l]) = [l]
      exact splitNL_no_newline l (hnl l (by simp))
    | cons x xs =>
      rw [joinNL_cons l (x :: xs) (by simp)]
      rw [splitNL_append_newline _ _ (hnl l (by simp))]
      rw [ih (by simp) (fun y hy => hnl y (by simp [hy]))]

theorem joinNL_append :
    ∀ l1 l2 : List PyStr, l1 ≠ [] → l2 ≠ [] →
      joinNL (l1 ++ l2) = joinNL l1 ++ '\n' :: joinNL l2 := by
  intro l1
  induction l1 with
  | nil => intro l2 h _; exact absurd rfl h
  | cons x xs ih =>
    intro l2 _ h2
    cases xs with
    | nil => simp [joinNL_cons x l2 h2, joinNL]
    | cons y ys =>
      rw [List.cons_append, joinNL_cons x ((y :: ys) ++ l2) (by simp),
        joinNL_cons x (y :: ys) (by simp), ih l2 (by simp) h2]
      simp

theorem dropWhile_pySpace_noop (c : PyStr) (h : headNotWS c = true) :
    c.dropWhile pySpace = c := by
  cases c with
  | nil => rfl
  | cons a rest =>
    have : pySpace a = false := by
      unfold headNotWS at h
      simpa using h
    simp [List.dropWhile_cons, this]

theorem pyStrip_noop (c : PyStr) (h1 : headNotWS c = true) (h2 : headNotWS c.reverse = true) :
    pyStrip c = c := by
  unfold pyStrip
  rw [dropWhile_pySpace_noop c h1, dropWhile_pySpace_noop c.reverse h2, List.reverse_reverse]

theorem pyStrip_wrap (c : PyStr) (h1 : headNotWS c = true) (h2 : headNotWS c.reverse = true) :
    pyStrip (' ' :: c ++ [' ']) = c := by
  cases c with
  | nil => rfl
  | cons a rest =>
    unfold pyStrip
    have ha : pySpace a = false := by
      unfold headNotWS at h1
      simpa using h1
    have hsp : pySpace ' ' = true := by decide
    rw [List.cons_append, List.dropWhile_cons]
    simp only [hsp, if_true, reduceIte]
    have hnoop : List.dropWhile pySpace (a :: rest ++ [' ']) = a :: rest ++ [' '] := by
      have : headNotWS (a :: rest ++ [' ']) = true := by
        simp [headNotWS, ha]
      exact dropWhile_pySpace_noop _ this
    rw [hnoop]
    have hrev : (a :: rest ++ [' ']).reverse = ' ' :: (a :: rest).reverse := by
      simp
    rw [hrev, List.dropWhile_cons]
    simp only [hsp, if_true, reduceIte]
    rw [dropWhile_pySpace_noop _ h2, List.reverse_reverse]

theorem splitUP_ne_nil : ∀ (prev : Option Char) (s : PyStr), splitUP prev s ≠ [] := by
  intro prev s
  induction s generalizing prev with
  | nil => simp [splitUP]
  | cons c rest ih =>
    unfold splitUP
    split
    · simp
    · cases hsp : splitUP (some c) rest with
      | nil => exact absurd hsp (ih (some c))
      | cons h t => simp

theorem scanPrev_append : ∀ (a : PyStr) (prev : Option Char) (b : PyStr),
    scanPrev prev (a ++ b) = scanPrev (scanPrev prev a) b := by
  intro a
  induction a with
  | nil => intro prev b; rfl
  | cons c rest ih => intro prev b; exact ih (some c) b

theorem pipeFree_cons (prev : Option Char) (c : Char) (rest : PyStr) :
    pipeFree prev (c :: rest) =
      if c = '|' ∧ prev ≠ some '\\' then false else pipeFree (some c) rest := rfl

theorem splitUP_cons (prev : Option Char) (c : Char) (rest : PyStr) :
    splitUP prev (c :: rest) =
      if c = '|' ∧ prev ≠ some '\\' then [] :: splitUP (some c) rest
      else
        match splitUP (some c) rest with
        | h :: t => (c :: h) :: t
        | [] => [[c]] := rfl

theorem scanPrev_cons (prev : Option Char) (c : Char) (rest : PyStr) :
    scanPrev prev (c :: rest) = scanPrev (some c) rest := rfl

theorem pipeFree_append : ∀ (a : PyStr) (prev : Option Char) (b : PyStr),
    pipeFree prev (a ++ b) = (pipeFree prev a && pipeFree (scanPrev prev a) b) := by
  intro a
  induction a with
  | nil => intro prev b; simp [pipeFree, scanPrev]
  | cons c rest ih =>
    intro prev b
    rw [List.cons_append, pipeFree_cons prev c (rest ++ b), pipeFree_cons prev c rest,
      scanPrev_cons]
    by_cases hc : (c = '|' ∧ prev ≠ some '\\')
    · rw [if_pos hc, if_pos hc]
      simp
    · rw [if_neg hc, if_neg hc]
      exact ih (some c) b

theorem splitUP_skip : ∀ (s : PyStr) (prev : Option Char) (rest : PyStr),
    pipeFree prev s = true →
    splitUP prev (s ++ rest) =
      (s ++ (splitUP (scanPrev prev s) rest).headI) :: (splitUP (scanPrev prev s) rest).tail := by
  intro s
  induction s with
  | nil =>
    intro prev rest _
    obtain ⟨h, t, heq⟩ := List.exists_cons_of_ne_nil (splitUP_ne_nil prev rest)
    simp [scanPrev, heq]
  | cons c s' ih =>
    intro prev rest hfree
    rw [pipeFree_cons] at hfree
    have hcond : ¬ (c = '|' ∧ prev ≠ some '\\') := by
      by_contra hc
      rw [if_pos hc] at hfree
      cases hfree
    rw [if_neg hcond] at hfree
    rw [List.cons_append, splitUP_cons prev c (s' ++ rest), if_neg hcond,
      ih (some c) rest hfree, scanPrev_cons]
    simp

theorem pipeFree_space_singleton (p : Option Char) : pipeFree p [' '] = true := by
  unfold pipeFree
  rw [if_neg (by simp)]
  rfl

theorem scanPrev_concat (p : Option Char) (x : PyStr) (y : Char) :
    scanPrev p (x ++ [y]) = some y := by
  rw [scanPrev_append]
  rfl

theorem splitUP_cells : ∀ (cells : List PyStr), cells ≠ [] →
    (∀ c ∈ cells, pipeFree (some ' ') c = true) →
    splitUP (some '|') (' ' :: (pyJoin (pstr " | ") cells ++ [' ', '|'])) =
      cells.map (fun c => ' ' :: (c ++ [' '])) ++ [[]] := by
  intro cells
  induction cells with
  | nil => intro h _; exact absurd rfl h
  | cons c cs ih =>
    intro _ hgood
    cases cs with
    | nil =>
      have harr : ' ' :: (pyJoin (pstr " | ") [c] ++ [' ', '|']) =
          ((' ' :: c ++ [' ']) ++ ['|'] : PyStr) := by
        simp [pyJoin]
      rw [harr]
      have hfree : pipeFree (some '|') (' ' :: c ++ [' ']) = true := by
        show pipeFree (some '|') (' ' :: (c ++ [' '])) = true
        rw [pipeFree_cons, if_neg (by simp), pipeFree_append c (some ' ') [' ']]
        rw [hgood c (by simp), pipeFree_space_singleton]
        rfl
      rw [splitUP_skip _ _ _ hfree]
      have hprev : scanPrev (some '|') (' ' :: c ++ [' ']) = some ' ' := by
        show scanPrev (some '|') ((' ' :: c) ++ [' ']) = some ' '
        exact scanPrev_concat _ _ _
      rw [hprev]
      have hsp : splitUP (some ' ') ['|'] = [[], []] := by decide
      rw [hsp]
      simp
    | cons c2 cs' =>
      have harr : ' ' :: (pyJoin (pstr " | ") (c :: c2 :: cs') ++ [' ', '|']) =
          ((' ' :: c ++ [' ']) ++ '|' :: (' ' :: (pyJoin (pstr " | ") (c2 :: cs') ++ [' ', '|'])) : PyStr) := by
        show ' ' :: ((c ++ (pstr " | ") ++ pyJoin (pstr " | ") (c2 :: cs')) ++ [' ', '|']) = _
        simp [pstr]
      rw [harr]
      have hfree : pipeFree (some '|') (' ' :: c ++ [' ']) = true := by
        show pipeFree (some '|') (' ' :: (c ++ [' '])) = true
        rw [pipeFree_cons, if_neg (by simp), pipeFree_append c (some ' ') [' ']]
        rw [hgood c (by simp), pipeFree_space_singleton]
        rfl
      rw [splitUP_skip _ _ _ hfree]
      have hprev : scanPrev (some '|') (' ' :: c ++ [' ']) = some ' ' := by
        show scanPrev (some '|') ((' ' :: c) ++ [' ']) = some ' '
        exact scanPrev_concat _ _ _
      rw [hprev]
      have hpipe : splitUP (some ' ') ('|' :: (' ' :: (pyJoin (pstr " | ") (c2 :: cs') ++ [' ', '|']))) =
          [] :: splitUP (some '|') (' ' :: (pyJoin (pstr " | ") (c2 :: cs') ++ [' ', '|'])) := by
        rw [splitUP_cons, if_pos (by decide)]
      rw [hpipe, ih (by simp) (fun x hx => hgood x (by simp [hx]))]
      simp

theorem goodCell_spec (c : PyStr) (h : goodCell c = true) :
    headNotWS c = true ∧ headNotWS c.reverse = true ∧ pipeFree (some ' ') c = true ∧ '\n' ∉ c := by
  simp only [goodCell, Bool.and_eq_true, Bool.not_eq_true', decide_eq_false_iff_not] at h
  exact ⟨h.1.1.1, h.1.1.2, h.1.2, h.2⟩

theorem rowLine_eq (cells : List PyStr) :
    rowLine cells = '|' :: (' ' :: (pyJoin (pstr " | ") cells ++ [' ', '|'])) := by
  show pstr "| " ++ pyJoin (pstr " | ") cells ++ pstr " |" = _
  simp [pstr]

theorem mem_pyJoin (a : Char) (sep : PyStr) :
    ∀ cells : List PyStr, a ∈ pyJoin sep cells → (∃ c ∈ cells, a ∈ c) ∨ a ∈ sep := by
  intro cells
  induction cells with
  | nil => intro h; cases h
  | cons c cs ih =>
    intro h
    cases cs with
    | nil =>
      left
      exact ⟨c, by simp, h⟩
    | cons c2 cs' =>
      have : a ∈ c ++ sep ++ pyJoin sep (c2 :: cs') := h
      rcases List.mem_append.mp this with h1 | h1
      · rcases List.mem_append.mp h1 with h2 | h2
        · exact Or.inl ⟨c, by simp, h2⟩
        · exact Or.inr h2
      · rcases ih h1 with ⟨x, hx, hax⟩ | h2
        · exact Or.inl ⟨x, by simp [hx], hax⟩
        · exact Or.inr h2

theorem newline_not_mem_rowLine (cells : List PyStr) (h : ∀ c ∈ cells, '\n' ∉ c) :
    '\n' ∉ rowLine cells := by
  rw [rowLine_eq]
  intro hmem
  simp only [List.mem_cons, List.mem_append] at hmem
  rcases hmem with h1 | h1 | h1
  · cases h1
  · cases h1
  · rcases h1 with h2 | h2
    · rcases mem_pyJoin '\n' (pstr " | ") cells h2 with ⟨x, hx, hax⟩ | h3
      · exact h x hx hax
      · simp [pstr] at h3
    · simp at h2

theorem headNotWS_rowLine (cells : List PyStr) : headNotWS (rowLine cells) = true := by
  rw [rowLine_eq]
  rfl

theorem rowLine_concat (cells : List PyStr) :
    rowLine cells = ('|' :: ' ' :: (pyJoin (pstr " | ") cells ++ [' '])) ++ ['|'] := by
  rw [rowLine_eq]
  simp

theorem headNotWS_rowLine_reverse (cells : List PyStr) :
    headNotWS (rowLine cells).reverse = true := by
  rw [rowLine_concat]
  rw [List.reverse_append]
  rfl

theorem pyStrip_rowLine (cells : List PyStr) : pyStrip (rowLine cells) = rowLine cells :=
  pyStrip_noop _ (headNotWS_rowLine cells) (headNotWS_rowLine_reverse cells)

theorem split_row_rowLine (cells : List PyStr) (hne : cells ≠ [])
    (hgood : ∀ c ∈ cells, goodCell c = true) : split_row (rowLine cells) = cells := by
  unfold split_row
  rw [pyStrip_rowLine, rowLine_eq]
  have hsplit : splitUP none ('|' :: (' ' :: (pyJoin (pstr " | ") cells ++ [' ', '|']))) =
      [] :: splitUP (some '|') (' ' :: (pyJoin (pstr " | ") cells ++ [' ', '|'])) := by
    rw [splitUP_cons, if_pos (by simp)]
  rw [hsplit, splitUP_cells cells hne (fun c hc => (goodCell_spec c (hgood c hc)).2.2.1)]
  have hdrop : (([] :: (cells.map (fun c => ' ' :: (c ++ [' '])) ++ [[]])).drop 1) =
      cells.map (fun c => ' ' :: (c ++ [' '])) ++ [[]] := rfl
  rw [hdrop, List.dropLast_concat, List.map_map]
  have : ∀ c ∈ cells, (pyStrip ∘ fun c => ' ' :: (c ++ [' '])) c = id c := by
    intro c hc
    obtain ⟨h1, h2, _, _⟩ := goodCell_spec c (hgood c hc)
    exact pyStrip_wrap c h1 h2
  rw [List.map_congr_left this, List.map_id]

theorem fold_rows_all_kept (n : Nat) :
    ∀ (rs : List (List PyStr)) (acc : List (List PyStr)),
      (∀ r ∈ rs, split_row (rowLine r) = r ∧ r.length = n) →
      (rs.map rowLine).foldl
        (fun acc row => if (split_row row).length = n then acc ++ [split_row row] else acc) acc =
      acc ++ rs := by
  intro rs
  induction rs with
  | nil => intro acc _; simp
  | cons r rs' ih =>
    intro acc h
    obtain ⟨hsr, hlen⟩ := h r (by simp)
    rw [List.map_cons, List.foldl_cons, hsr, if_pos hlen,
      ih (acc ++ [r]) (fun x hx => h x (by simp [hx]))]
    simp

theorem goodSep_pipe (s : PyStr) (h : goodSep s = true) :
    ∃ t, s = '|' :: t := by
  unfold goodSep at h
  simp only [Bool.and_eq_true] at h
  cases s with
  | nil => cases h.1.1
  | cons c t =>
    have : ('|' == c) = true := by
      have := h.1.1
      unfold pyStartswith at this
      simp only [pstr] at this
      cases hbeq : ('|' == c)
      · rw [List.isPrefixOf, hbeq] at this
        simp at this
      · rfl
    exact ⟨t, by rw [← (beq_iff_eq.mp this)]⟩

theorem goodSep_spec (s : PyStr) (h : goodSep s = true) :
    pyStrip s = s ∧ '\n' ∉ s := by
  obtain ⟨t, heq⟩ := goodSep_pipe s h
  unfold goodSep at h
  simp only [Bool.and_eq_true, Bool.not_eq_true', decide_eq_false_iff_not] at h
  refine ⟨?_, h.2⟩
  apply pyStrip_noop _ _ h.1.2
  rw [heq]
  rfl

theorem pyStartswith_pipe (t : PyStr) : pyStartswith ('|' :: t) (pstr "|") = true := by
  show List.isPrefixOf ['|'] ('|' :: t) = true
  simp [List.isPrefixOf]

theorem parse_table_tableLines
    (hdr : List PyStr) (sep : PyStr) (rows : List (List PyStr))
    (hhdr : hdr ≠ []) (hgh : ∀ c ∈ hdr, goodCell c = true)
    (hsep : goodSep sep = true)
    (hrows : ∀ r ∈ rows, r ≠ [] ∧ (∀ c ∈ r, goodCell c = true) ∧ r.length = hdr.length)
    (hrne : rows ≠ []) :
    parse_table (joinNL (tableLines hdr sep rows)) = (hdr, rows, (rowLine hdr, sep)) := by
  have hnl : ∀ l ∈ tableLines hdr sep rows, '\n' ∉ l := by
    intro l hl
    unfold tableLines at hl
    rcases List.mem_cons.mp hl with rfl | hl
    · exact newline_not_mem_rowLine hdr (fun c hc => (goodCell_spec c (hgh c hc)).2.2.2)
    rcases List.mem_cons.mp hl with rfl | hl
    · exact (goodSep_spec _ hsep).2
    · obtain ⟨r, hr, rfl⟩ := List.mem_map.mp hl
      exact newline_not_mem_rowLine r (fun c hc => (goodCell_spec c ((hrows r hr).2.1 c hc)).2.2.2)
  have hlines : splitNL (joinNL (tableLines hdr sep rows)) = tableLines hdr sep rows :=
    splitNL_joinNL _ (by unfold tableLines; simp) hnl
  have hfilter : (tableLines hdr sep rows).filter
      (fun l => pyStartswith (pyStrip l) (pstr "|")) = tableLines hdr sep rows := by
    rw [List.filter_eq_self]
    intro l hl
    unfold tableLines at hl
    rcases List.mem_cons.mp hl with rfl | hl
    · rw [pyStrip_rowLine, rowLine_eq]
      exact pyStartswith_pipe _
    rcases List.mem_cons.mp hl with rfl | hl
    · obtain ⟨t, heq⟩ := goodSep_pipe _ hsep
      rw [(goodSep_spec _ hsep).1, heq]
      exact pyStartswith_pipe t
    · obtain ⟨r, hr, rfl⟩ := List.mem_map.mp hl
      rw [pyStrip_rowLine, rowLine_eq]
      exact pyStartswith_pipe _
  unfold parse_table
  rw [hlines, hfilter]
  dsimp only
  have hlen : ¬ ((tableLines hdr sep rows).length < 3) := by
    have hpos : 0 < rows.length := List.length_pos.mpr hrne
    unfold tableLines
    simp only [List.length_cons, List.length_map]
    omega
  rw [if_neg hlen]
  unfold tableLines
  simp only [List.headI, List.drop_succ_cons, List.drop_zero]
  have hgetD : ((rowLine hdr :: sep :: rows.map rowLine) : List PyStr).getD 1 [] = sep := rfl
  rw [hgetD]
  simp only [split_row_rowLine hdr hhdr hgh]
  rw [fold_rows_all_kept hdr.length rows []
    (fun r hr => ⟨split_row_rowLine r (hrows r hr).1 (hrows r hr).2.1, (hrows r hr).2.2⟩)]
  rfl

theorem sectionScan_cons (title l : PyStr) (rest : List PyStr) (i : Nat) (st : Option Nat) :
    sectionScan title (l :: rest) i st =
      if pyStartswith (pyStrip l) title then sectionScan title rest (i + 1) (some (i + 1))
      else if st.isSome ∧ pyStartswith l (pstr "## ") then (st, some i)
      else sectionScan title rest (i + 1) st := rfl

theorem sectionScan_skip_none (title : PyStr) :
    ∀ (pre rest : List PyStr) (i : Nat),
      (∀ l ∈ pre, pyStartswith (pyStrip l) title = false) →
      sectionScan title (pre ++ rest) i none = sectionScan title rest (i + pre.length) none := by
  intro pre
  induction pre with
  | nil => intro rest i _; rfl
  | cons l pre' ih =>
    intro rest i h
    rw [List.cons_append, sectionScan_cons, if_neg (by simp [h l (by simp)]),
      if_neg (by simp), ih rest (i + 1) (fun x hx => h x (by simp [hx]))]
    have : i + 1 + pre'.length = i + (pre'.length + 1) := by omega
    rw [this]
    rfl

theorem sectionScan_skip_some (title : PyStr) :
    ∀ (mid rest : List PyStr) (i s : Nat),
      (∀ l ∈ mid, pyStartswith (pyStrip l) title = false ∧ pyStartswith l (pstr "## ") = false) →
      sectionScan title (mid ++ rest) i (some s) =
        sectionScan title rest (i + mid.length) (some s) := by
  intro mid
  induction mid with
  | nil => intro rest i s _; rfl
  | cons l mid' ih =>
    intro rest i s h
    rw [List.cons_append, sectionScan_cons, if_neg (by simp [(h l (by simp)).1]),
      if_neg (by simp [(h l (by simp)).2]), ih rest (i + 1) s (fun x hx => h x (by simp [hx]))]
    have : i + 1 + mid'.length = i + (mid'.length + 1) := by omega
    rw [this]
    rfl

theorem extract_section_at (title : PyStr) (pre mid post : List PyStr) (hl hl2 : PyStr)
    (hnl : ∀ l ∈ pre ++ hl :: (mid ++ hl2 :: post), '\n' ∉ l)
    (hpre : ∀ l ∈ pre, pyStartswith (pyStrip l) title = false)
    (hhl : pyStartswith (pyStrip hl) title = true)
    (hmid : ∀ l ∈ mid, pyStartswith (pyStrip l) title = false ∧
      pyStartswith l (pstr "## ") = false)
    (hhl2 : pyStartswith (pyStrip hl2) title = false)
    (hhh2 : pyStartswith hl2 (pstr "## ") = true) :
    extract_section (joinNL (pre ++ hl :: (mid ++ hl2 :: post))) title = joinNL mid := by
  unfold extract_section
  rw [splitNL_joinNL _ (by simp) hnl]
  dsimp only
  rw [sectionScan_skip_none title pre _ 0 hpre, sectionScan_cons, if_pos hhl,
    sectionScan_skip_some title mid _ _ _ hmid, sectionScan_cons, if_neg (by simp [hhl2]),
    if_pos ⟨by simp, hhh2⟩]
  dsimp only
  have hdrop : (pre ++ hl :: (mid ++ hl2 :: post)).drop (0 + pre.length + 1) =
      mid ++ hl2 :: post := by
    have : pre ++ hl :: (mid ++ hl2 :: post) = (pre ++ [hl]) ++ (mid ++ hl2 :: post) := by
      simp
    rw [this]
    have hlen : 0 + pre.length + 1 = (pre ++ [hl]).length := by simp
    rw [hlen, List.drop_left]
  rw [hdrop]
  simp only [Option.getD_some]
  have harith : 0 + pre.length + 1 + mid.length - (0 + pre.length + 1) = mid.length := by omega
  rw [harith]
  have ht : (mid ++ hl2 :: post).take mid.length = mid :=
    List.take_left mid (hl2 :: post)
  rw [ht]

theorem sectionScan_to_end (title : PyStr) :
    ∀ (mid : List PyStr) (i s : Nat),
      (∀ l ∈ mid, pyStartswith (pyStrip l) title = false ∧
        pyStartswith l (pstr "## ") = false) →
      sectionScan title mid i (some s) = (some s, none) := by
  intro mid
  induction mid with
  | nil => intro i s _; rfl
  | cons l mid' ih =>
    intro i s h
    rw [sectionScan_cons, if_neg (by simp [(h l (by simp)).1]),
      if_neg (by simp [(h l (by simp)).2])]
    exact ih (i + 1) s (fun x hx => h x (by simp [hx]))

theorem extract_section_at_end (title : PyStr) (pre mid : List PyStr) (hl : PyStr)
    (hnl : ∀ l ∈ pre ++ hl :: mid, '\n' ∉ l)
    (hpre : ∀ l ∈ pre, pyStartswith (pyStrip l) title = false)
    (hhl : pyStartswith (pyStrip hl) title = true)
    (hmid : ∀ l ∈ mid, pyStartswith (pyStrip l) title = false ∧
      pyStartswith l (pstr "## ") = false) :
    extract_section (joinNL (pre ++ hl :: mid)) title = joinNL mid := by
  unfold extract_section
  rw [splitNL_joinNL _ (by simp) hnl]
  dsimp only
  rw [sectionScan_skip_none title pre _ 0 hpre, sectionScan_cons, if_pos hhl,
    sectionScan_to_end title mid _ _ hmid]
  dsimp only
  have hdrop : (pre ++ hl :: mid).drop (0 + pre.length + 1) = mid := by
    have : pre ++ hl :: mid = (pre ++ [hl]) ++ mid := by simp
    rw [this]
    have hlen : 0 + pre.length + 1 = (pre ++ [hl]).length := by simp
    rw [hlen, List.drop_left]
  rw [hdrop]
  simp only [Option.getD_none]
  have harith : (pre ++ hl :: mid).length - (0 + pre.length + 1) = mid.length := by
    simp only [List.length_append, List.length_cons]
    omega
  rw [harith, List.take_length]

theorem containsSub_cons (c : Char) (rest needle : PyStr) :
    containsSub (c :: rest) needle =
      (needle.isPrefixOf (c :: rest) || containsSub rest needle) := rfl

theorem containsSub_nil_of_ne (S : PyStr) (h : S ≠ []) : containsSub [] S = false := by
  cases S with
  | nil => exact absurd rfl h
  | cons c t => rfl

theorem isPrefixOf_append_self : ∀ (o b : PyStr), o.isPrefixOf (o ++ b) = true := by
  intro o
  induction o with
  | nil => intro b; simp [List.isPrefixOf]
  | cons c os ih =>
    intro b
    show ((c == c) && os.isPrefixOf (os ++ b)) = true
    simp [ih b]

theorem replaceGo_notin (old new : PyStr) :
    ∀ (fuel : Nat) (s : PyStr), containsSub s old = false → replaceGo old new fuel s = s := by
  intro fuel
  induction fuel with
  | zero => intro s _; rfl
  | succ f ih =>
    intro s hs
    cases s with
    | nil => rfl
    | cons c rest =>
      rw [containsSub_cons] at hs
      have h1 : old.isPrefixOf (c :: rest) = false := by
        cases hx : old.isPrefixOf (c :: rest)
        · rfl
        · rw [hx] at hs; simp at hs
      have h2 : containsSub rest old = false := by
        cases hx : containsSub rest old
        · rfl
        · rw [hx] at hs; simp at hs
      show (if old.isPrefixOf (c :: rest) then _ else _) = _
      rw [if_neg (by simp [h1]), ih rest h2]

theorem replaceGo_clean (old new : PyStr) (hne : old ≠ []) :
    ∀ (A : PyStr) (fuel : Nat) (B : PyStr),
      (A ++ old ++ B).length ≤ fuel →
      (∀ i, i < A.length → old.isPrefixOf (List.drop i (A ++ old ++ B)) = false) →
      containsSub B old = false →
      replaceGo old new fuel (A ++ old ++ B) = A ++ new ++ B := by
  intro A
  induction A with
  | nil =>
    intro fuel B hfuel _ hB
    obtain ⟨o, os, heqold⟩ := List.exists_cons_of_ne_nil hne
    cases fuel with
    | zero =>
      rw [heqold] at hfuel
      simp at hfuel
    | succ f =>
      have hshape : (([] : PyStr) ++ old ++ B) = o :: (os ++ B) := by
        rw [heqold]; simp
      rw [hshape]
      show (if old.isPrefixOf (o :: (os ++ B)) then _ else _) = _
      have hpre : old.isPrefixOf (o :: (os ++ B)) = true := by
        have hx := isPrefixOf_append_self old B
        rw [heqold] at hx ⊢
        simp only [List.cons_append] at hx
        exact hx
      rw [if_pos (by simp [hpre])]
      have hdrop : List.drop old.length (o :: (os ++ B)) = B := by
        have hx : o :: (os ++ B) = old ++ B := by rw [heqold]; simp
        rw [hx, List.drop_left]
      rw [hdrop, replaceGo_notin old new f B hB]
      simp
  | cons a A' ih =>
    intro fuel B hfuel hocc hB
    cases fuel with
    | zero => simp at hfuel
    | succ f =>
      have hshape : ((a :: A') ++ old ++ B) = a :: (A' ++ old ++ B) := by simp
      rw [hshape]
      have h0 := hocc 0 (by simp)
      rw [List.drop_zero, hshape] at h0
      have h0' : ¬ (old.isPrefixOf (a :: (A' ++ old ++ B)) = true) := by
        rw [h0]; simp
      show (if old.isPrefixOf (a :: (A' ++ old ++ B)) then _ else _) = _
      rw [if_neg h0']
      have hf : (A' ++ old ++ B).length ≤ f := by
        rw [hshape] at hfuel
        simp only [List.length_cons] at hfuel
        omega
      have ho : ∀ i, i < A'.length → old.isPrefixOf (List.drop i (A' ++ old ++ B)) = false := by
        intro i hi
        have hx := hocc (i + 1) (by simp; omega)
        rw [hshape, List.drop_succ_cons] at hx
        exact hx
      rw [ih f B hf ho hB]
      simp

theorem pyReplace_clean (old new A B : PyStr) (hne : old ≠ [])
    (hocc : ∀ i, i < A.length → old.isPrefixOf (List.drop i (A ++ old ++ B)) = false)
    (hB : containsSub B old = false) :
    pyReplace (A ++ old ++ B) old new = A ++ new ++ B := by
  unfold pyReplace
  rw [if_neg hne]
  exact replaceGo_clean old new hne A (A ++ old ++ B).length B (Nat.le_refl _) hocc hB

theorem noPipe_noPrefix (A S' B : PyStr) (hA : ∀ c ∈ A, c ≠ '|') :
    ∀ i, i < A.length →
      (('|' :: S') : PyStr).isPrefixOf (List.drop i (A ++ ('|' :: S') ++ B)) = false := by
  intro i hi
  have hdrop : List.drop i (A ++ ('|' :: S') ++ B) = A.drop i ++ (('|' :: S') ++ B) := by
    rw [List.append_assoc]
    exact List.drop_append_of_le_length (Nat.le_of_lt hi)
  rw [hdrop]
  have hlt : i < A.length := hi
  rw [List.drop_eq_getElem_cons hlt]
  have hget : A[i] ≠ '|' := hA _ (A.getElem_mem hlt)
  show (('|' == A[i]) && _) = false
  have : ('|' == A[i]) = false := by
    cases hb : ('|' == A[i])
    · rfl
    · exact absurd (beq_iff_eq.mp hb).symm hget
  rw [this]
  simp

theorem digitChar_props (k : Nat) (hk : k ≤ 9) :
    pySpace (Char.ofNat (48 + k)) = false ∧ Char.ofNat (48 + k) ≠ '\n' ∧
      Char.ofNat (48 + k) ≠ '|' := by
  interval_cases k <;> exact ⟨by decide, by decide, by decide⟩

theorem natDigitsAux_props :
    ∀ (fuel n : Nat) (c : Char), c ∈ natDigitsAux fuel n →
      pySpace c = false ∧ c ≠ '\n' ∧ c ≠ '|' := by
  intro fuel
  induction fuel with
  | zero => intro n c h; cases h
  | succ f ih =>
    intro n c h
    unfold natDigitsAux at h
    by_cases hn : n < 10
    · rw [if_pos hn] at h
      simp only [List.mem_singleton] at h
      subst h
      exact digitChar_props n (by omega)
    · rw [if_neg hn] at h
      rcases List.mem_append.mp h with h1 | h1
      · exact ih (n / 10) c h1
      · simp only [List.mem_singleton] at h1
        subst h1
        exact digitChar_props (n % 10) (by omega)

theorem pyNatStr_props (n : Nat) (c : Char) (h : c ∈ pyNatStr n) :
    pySpace c = false ∧ c ≠ '\n' ∧ c ≠ '|' :=
  natDigitsAux_props (n + 1) n c h

theorem pyNatStr_ne_nil (n : Nat) : pyNatStr n ≠ [] := by
  unfold pyNatStr natDigitsAux
  by_cases hn : n < 10
  · rw [if_pos hn]; simp
  · rw [if_neg hn]; simp

theorem headNotWS_of_all (s : PyStr) (h : ∀ c ∈ s, pySpace c = false) :
    headNotWS s = true := by
  cases s with
  | nil => rfl
  | cons a rest =>
    unfold headNotWS
    simp [h a (by simp)]

theorem pipeFree_of_no_pipe (s : PyStr) (h : ∀ c ∈ s, c ≠ '|') :
    ∀ prev, pipeFree prev s = true := by
  induction s with
  | nil => intro prev; rfl
  | cons c rest ih =>
    intro prev
    rw [pipeFree_cons, if_neg (by simp [h c (by simp)])]
    exact ih (fun x hx => h x (by simp [hx])) (some c)

theorem goodCell_pyNatStr (n : Nat) : goodCell (pyNatStr n) = true := by
  unfold goodCell
  rw [headNotWS_of_all _ (fun c hc => (pyNatStr_props n c hc).1)]
  rw [headNotWS_of_all _ (fun c hc => (pyNatStr_props n c (List.mem_reverse.mp hc)).1)]
  rw [pipeFree_of_no_pipe _ (fun c hc => (pyNatStr_props n c hc).2.2) (some ' ')]
  have : ('\n' ∉ pyNatStr n) := fun hmem => (pyNatStr_props n '\n' hmem).2.1 rfl
  simp [this]

theorem getD_pyIndexOf : ∀ (l : List PyStr) (x : PyStr), x ∈ l →
    l.getD (pyIndexOf l x) [] = x := by
  intro l
  induction l with
  | nil => intro x h; cases h
  | cons y ys ih =>
    intro x h
    unfold pyIndexOf
    by_cases hxy : y = x
    · rw [if_pos hxy]
      exact hxy
    · rw [if_neg hxy]
      have hx : x ∈ ys := by
        rcases List.mem_cons.mp h with h1 | h1
        · exact absurd h1.symm hxy
        · exact h1
      exact ih x hx

theorem pyIndexOf_lt : ∀ (l : List PyStr) (x : PyStr), x ∈ l →
    pyIndexOf l x < l.length := by
  intro l
  induction l with
  | nil => intro x h; cases h
  | cons y ys ih =>
    intro x h
    unfold pyIndexOf
    by_cases hxy : y = x
    · rw [if_pos hxy]; simp
    · rw [if_neg hxy]
      have hx : x ∈ ys := by
        rcases List.mem_cons.mp h with h1 | h1
        · exact absurd h1.symm hxy
        · exact h1
      simp only [List.length_cons]
      exact Nat.succ_lt_succ (ih x hx)

theorem pyIndexOf_ne_of_ne (l : List PyStr) (x y : PyStr) (hx : x ∈ l) (hy : y ∈ l)
    (hxy : x ≠ y) : pyIndexOf l x ≠ pyIndexOf l y := by
  intro he
  apply hxy
  rw [← getD_pyIndexOf l x hx, he, getD_pyIndexOf l y hy]

theorem mem_setAdd_self (s : List PyStr) (x : PyStr) : x ∈ setAdd s x := by
  unfold setAdd
  by_cases h : x ∈ s
  · rw [if_pos h]; exact h
  · rw [if_neg h]; simp

theorem mem_setAdd_of_mem (s : List PyStr) (x y : PyStr) (h : x ∈ s) : x ∈ setAdd s y := by
  unfold setAdd
  by_cases hy : y ∈ s
  · rw [if_pos hy]; exact h
  · rw [if_neg hy]; simp [h]

theorem foldl_mem_preserve {β : Type} (f : List PyStr → β → List PyStr)
    (hf : ∀ s b x, x ∈ s → x ∈ f s b) :
    ∀ (l : List β) (s : List PyStr) (x : PyStr), x ∈ s → x ∈ l.foldl f s := by
  intro l
  induction l with
  | nil => intro s x h; exact h
  | cons b t ih =>
    intro s x h
    exact ih (f s b) x (hf s b x h)

theorem newsStep_preserves (idx : Nat) (s : List PyStr) (r : List PyStr) (x : PyStr)
    (hx : x ∈ s) :
    x ∈ (match extract_article_url (r.getD idx []) with
         | some url => if url ≠ [] then setAdd s url else s
         | none => s) := by
  rcases hm : extract_article_url (r.getD idx []) with _ | u
  · exact hx
  · dsimp only
    by_cases hu : u ≠ []
    · rw [if_pos hu]
      exact mem_setAdd_of_mem s x u hx
    · rw [if_neg hu]
      exact hx

theorem baseArticleSetOfBody_sup (acc : List PyStr) (body : PyStr) (x : PyStr) (hx : x ∈ acc) :
    x ∈ baseArticleSetOfBody acc body := by
  unfold baseArticleSetOfBody
  dsimp only
  split
  · exact foldl_mem_preserve _ (fun s r y hy => newsStep_preserves _ s r y hy) _ acc x hx
  · exact hx

theorem baseDocketSetOfBody_sup (acc : List PyStr) (body : PyStr) (x : PyStr) (hx : x ∈ acc) :
    x ∈ baseDocketSetOfBody acc body := by
  unfold baseDocketSetOfBody
  dsimp only
  split
  · exact foldl_mem_preserve _
      (fun s r y hy => mem_setAdd_of_mem s y (r.getD _ []) hy) _ acc x hx
  · exact hx

theorem fold_url_adds (idx : Nat) (u : PyStr) (hu : u ≠ []) :
    ∀ (rows : List (List PyStr)) (acc : List PyStr) (r : List PyStr), r ∈ rows →
      extract_article_url (r.getD idx []) = some u →
      u ∈ rows.foldl
        (fun s r =>
          match extract_article_url (r.getD idx []) with
          | some url => if url ≠ [] then setAdd s url else s
          | none => s) acc := by
  intro rows
  induction rows with
  | nil => intro acc r h; cases h
  | cons r' rows' ih =>
    intro acc r hr hurl
    rw [List.foldl_cons]
    rcases List.mem_cons.mp hr with rfl | hmem
    · apply foldl_mem_preserve _ (fun s r y hy => newsStep_preserves idx s r y hy)
      rw [hurl]
      dsimp only
      rw [if_pos hu]
      exact mem_setAdd_self acc u
    · exact ih _ r hmem hurl

theorem fold_docket_adds (idx : Nat) :
    ∀ (rows : List (List PyStr)) (acc : List PyStr) (r : List PyStr), r ∈ rows →
      r.getD idx [] ∈ rows.foldl (fun s r => setAdd s (r.getD idx [])) acc := by
  intro rows
  induction rows with
  | nil => intro acc r h; cases h
  | cons r' rows' ih =>
    intro acc r hr
    rw [List.foldl_cons]
    rcases List.mem_cons.mp hr with rfl | hmem
    · apply foldl_mem_preserve _ (fun s x y hy => mem_setAdd_of_mem s y (x.getD idx []) hy)
      exact mem_setAdd_self acc _
    · exact ih _ r hmem

theorem baseArticleSetOfBody_adds (acc : List PyStr) (body : PyStr) (hdr : List PyStr)
    (rows : List (List PyStr)) (meta : PyStr × PyStr)
    (hparse : parse_table (extract_section body newsTitle) = (hdr, rows, meta))
    (hcol : pstr "제목" ∈ hdr) (r : List PyStr) (hr : r ∈ rows) (u : PyStr)
    (hurl : extract_article_url (r.getD (pyIndexOf hdr (pstr "제목")) []) = some u)
    (hu : u ≠ []) : u ∈ baseArticleSetOfBody acc body := by
  unfold baseArticleSetOfBody
  dsimp only
  rw [hparse]
  dsimp only
  rw [if_pos hcol]
  exact fold_url_adds _ u hu rows acc r hr hurl

theorem baseDocketSetOfBody_adds (acc : List PyStr) (body : PyStr) (hdr : List PyStr)
    (rows : List (List PyStr)) (meta : PyStr × PyStr)
    (hparse : parse_table (extract_section body casesTitle) = (hdr, rows, meta))
    (hcol : pstr "도켓번호" ∈ hdr) (r : List PyStr) (hr : r ∈ rows) :
    r.getD (pyIndexOf hdr (pstr "도켓번호")) [] ∈ baseDocketSetOfBody acc body := by
  unfold baseDocketSetOfBody
  dsimp only
  rw [hparse]
  dsimp only
  rw [if_pos hcol]
  exact fold_docket_adds _ rows acc r hr

theorem baseArticleSet_snoc (C : List Comment) (c : Comment) :
    baseArticleSet (C ++ [c]) = baseArticleSetOfBody (baseArticleSet C) (commentBody c) := by
  unfold baseArticleSet
  rw [List.foldl_append]
  rfl

theorem baseDocketSet_snoc (C : List Comment) (c : Comment) :
    baseDocketSet (C ++ [c]) = baseDocketSetOfBody (baseDocketSet C) (commentBody c) := by
  unfold baseDocketSet
  rw [List.foldl_append]
  rfl

theorem pyStartswith_cons_false (c c' : Char) (s p : PyStr) (h : c' ≠ c) :
    pyStartswith (c :: s) (c' :: p) = false := by
  show ((c' == c) && p.isPrefixOf s) = false
  have : (c' == c) = false := by
    cases hb : (c' == c)
    · rfl
    · exact absurd (beq_iff_eq.mp hb) h
  rw [this]
  simp

theorem summaryHeader_decomp (bn dn nn bc dc nc : Nat) (ls : List PyStr) (hls : ls ≠ []) :
    summaryHeader bn dn nn bc dc nc ++ joinNL ls =
      joinNL ([pstr "### 중복 제거 요약:", pstr "🔁 Dedup Summary",
               summaryLine3 bn dn nn, summaryLine4 bc dc nc, []] ++ ls) := by
  have h1 : pstr "### 중복 제거 요약:\n🔁 Dedup Summary\n└ News " =
      pstr "### 중복 제거 요약:" ++ '\n' :: (pstr "🔁 Dedup Summary" ++ '\n' :: pstr "└ News ") := rfl
  have h2 : pstr " (New)\n└ Cases " = pstr " (New)" ++ '\n' :: pstr "└ Cases " := rfl
  have h3 : pstr " (New)\n\n" = pstr " (New)" ++ '\n' :: ('\n' :: ([] : PyStr)) := rfl
  rw [List.cons_append, List.cons_append, List.cons_append, List.cons_append, List.cons_append,
    List.nil_append]
  rw [joinNL_cons _ _ (by intro hx; cases hx), joinNL_cons _ _ (by intro hx; cases hx),
    joinNL_cons _ _ (by intro hx; cases hx), joinNL_cons _ _ (by intro hx; cases hx),
    joinNL_cons _ _ hls]
  unfold summaryHeader summaryLine3 summaryLine4
  rw [h1, h2, h3]
  simp [List.append_assoc]

theorem summaryLine3_spec (bn dn nn : Nat) :
    pyStrip (summaryLine3 bn dn nn) = summaryLine3 bn dn nn ∧
    (∃ t, summaryLine3 bn dn nn = '└' :: t) ∧
    '\n' ∉ summaryLine3 bn dn nn := by
  have hhead : ∃ t, summaryLine3 bn dn nn = '└' :: t := by
    refine ⟨pstr " News " ++ pyNatStr bn ++ pstr " (Baseline): " ++ pyNatStr dn ++
      pstr " (Dup), " ++ pyNatStr nn ++ pstr " (New)", ?_⟩
    unfold summaryLine3
    rfl
  have hnl : '\n' ∉ summaryLine3 bn dn nn := by
    unfold summaryLine3
    intro hmem
    simp only [List.mem_append] at hmem
    rcases hmem with ((((((h | h) | h) | h) | h) | h) | h)
    · simp [pstr] at h
    · exact (pyNatStr_props bn '\n' h).2.1 rfl
    · simp [pstr] at h
    · exact (pyNatStr_props dn '\n' h).2.1 rfl
    · simp [pstr] at h
    · exact (pyNatStr_props nn '\n' h).2.1 rfl
    · simp [pstr] at h
  refine ⟨?_, hhead, hnl⟩
  apply pyStrip_noop
  · obtain ⟨t, ht⟩ := hhead
    rw [ht]
    rfl
  · unfold summaryLine3
    rw [List.reverse_append]
    have : (pstr " (New)").reverse = ')' :: pstr "weN( " := rfl
    rw [this]
    rfl

theorem summaryLine4_spec (bc dc nc : Nat) :
    pyStrip (summaryLine4 bc dc nc) = summaryLine4 bc dc nc ∧
    (∃ t, summaryLine4 bc dc nc = '└' :: t) ∧
    '\n' ∉ summaryLine4 bc dc nc := by
  have hhead : ∃ t, summaryLine4 bc dc nc = '└' :: t := by
    refine ⟨pstr " Cases " ++ pyNatStr bc ++ pstr " (Baseline): " ++ pyNatStr dc ++
      pstr " (Dup), " ++ pyNatStr nc ++ pstr " (New)", ?_⟩
    unfold summaryLine4
    rfl
  have hnl : '\n' ∉ summaryLine4 bc dc nc := by
    unfold summaryLine4
    intro hmem
    simp only [List.mem_append] at hmem
    rcases hmem with ((((((h | h) | h) | h) | h) | h) | h)
    · simp [pstr] at h
    · exact (pyNatStr_props bc '\n' h).2.1 rfl
    · simp [pstr] at h
    · exact (pyNatStr_props dc '\n' h).2.1 rfl
    · simp [pstr] at h
    · exact (pyNatStr_props nc '\n' h).2.1 rfl
    · simp [pstr] at h
  refine ⟨?_, hhead, hnl⟩
  apply pyStrip_noop
  · obtain ⟨t, ht⟩ := hhead
    rw [ht]
    rfl
  · unfold summaryLine4
    rw [List.reverse_append]
    have : (pstr " (New)").reverse = ')' :: pstr "weN( " := rfl
    rw [this]
    rfl

theorem tableLines_line_facts (hdr : List PyStr) (sep : PyStr) (rows : List (List PyStr))
    (hgt : goodTable hdr sep rows) :
    ∀ l ∈ tableLines hdr sep rows, '\n' ∉ l ∧ pyStrip l = l ∧ (∃ t, l = '|' :: t) := by
  obtain ⟨_, hgh, hsep, _, hrows⟩ := hgt
  intro l hl
  unfold tableLines at hl
  rcases List.mem_cons.mp hl with rfl | hl
  · exact ⟨newline_not_mem_rowLine hdr (fun c hc => (goodCell_spec c (hgh c hc)).2.2.2),
      pyStrip_rowLine hdr, by rw [rowLine_eq]; exact ⟨_, rfl⟩⟩
  rcases List.mem_cons.mp hl with rfl | hl
  · exact ⟨(goodSep_spec _ hsep).2, (goodSep_spec _ hsep).1, goodSep_pipe _ hsep⟩
  · obtain ⟨r, hr, rfl⟩ := List.mem_map.mp hl
    exact ⟨newline_not_mem_rowLine r
      (fun c hc => (goodCell_spec c ((hrows r hr).2.1 c hc)).2.2.2),
      pyStrip_rowLine r, by rw [rowLine_eq]; exact ⟨_, rfl⟩⟩

theorem pipe_line_not_heading (l t t' : PyStr) (hsl : pyStrip l = l) (hlp : ∃ u, l = '|' :: u)
    (ht : t = '#' :: t') :
    pyStartswith (pyStrip l) t = false ∧ pyStartswith l (pstr "## ") = false := by
  obtain ⟨u, rfl⟩ := hlp
  rw [hsl, ht]
  constructor
  · exact pyStartswith_cons_false _ _ _ _ (by decide)
  · have hh : pstr "## " = '#' :: pstr "# " := rfl
    rw [hh]
    exact pyStartswith_cons_false _ _ _ _ (by decide)

theorem newsTitle_shape : newsTitle = '#' :: pstr "# 📰 News" := rfl

theorem casesTitle_shape : casesTitle = '#' :: pstr "# ⚖️ Cases" := rfl

theorem joinNL_tableLines_shape (hdr : List PyStr) (sep : PyStr) (rows : List (List PyStr)) :
    ∃ t, joinNL (tableLines hdr sep rows) = '|' :: t := by
  unfold tableLines
  rw [joinNL_cons _ _ (by simp), rowLine_eq]
  exact ⟨_, rfl⟩

theorem mkReport_decomp (nh : List PyStr) (nsep : PyStr) (nrows : List (List PyStr))
    (ch : List PyStr) (csep : PyStr) (crows : List (List PyStr)) :
    mkReport nh nsep nrows ch csep crows =
      (newsHeadingLine ++ ['\n']) ++ joinNL (tableLines nh nsep nrows) ++
        ('\n' :: joinNL (casesHeadingLine :: tableLines ch csep crows)) := by
  unfold mkReport
  rw [joinNL_cons _ _ (by unfold tableLines; simp),
    joinNL_append (tableLines nh nsep nrows) (casesHeadingLine :: tableLines ch csep crows)
      (by unfold tableLines; simp) (by simp)]
  simp [List.append_assoc]

theorem mkReport_news_extract (nh : List PyStr) (nsep : PyStr) (nrows : List (List PyStr))
    (ch : List PyStr) (csep : PyStr) (crows : List (List PyStr))
    (hgtN : goodTable nh nsep nrows) (hgtC : goodTable ch csep crows) :
    extract_section (mkReport nh nsep nrows ch csep crows) newsTitle =
      joinNL (tableLines nh nsep nrows) := by
  have hshape : newsHeadingLine ::
      (tableLines nh nsep nrows ++ casesHeadingLine :: tableLines ch csep crows) =
      [] ++ newsHeadingLine ::
        (tableLines nh nsep nrows ++ casesHeadingLine :: tableLines ch csep crows) := rfl
  unfold mkReport
  rw [hshape]
  apply extract_section_at
  · intro l hl
    simp only [List.nil_append, List.mem_cons, List.mem_append] at hl
    rcases hl with rfl | (h | (rfl | h))
    · decide
    · exact (tableLines_line_facts nh nsep nrows hgtN l h).1
    · decide
    · exact (tableLines_line_facts ch csep crows hgtC l h).1
  · intro l hl; cases hl
  · decide
  · intro l hl
    have hf := tableLines_line_facts nh nsep nrows hgtN l hl
    exact pipe_line_not_heading l newsTitle _ hf.2.1 hf.2.2 newsTitle_shape
  · decide
  · decide

theorem mkReport_cases_extract (nh : List PyStr) (nsep : PyStr) (nrows : List (List PyStr))
    (ch : List PyStr) (csep : PyStr) (crows : List (List PyStr))
    (hgtN : goodTable nh nsep nrows) (hgtC : goodTable ch csep crows) :
    extract_section (mkReport nh nsep nrows ch csep crows) casesTitle =
      joinNL (tableLines ch csep crows) := by
  have hshape : newsHeadingLine ::
      (tableLines nh nsep nrows ++ casesHeadingLine :: tableLines ch csep crows) =
      (newsHeadingLine :: tableLines nh nsep nrows) ++
        casesHeadingLine :: tableLines ch csep crows := by
    simp
  unfold mkReport
  rw [hshape]
  apply extract_section_at_end
  · intro l hl
    simp only [List.mem_append, List.mem_cons] at hl
    rcases hl with (rfl | h) | (rfl | h)
    · decide
    · exact (tableLines_line_facts nh nsep nrows hgtN l h).1
    · decide
    · exact (tableLines_line_facts ch csep crows hgtC l h).1
  · intro l hl
    rcases List.mem_cons.mp hl with rfl | h
    · decide
    · have hf := tableLines_line_facts nh nsep nrows hgtN l h
      exact (pipe_line_not_heading l casesTitle _ hf.2.1 hf.2.2 casesTitle_shape).1
  · decide
  · intro l hl
    have hf := tableLines_line_facts ch csep crows hgtC l hl
    exact pipe_line_not_heading l casesTitle _ hf.2.1 hf.2.2 casesTitle_shape

theorem mkReport_news_replace (nh : List PyStr) (nsep : PyStr) (nrows : List (List PyStr))
    (ch : List PyStr) (csep : PyStr) (crows : List (List PyStr)) (T : PyStr)
    (hocc : containsSub ('\n' :: joinNL (casesHeadingLine :: tableLines ch csep crows))
      (joinNL (tableLines nh nsep nrows)) = false) :
    pyReplace (mkReport nh nsep nrows ch csep crows) (joinNL (tableLines nh nsep nrows)) T =
      (newsHeadingLine ++ ['\n']) ++ T ++
        ('\n' :: joinNL (casesHeadingLine :: tableLines ch csep crows)) := by
  obtain ⟨t, hts⟩ := joinNL_tableLines_shape nh nsep nrows
  rw [mkReport_decomp]
  apply pyReplace_clean
  · rw [hts]; simp
  · intro i hi
    rw [hts]
    exact noPipe_noPrefix _ _ _ (by decide) i hi
  · exact hocc

theorem assemble_lines (hl : PyStr) (midLines ls : List PyStr)
    (hmid : midLines ≠ []) (hls : ls ≠ []) :
    (hl ++ ['\n']) ++ joinNL midLines ++ ('\n' :: joinNL ls) = joinNL ((hl :: midLines) ++ ls) := by
  rw [List.cons_append, joinNL_cons hl (midLines ++ ls) (by simp [hmid]),
    joinNL_append midLines ls hmid hls]
  simp [List.append_assoc]

theorem zeroLine_pack : zeroLine ++ pstr "\n" = joinNL [zeroLine, []] := rfl

theorem cases_extract_after (newsPartLines : List PyStr) (ch : List PyStr) (csep : PyStr)
    (crows : List (List PyStr))
    (hcond : ∀ l ∈ newsPartLines,
      '\n' ∉ l ∧ pyStartswith (pyStrip l) casesTitle = false ∧
        pyStartswith l (pstr "## ") = false)
    (hgtC : goodTable ch csep crows) :
    extract_section (joinNL ((newsHeadingLine :: newsPartLines) ++
      casesHeadingLine :: tableLines ch csep crows)) casesTitle =
      joinNL (tableLines ch csep crows) := by
  apply extract_section_at_end
  · intro l hl
    simp only [List.mem_append, List.mem_cons] at hl
    rcases hl with (rfl | h) | (rfl | h)
    · decide
    · exact (hcond l h).1
    · decide
    · exact (tableLines_line_facts ch csep crows hgtC l h).1
  · intro l hl
    rcases List.mem_cons.mp hl with rfl | h
    · decide
    · exact (hcond l h).2.1
  · decide
  · intro l hl
    have hf := tableLines_line_facts ch csep crows hgtC l hl
    exact pipe_line_not_heading l casesTitle _ hf.2.1 hf.2.2 casesTitle_shape

theorem cases_replace_after (newsPartLines : List PyStr) (ch : List PyStr) (csep : PyStr)
    (crows : List (List PyStr)) (T : PyStr)
    (hocc2 : ∀ i,
      i < (joinNL ((newsHeadingLine :: newsPartLines) ++ [casesHeadingLine]) ++ ['\n']).length →
      (joinNL (tableLines ch csep crows)).isPrefixOf
        (List.drop i
          ((joinNL ((newsHeadingLine :: newsPartLines) ++ [casesHeadingLine]) ++ ['\n']) ++
            joinNL (tableLines ch csep crows) ++ ([] : PyStr))) = false) :
    pyReplace
      (joinNL ((newsHeadingLine :: newsPartLines) ++ casesHeadingLine :: tableLines ch csep crows))
      (joinNL (tableLines ch csep crows)) T =
      (joinNL ((newsHeadingLine :: newsPartLines) ++ [casesHeadingLine]) ++ ['\n']) ++ T := by
  obtain ⟨t, hts⟩ := joinNL_tableLines_shape ch csep crows
  have hsplitL : (newsHeadingLine :: newsPartLines) ++ casesHeadingLine :: tableLines ch csep crows =
      ((newsHeadingLine :: newsPartLines) ++ [casesHeadingLine]) ++ tableLines ch csep crows := by
    simp
  have hjoin : joinNL ((newsHeadingLine :: newsPartLines) ++
      casesHeadingLine :: tableLines ch csep crows) =
      (joinNL ((newsHeadingLine :: newsPartLines) ++ [casesHeadingLine]) ++ ['\n']) ++
        joinNL (tableLines ch csep crows) ++ ([] : PyStr) := by
    rw [hsplitL, joinNL_append _ _ (by simp) (by unfold tableLines; simp)]
    simp [List.append_assoc]
  rw [hjoin]
  have := pyReplace_clean (joinNL (tableLines ch csep crows)) T
    (joinNL ((newsHeadingLine :: newsPartLines) ++ [casesHeadingLine]) ++ ['\n']) []
    (by rw [hts]; simp) hocc2 (containsSub_nil_of_ne _ (by rw [hts]; simp))
  rw [this]
  simp

theorem mem_enumFrom_snd {α : Type} :
    ∀ (l : List α) (n : Nat) (p : Nat × α), p ∈ List.enumFrom n l → p.2 ∈ l := by
  intro l
  induction l with
  | nil => intro n p h; cases h
  | cons a t ih =>
    intro n p h
    rcases List.mem_cons.mp h with rfl | h
    · simp
    · exact List.mem_cons.mpr (Or.inr (ih (n + 1) p h))

theorem mem_enum_snd {α : Type} (l : List α) (p : Nat × α) (h : p ∈ l.enum) : p.2 ∈ l :=
  mem_enumFrom_snd l 0 p h

theorem renumberRow_goodCells (noIdx : Option Nat) (i : Nat) (r : List PyStr)
    (h : ∀ c ∈ r, goodCell c = true) :
    ∀ c ∈ renumberRow noIdx i r, goodCell c = true := by
  intro c hc
  unfold renumberRow at hc
  cases noIdx with
  | none => exact h c hc
  | some k =>
    rcases List.mem_or_eq_of_mem_set hc with h1 | h1
    · exact h c h1
    · rw [h1]
      exact goodCell_pyNatStr i

theorem renumberRow_length (noIdx : Option Nat) (i : Nat) (r : List PyStr) :
    (renumberRow noIdx i r).length = r.length := by
  unfold renumberRow
  cases noIdx with
  | none => rfl
  | some k => exact List.length_set r k _

theorem renumberRow_ne_nil (noIdx : Option Nat) (i : Nat) (r : List PyStr) (h : r ≠ []) :
    renumberRow noIdx i r ≠ [] := by
  intro hx
  apply h
  have := renumberRow_length noIdx i r
  rw [hx] at this
  exact List.length_eq_zero.mp this.symm

theorem emitTable_as_tableLines (hdr : List PyStr) (sep : PyStr) (noIdx : Option Nat)
    (rows' : List (List PyStr)) :
    emitTable (rowLine hdr, sep) noIdx rows' =
      joinNL (tableLines hdr sep
        (rows'.enum.map (fun p => renumberRow noIdx (p.1 + 1) p.2))) := by
  unfold emitTable tableLines
  rw [List.map_map]
  rfl

theorem renumbered_goodTable (hdr : List PyStr) (sep : PyStr) (noIdx : Option Nat)
    (rows rows' : List (List PyStr)) (hsub : ∀ r ∈ rows', r ∈ rows)
    (hgt : goodTable hdr sep rows) (hne : rows' ≠ []) :
    goodTable hdr sep (rows'.enum.map (fun p => renumberRow noIdx (p.1 + 1) p.2)) := by
  obtain ⟨h1, h2, h3, _, h5⟩ := hgt
  refine ⟨h1, h2, h3, by simp [hne], ?_⟩
  intro r hr
  obtain ⟨p, hp, rfl⟩ := List.mem_map.mp hr
  have hmem : p.2 ∈ rows := hsub p.2 (mem_enum_snd rows' p hp)
  obtain ⟨hne2, hcells, hlen⟩ := h5 p.2 hmem
  exact ⟨renumberRow_ne_nil _ _ _ hne2, renumberRow_goodCells _ _ _ hcells,
    by rw [renumberRow_length]; exact hlen⟩

theorem pyStartswith_nil_cons (c : Char) (p : PyStr) : pyStartswith [] (c :: p) = false := rfl

theorem outLines_ne_nil (hdr : List PyStr) (sep : PyStr) (noIdx : Option Nat)
    (rows' : List (List PyStr)) : outLines hdr sep noIdx rows' ≠ [] := by
  unfold outLines
  split
  · simp
  · unfold tableLines; simp

theorem outLines_facts (hdr : List PyStr) (sep : PyStr) (noIdx : Option Nat)
    (rows rows' : List (List PyStr)) (hgt : goodTable hdr sep rows)
    (hsub : ∀ r ∈ rows', r ∈ rows) :
    ∀ l ∈ outLines hdr sep noIdx rows',
      '\n' ∉ l ∧ ∀ (t t' : PyStr), t = '#' :: t' →
        pyStartswith (pyStrip l) t = false ∧ pyStartswith l (pstr "## ") = false := by
  intro l hl
  unfold outLines at hl
  split at hl
  · rcases List.mem_cons.mp hl with rfl | hl
    · refine ⟨by decide, ?_⟩
      intro t t' ht
      have hz : pyStrip zeroLine = zeroLine := by decide
      have hsh : zeroLine = '새' :: pstr "로운 소식이 0건입니다." := rfl
      rw [hz, hsh, ht]
      refine ⟨pyStartswith_cons_false _ _ _ _ (by decide), ?_⟩
      have hh : pstr "## " = '#' :: pstr "# " := rfl
      rw [hh]
      exact pyStartswith_cons_false _ _ _ _ (by decide)
    · rcases List.mem_cons.mp hl with rfl | hl
      · refine ⟨by simp, ?_⟩
        intro t t' ht
        rw [ht]
        have hz : pyStrip ([] : PyStr) = [] := rfl
        rw [hz]
        refine ⟨pyStartswith_nil_cons _ _, ?_⟩
        have hh : pstr "## " = '#' :: pstr "# " := rfl
        rw [hh]
        exact pyStartswith_nil_cons _ _
      · cases hl
  · rename_i hz
    have hne : rows' ≠ [] := by
      intro hx; exact hz (by rw [hx]; rfl)
    have hgt' := renumbered_goodTable hdr sep noIdx rows rows' hsub hgt hne
    have hf := tableLines_line_facts hdr sep _ hgt' l hl
    refine ⟨hf.1, ?_⟩
    intro t t' ht
    exact pipe_line_not_heading l t t' hf.2.1 hf.2.2 ht

theorem newsStage_mkReport (nh : List PyStr) (nsep : PyStr) (nrows : List (List PyStr))
    (ch : List PyStr) (csep : PyStr) (crows : List (List PyStr)) (A : List PyStr)
    (hgtN : goodTable nh nsep nrows) (hgtC : goodTable ch csep crows)
    (hcolN : pstr "제목" ∈ nh)
    (hoccN : containsSub ('\n' :: joinNL (casesHeadingLine :: tableLines ch csep crows))
      (joinNL (tableLines nh nsep nrows)) = false) :
    newsStage (mkReport nh nsep nrows ch csep crows) A =
      (joinNL ((newsHeadingLine ::
          outLines nh nsep (noIdxOf nh) (newRowsN A (pyIndexOf nh (pstr "제목")) nrows)) ++
        casesHeadingLine :: tableLines ch csep crows),
       nrows.length, (newRowsN A (pyIndexOf nh (pstr "제목")) nrows).length) := by
  obtain ⟨h1, h2, h3, h4, h5⟩ := hgtN
  have hx := mkReport_news_extract nh nsep nrows ch csep crows ⟨h1, h2, h3, h4, h5⟩ hgtC
  have hparse : parse_table (extract_section (mkReport nh nsep nrows ch csep crows) newsTitle) =
      (nh, nrows, (rowLine nh, nsep)) := by
    rw [hx]; exact parse_table_tableLines nh nsep nrows h1 h2 h3 h5 h4
  rw [newsStage_spec _ A nh nrows (rowLine nh, nsep) hparse hcolN]
  have hdefN : nrows.filter (fun r => !newsDup A (pyIndexOf nh (pstr "제목")) r) =
      newRowsN A (pyIndexOf nh (pstr "제목")) nrows := rfl
  rw [hdefN, hx, mkReport_news_replace nh nsep nrows ch csep crows _ hoccN]
  have hT : (if (newRowsN A (pyIndexOf nh (pstr "제목")) nrows).length = 0
        then zeroLine ++ pstr "\n"
        else emitTable (rowLine nh, nsep)
          (if pstr "No." ∈ nh then some (pyIndexOf nh (pstr "No.")) else none)
          (newRowsN A (pyIndexOf nh (pstr "제목")) nrows)) =
      joinNL (outLines nh nsep (noIdxOf nh) (newRowsN A (pyIndexOf nh (pstr "제목")) nrows)) := by
    unfold outLines noIdxOf renumbered
    by_cases hz : (newRowsN A (pyIndexOf nh (pstr "제목")) nrows).length = 0
    · rw [if_pos hz, if_pos hz]
      exact zeroLine_pack
    · rw [if_neg hz, if_neg hz, emitTable_as_tableLines]
  rw [hT, assemble_lines newsHeadingLine _ _ (outLines_ne_nil _ _ _ _) (by simp)]

theorem casesStage_mkReport_after (tn : List PyStr) (ch : List PyStr) (csep : PyStr)
    (crows : List (List PyStr)) (D : List PyStr)
    (hgtC : goodTable ch csep crows) (hcolC : pstr "도켓번호" ∈ ch)
    (htn : ∀ l ∈ tn, '\n' ∉ l ∧ ∀ (t t' : PyStr), t = '#' :: t' →
      pyStartswith (pyStrip l) t = false ∧ pyStartswith l (pstr "## ") = false)
    (hsafe : pstr "케이스명" ∈ ch ∨
      ∀ r ∈ crows, r.getD (pyIndexOf ch (pstr "도켓번호")) [] ∉ D)
    (hoccC : ∀ i,
      i < (joinNL ((newsHeadingLine :: tn) ++ [casesHeadingLine]) ++ ['\n']).length →
      (joinNL (tableLines ch csep crows)).isPrefixOf
        (List.drop i
          ((joinNL ((newsHeadingLine :: tn) ++ [casesHeadingLine]) ++ ['\n']) ++
            joinNL (tableLines ch csep crows) ++ ([] : PyStr))) = false) :
    casesStage (joinNL ((newsHeadingLine :: tn) ++
        casesHeadingLine :: tableLines ch csep crows)) D = Except.ok
      (joinNL ((newsHeadingLine :: tn) ++ casesHeadingLine ::
          outLines ch csep (noIdxOf ch) (newRowsC D (pyIndexOf ch (pstr "도켓번호")) crows)),
       crows.length, (newRowsC D (pyIndexOf ch (pstr "도켓번호")) crows).length) := by
  obtain ⟨h1, h2, h3, h4, h5⟩ := hgtC
  have hx := cases_extract_after tn ch csep crows
    (fun l hl => ⟨(htn l hl).1, ((htn l hl).2 casesTitle _ casesTitle_shape).1,
      ((htn l hl).2 casesTitle _ casesTitle_shape).2⟩) ⟨h1, h2, h3, h4, h5⟩
  have hparse : parse_table (extract_section
      (joinNL ((newsHeadingLine :: tn) ++ casesHeadingLine :: tableLines ch csep crows))
      casesTitle) = (ch, crows, (rowLine ch, csep)) := by
    rw [hx]; exact parse_table_tableLines ch csep crows h1 h2 h3 h5 h4
  rw [casesStage_spec _ D ch crows (rowLine ch, csep) hparse hcolC hsafe]
  have hdefC : crows.filter (fun x =>
      !(decide (x.getD (pyIndexOf ch (pstr "도켓번호")) [] ∈ D))) =
      newRowsC D (pyIndexOf ch (pstr "도켓번호")) crows := rfl
  rw [hdefC, hx, cases_replace_after tn ch csep crows _ hoccC]
  have hT : (if (newRowsC D (pyIndexOf ch (pstr "도켓번호")) crows).length = 0
        then zeroLine ++ pstr "\n"
        else emitTable (rowLine ch, csep)
          (if pstr "No." ∈ ch then some (pyIndexOf ch (pstr "No.")) else none)
          (newRowsC D (pyIndexOf ch (pstr "도켓번호")) crows)) =
      joinNL (outLines ch csep (noIdxOf ch)
        (newRowsC D (pyIndexOf ch (pstr "도켓번호")) crows)) := by
    unfold outLines noIdxOf renumbered
    by_cases hz : (newRowsC D (pyIndexOf ch (pstr "도켓번호")) crows).length = 0
    · rw [if_pos hz, if_pos hz]
      exact zeroLine_pack
    · rw [if_neg hz, if_neg hz, emitTable_as_tableLines]
  rw [hT]
  have hasm : (joinNL ((newsHeadingLine :: tn) ++ [casesHeadingLine]) ++ ['\n']) ++
      joinNL (outLines ch csep (noIdxOf ch)
        (newRowsC D (pyIndexOf ch (pstr "도켓번호")) crows)) =
      joinNL ((newsHeadingLine :: tn) ++ casesHeadingLine ::
        outLines ch csep (noIdxOf ch)
          (newRowsC D (pyIndexOf ch (pstr "도켓번호")) crows)) := by
    rw [show (newsHeadingLine :: tn) ++ casesHeadingLine ::
        outLines ch csep (noIdxOf ch)
          (newRowsC D (pyIndexOf ch (pstr "도켓번호")) crows) =
        ((newsHeadingLine :: tn) ++ [casesHeadingLine]) ++
          outLines ch csep (noIdxOf ch)
            (newRowsC D (pyIndexOf ch (pstr "도켓번호")) crows) from by simp]
    rw [joinNL_append _ _ (by simp) (outLines_ne_nil _ _ _ _)]
    simp [List.append_assoc]
  rw [hasm]

theorem dedupRun_mkReport (nh : List PyStr) (nsep : PyStr) (nrows : List (List PyStr))
    (ch : List PyStr) (csep : PyStr) (crows : List (List PyStr)) (comments : List Comment)
    (hgtN : goodTable nh nsep nrows) (hgtC : goodTable ch csep crows)
    (hcolN : pstr "제목" ∈ nh) (hcolC : pstr "도켓번호" ∈ ch)
    (hoccN : containsSub ('\n' :: joinNL (casesHeadingLine :: tableLines ch csep crows))
      (joinNL (tableLines nh nsep nrows)) = false)
    (hsafe : pstr "케이스명" ∈ ch ∨
      ∀ r ∈ crows, r.getD (pyIndexOf ch (pstr "도켓번호")) [] ∉ baseDocketSet comments)
    (hoccC : ∀ i,
      i < (joinNL ((newsHeadingLine :: outLines nh nsep (noIdxOf nh)
          (newRowsN (baseArticleSet comments) (pyIndexOf nh (pstr "제목")) nrows)) ++
            [casesHeadingLine]) ++ ['\n']).length →
      (joinNL (tableLines ch csep crows)).isPrefixOf
        (List.drop i
          ((joinNL ((newsHeadingLine :: outLines nh nsep (noIdxOf nh)
              (newRowsN (baseArticleSet comments) (pyIndexOf nh (pstr "제목")) nrows)) ++
                [casesHeadingLine]) ++ ['\n']) ++
            joinNL (tableLines ch csep crows) ++ ([] : PyStr))) = false) :
    dedupRun (mkReport nh nsep nrows ch csep crows) comments = Except.ok
      ⟨joinNL ((newsHeadingLine :: outLines nh nsep (noIdxOf nh)
          (newRowsN (baseArticleSet comments) (pyIndexOf nh (pstr "제목")) nrows)) ++
        casesHeadingLine :: outLines ch csep (noIdxOf ch)
          (newRowsC (baseDocketSet comments) (pyIndexOf ch (pstr "도켓번호")) crows)),
       (baseArticleSet comments).length, (baseDocketSet comments).length,
       nrows.length,
       (newRowsN (baseArticleSet comments) (pyIndexOf nh (pstr "제목")) nrows).length,
       crows.length,
       (newRowsC (baseDocketSet comments) (pyIndexOf ch (pstr "도켓번호")) crows).length⟩ := by
  have hN := newsStage_mkReport nh nsep nrows ch csep crows (baseArticleSet comments)
    hgtN hgtC hcolN hoccN
  have htn := outLines_facts nh nsep (noIdxOf nh) nrows
    (newRowsN (baseArticleSet comments) (pyIndexOf nh (pstr "제목")) nrows) hgtN
    (fun r hr => List.mem_of_mem_filter hr)
  have hC := casesStage_mkReport_after
    (outLines nh nsep (noIdxOf nh)
      (newRowsN (baseArticleSet comments) (pyIndexOf nh (pstr "제목")) nrows))
    ch csep crows (baseDocketSet comments) hgtC hcolC htn hsafe hoccC
  unfold dedupRun
  dsimp only
  rw [hN]
  dsimp only
  rw [hC]

theorem summaryLines_noNL (bn dn nn bc dc nc : Nat) :
    ∀ l ∈ summaryLines bn dn nn bc dc nc, '\n' ∉ l := by
  intro l hl
  unfold summaryLines at hl
  simp only [List.mem_cons, List.not_mem_nil, or_false] at hl
  rcases hl with rfl | rfl | rfl | rfl | rfl
  · decide
  · decide
  · exact (summaryLine3_spec bn dn nn).2.2
  · exact (summaryLine4_spec bc dc nc).2.2
  · simp

theorem summaryLines_noTitle (bn dn nn bc dc nc : Nat) (t t' : PyStr) (ht : t = '#' :: t')
    (h1 : pyStartswith (pyStrip (pstr "### 중복 제거 요약:")) t = false)
    (h2 : pyStartswith (pyStrip (pstr "🔁 Dedup Summary")) t = false) :
    ∀ l ∈ summaryLines bn dn nn bc dc nc,
      pyStartswith (pyStrip l) t = false ∧ pyStartswith l (pstr "## ") = false := by
  have hh : pstr "## " = '#' :: pstr "# " := rfl
  intro l hl
  unfold summaryLines at hl
  simp only [List.mem_cons, List.not_mem_nil, or_false] at hl
  rcases hl with rfl | rfl | rfl | rfl | rfl
  · exact ⟨h1, by decide⟩
  · exact ⟨h2, by decide⟩
  · obtain ⟨u, hu⟩ := (summaryLine3_spec bn dn nn).2.1
    rw [(summaryLine3_spec bn dn nn).1, hu, ht, hh]
    exact ⟨pyStartswith_cons_false _ _ _ _ (by decide),
      pyStartswith_cons_false _ _ _ _ (by decide)⟩
  · obtain ⟨u, hu⟩ := (summaryLine4_spec bc dc nc).2.1
    rw [(summaryLine4_spec bc dc nc).1, hu, ht, hh]
    exact ⟨pyStartswith_cons_false _ _ _ _ (by decide),
      pyStartswith_cons_false _ _ _ _ (by decide)⟩
  · have hz : pyStrip ([] : PyStr) = [] := rfl
    rw [hz, ht, hh]
    exact ⟨pyStartswith_nil_cons _ _, pyStartswith_nil_cons _ _⟩

theorem out_extract_news (bn dn nn bc dc nc : Nat) (tn tc : List PyStr)
    (htn : ∀ l ∈ tn, '\n' ∉ l ∧ ∀ (t t' : PyStr), t = '#' :: t' →
      pyStartswith (pyStrip l) t = false ∧ pyStartswith l (pstr "## ") = false)
    (htc : ∀ l ∈ tc, '\n' ∉ l ∧ ∀ (t t' : PyStr), t = '#' :: t' →
      pyStartswith (pyStrip l) t = false ∧ pyStartswith l (pstr "## ") = false) :
    extract_section (joinNL (summaryLines bn dn nn bc dc nc ++
      ((newsHeadingLine :: tn) ++ casesHeadingLine :: tc))) newsTitle = joinNL tn := by
  have hshape : summaryLines bn dn nn bc dc nc ++
      ((newsHeadingLine :: tn) ++ casesHeadingLine :: tc) =
      summaryLines bn dn nn bc dc nc ++ newsHeadingLine :: (tn ++ casesHeadingLine :: tc) := by
    simp
  rw [hshape]
  apply extract_section_at
  · intro l hl
    simp only [List.mem_append, List.mem_cons] at hl
    rcases hl with h | (rfl | (h | (rfl | h)))
    · exact summaryLines_noNL bn dn nn bc dc nc l h
    · decide
    · exact (htn l h).1
    · decide
    · exact (htc l h).1
  · exact fun l hl => (summaryLines_noTitle bn dn nn bc dc nc newsTitle _ newsTitle_shape
      (by decide) (by decide) l hl).1
  · decide
  · exact fun l hl => (htn l hl).2 newsTitle _ newsTitle_shape
  · decide
  · decide

theorem out_extract_cases (bn dn nn bc dc nc : Nat) (tn tc : List PyStr)
    (htn : ∀ l ∈ tn, '\n' ∉ l ∧ ∀ (t t' : PyStr), t = '#' :: t' →
      pyStartswith (pyStrip l) t = false ∧ pyStartswith l (pstr "## ") = false)
    (htc : ∀ l ∈ tc, '\n' ∉ l ∧ ∀ (t t' : PyStr), t = '#' :: t' →
      pyStartswith (pyStrip l) t = false ∧ pyStartswith l (pstr "## ") = false) :
    extract_section (joinNL (summaryLines bn dn nn bc dc nc ++
      ((newsHeadingLine :: tn) ++ casesHeadingLine :: tc))) casesTitle = joinNL tc := by
  have hshape : summaryLines bn dn nn bc dc nc ++
      ((newsHeadingLine :: tn) ++ casesHeadingLine :: tc) =
      ((summaryLines bn dn nn bc dc nc ++ newsHeadingLine :: tn)) ++ casesHeadingLine :: tc := by
    simp
  rw [hshape]
  apply extract_section_at_end
  · intro l hl
    simp only [List.mem_append, List.mem_cons] at hl
    rcases hl with (h | (rfl | h)) | (rfl | h)
    · exact summaryLines_noNL bn dn nn bc dc nc l h
    · decide
    · exact (htn l h).1
    · decide
    · exact (htc l h).1
  · intro l hl
    rcases List.mem_append.mp hl with h | h
    · exact (summaryLines_noTitle bn dn nn bc dc nc casesTitle _ casesTitle_shape
        (by decide) (by decide) l h).1
    · rcases List.mem_cons.mp h with rfl | h
      · decide
      · exact ((htn l h).2 casesTitle _ casesTitle_shape).1
  · decide
  · exact fun l hl => (htc l hl).2 casesTitle _ casesTitle_shape

theorem apply_dedup_mkReport (nh : List PyStr) (nsep : PyStr) (nrows : List (List PyStr))
    (ch : List PyStr) (csep : PyStr) (crows : List (List PyStr)) (comments : List Comment)
    (hne : comments ≠ [])
    (hgtN : goodTable nh nsep nrows) (hgtC : goodTable ch csep crows)
    (hcolN : pstr "제목" ∈ nh) (hcolC : pstr "도켓번호" ∈ ch)
    (hoccN : containsSub ('\n' :: joinNL (casesHeadingLine :: tableLines ch csep crows))
      (joinNL (tableLines nh nsep nrows)) = false)
    (hoccC : ∀ i,
      i < (joinNL ((newsHeadingLine :: outLines nh nsep (noIdxOf nh)
          (newRowsN (baseArticleSet comments) (pyIndexOf nh (pstr "제목")) nrows)) ++
            [casesHeadingLine]) ++ ['\n']).length →
      (joinNL (tableLines ch csep crows)).isPrefixOf
        (List.drop i
          ((joinNL ((newsHeadingLine :: outLines nh nsep (noIdxOf nh)
              (newRowsN (baseArticleSet comments) (pyIndexOf nh (pstr "제목")) nrows)) ++
                [casesHeadingLine]) ++ ['\n']) ++
            joinNL (tableLines ch csep crows) ++ ([] : PyStr))) = false)
    (hsafe : pstr "케이스명" ∈ ch ∨
      ∀ r ∈ crows, r.getD (pyIndexOf ch (pstr "도켓번호")) [] ∉ baseDocketSet comments) :
    apply_deduplication (mkReport nh nsep nrows ch csep crows) comments = Except.ok
      (joinNL (summaryLines (baseArticleSet comments).length
          (nrows.length -
            (newRowsN (baseArticleSet comments) (pyIndexOf nh (pstr "제목")) nrows).length)
          (newRowsN (baseArticleSet comments) (pyIndexOf nh (pstr "제목")) nrows).length
          (baseDocketSet comments).length
          (crows.length -
            (newRowsC (baseDocketSet comments) (pyIndexOf ch (pstr "도켓번호")) crows).length)
          (newRowsC (baseDocketSet comments) (pyIndexOf ch (pstr "도켓번호")) crows).length ++
        ((newsHeadingLine :: outLines nh nsep (noIdxOf nh)
            (newRowsN (baseArticleSet comments) (pyIndexOf nh (pstr "제목")) nrows)) ++
          casesHeadingLine :: outLines ch csep (noIdxOf ch)
            (newRowsC (baseDocketSet comments) (pyIndexOf ch (pstr "도켓번호")) crows)))) := by
  unfold apply_deduplication
  rw [if_neg hne]
  rw [dedupRun_mkReport nh nsep nrows ch csep crows comments hgtN hgtC hcolN hcolC hoccN
    hsafe hoccC]
  dsimp only
  rw [summaryHeader_decomp _ _ _ _ _ _ _ (by simp)]
  rfl

set_option maxHeartbeats 2000000 in
/-- C10 (counterexample to the literal claim, Cases half): on a
well-formed report whose every Cases row is an already-seen duplicate
but whose Cases header has no 케이스명 column, `apply_deduplication`
does not replace the section with the zero-count line — it raises
`TypeError` at the duplicate-logging line (src/dedup.py line 143) and
produces no rewritten report at all. -/
theorem all_duplicate_cases_section_crashes_without_case_column :
    (∀ r ∈ exC10crows,
      r.getD (pyIndexOf exC10ch (pstr "도켓번호")) [] ∈ baseDocketSet exC10hist) ∧
    pstr "케이스명" ∉ exC10ch ∧
    apply_deduplication (mkReport exC10nh exC10sep exC10nrows exC10ch exC10sep exC10crows)
      exC10hist = Except.error typeErrorMsg := by
  refine ⟨by decide, by decide, by decide⟩

/-- C10 (amended): on a well-formed two-section report whose Cases
header also carries a 케이스명 column (so the duplicate-logging line of
src/dedup.py line 143 cannot raise), (a) an empty historical comment
list makes `apply_deduplication` return its input unchanged, with no
summary block; (b) if every News row's article URL is already in the
historical article set, the run succeeds and the rewritten report's News
section is exactly the single zero-count line `새로운 소식이 0건입니다.`
followed by a newline — no table — and harvesting News identity keys
from the rewritten report adds nothing to any accumulator; (c)
symmetrically for the Cases section when every docket number is already
historical. -/
theorem zero_new_sections_collapse_and_empty_history_noop
    (nh : List PyStr) (nsep : PyStr) (nrows : List (List PyStr))
    (ch : List PyStr) (csep : PyStr) (crows : List (List PyStr)) (comments : List Comment)
    (hne : comments ≠ [])
    (hgtN : goodTable nh nsep nrows) (hgtC : goodTable ch csep crows)
    (hcolN : pstr "제목" ∈ nh) (hcolC : pstr "도켓번호" ∈ ch)
    (hcaseC : pstr "케이스명" ∈ ch)
    (hoccN : containsSub ('\n' :: joinNL (casesHeadingLine :: tableLines ch csep crows))
      (joinNL (tableLines nh nsep nrows)) = false)
    (hoccC : ∀ i,
      i < (joinNL ((newsHeadingLine :: outLines nh nsep (noIdxOf nh)
          (newRowsN (baseArticleSet comments) (pyIndexOf nh (pstr "제목")) nrows)) ++
            [casesHeadingLine]) ++ ['\n']).length →
      (joinNL (tableLines ch csep crows)).isPrefixOf
        (List.drop i
          ((joinNL ((newsHeadingLine :: outLines nh nsep (noIdxOf nh)
              (newRowsN (baseArticleSet comments) (pyIndexOf nh (pstr "제목")) nrows)) ++
                [casesHeadingLine]) ++ ['\n']) ++
            joinNL (tableLines ch csep crows) ++ ([] : PyStr))) = false) :
    (∀ md', apply_deduplication md' [] = Except.ok md') ∧
    ((∀ r ∈ nrows,
        newsDup (baseArticleSet comments) (pyIndexOf nh (pstr "제목")) r = true) →
      ∃ out, apply_deduplication (mkReport nh nsep nrows ch csep crows) comments =
          Except.ok out ∧
        extract_section out newsTitle = zeroLine ++ pstr "\n" ∧
        ∀ acc, baseArticleSetOfBody acc out = acc) ∧
    ((∀ r ∈ crows,
        r.getD (pyIndexOf ch (pstr "도켓번호")) [] ∈ baseDocketSet comments) →
      ∃ out, apply_deduplication (mkReport nh nsep nrows ch csep crows) comments =
          Except.ok out ∧
        extract_section out casesTitle = zeroLine ++ pstr "\n" ∧
        ∀ acc, baseDocketSetOfBody acc out = acc) := by
  have hout := apply_dedup_mkReport nh nsep nrows ch csep crows comments hne hgtN hgtC
    hcolN hcolC hoccN hoccC (Or.inl hcaseC)
  have htn := outLines_facts nh nsep (noIdxOf nh) nrows
    (newRowsN (baseArticleSet comments) (pyIndexOf nh (pstr "제목")) nrows) hgtN
    (fun r hr => List.mem_of_mem_filter hr)
  have htc := outLines_facts ch csep (noIdxOf ch) crows
    (newRowsC (baseDocketSet comments) (pyIndexOf ch (pstr "도켓번호")) crows) hgtC
    (fun r hr => List.mem_of_mem_filter hr)
  have hxn : extract_section
      (joinNL (summaryLines (baseArticleSet comments).length
          (nrows.length -
            (newRowsN (baseArticleSet comments) (pyIndexOf nh (pstr "제목")) nrows).length)
          (newRowsN (baseArticleSet comments) (pyIndexOf nh (pstr "제목")) nrows).length
          (baseDocketSet comments).length
          (crows.length -
            (newRowsC (baseDocketSet comments) (pyIndexOf ch (pstr "도켓번호")) crows).length)
          (newRowsC (baseDocketSet comments) (pyIndexOf ch (pstr "도켓번호")) crows).length ++
        ((newsHeadingLine :: outLines nh nsep (noIdxOf nh)
            (newRowsN (baseArticleSet comments) (pyIndexOf nh (pstr "제목")) nrows)) ++
          casesHeadingLine :: outLines ch csep (noIdxOf ch)
            (newRowsC (baseDocketSet comments) (pyIndexOf ch (pstr "도켓번호")) crows))))
      newsTitle =
      joinNL (outLines nh nsep (noIdxOf nh)
        (newRowsN (baseArticleSet comments) (pyIndexOf nh (pstr "제목")) nrows)) :=
    out_extract_news _ _ _ _ _ _ _ _ htn htc
  have hxc : extract_section
      (joinNL (summaryLines (baseArticleSet comments).length
          (nrows.length -
            (newRowsN (baseArticleSet comments) (pyIndexOf nh (pstr "제목")) nrows).length)
          (newRowsN (baseArticleSet comments) (pyIndexOf nh (pstr "제목")) nrows).length
          (baseDocketSet comments).length
          (crows.length -
            (newRowsC (baseDocketSet comments) (pyIndexOf ch (pstr "도켓번호")) crows).length)
          (newRowsC (baseDocketSet comments) (pyIndexOf ch (pstr "도켓번호")) crows).length ++
        ((newsHeadingLine :: outLines nh nsep (noIdxOf nh)
            (newRowsN (baseArticleSet comments) (pyIndexOf nh (pstr "제목")) nrows)) ++
          casesHeadingLine :: outLines ch csep (noIdxOf ch)
            (newRowsC (baseDocketSet comments) (pyIndexOf ch (pstr "도켓번호")) crows))))
      casesTitle =
      joinNL (outLines ch csep (noIdxOf ch)
        (newRowsC (baseDocketSet comments) (pyIndexOf ch (pstr "도켓번호")) crows)) :=
    out_extract_cases _ _ _ _ _ _ _ _ htn htc
  refine ⟨?_, ?_, ?_⟩
  · intro md'
    unfold apply_deduplication
    rw [if_pos rfl]
  · intro hall
    have hfn : newRowsN (baseArticleSet comments) (pyIndexOf nh (pstr "제목")) nrows = [] := by
      unfold newRowsN
      rw [List.filter_eq_nil_iff]
      intro r hr
      simp [hall r hr]
    have hzn : outLines nh nsep (noIdxOf nh) ([] : List (List PyStr)) = [zeroLine, []] := by
      unfold outLines
      simp
    refine ⟨_, hout, ?_, ?_⟩
    · rw [hxn, hfn, hzn]
      exact zeroLine_pack.symm
    · intro acc
      unfold baseArticleSetOfBody
      dsimp only
      rw [hxn, hfn, hzn]
      rw [if_neg (by decide)]
  · intro hall
    have hfc : newRowsC (baseDocketSet comments) (pyIndexOf ch (pstr "도켓번호")) crows = [] := by
      unfold newRowsC
      rw [List.filter_eq_nil_iff]
      intro r hr
      simp only [Bool.not_eq_true', decide_eq_false_iff_not, not_not]
      exact hall r hr
    have hzc : outLines ch csep (noIdxOf ch) ([] : List (List PyStr)) = [zeroLine, []] := by
      unfold outLines
      simp
    refine ⟨_, hout, ?_, ?_⟩
    · rw [hxc, hfc, hzc]
      exact zeroLine_pack.symm
    · intro acc
      unfold baseDocketSetOfBody
      dsimp only
      rw [hxc, hfc, hzc]
      rw [if_neg (by decide)]

set_option maxHeartbeats 2000000 in
/-- Witness for the amended C10 on a fully concrete report (whose Cases
header carries 케이스명) and a one-comment history in which both
sections are entirely duplicate. -/
theorem zero_new_sections_collapse_and_empty_history_noop_witness :
    exC10hist ≠ [] ∧
    (∃ out, apply_deduplication
        (mkReport exC10nh exC10sep exC10nrows exC10chC exC10sep exC10crowsC) exC10hist =
        Except.ok out ∧
      extract_section out newsTitle = zeroLine ++ pstr "\n" ∧
      ∀ acc, baseArticleSetOfBody acc out = acc) ∧
    (∃ out, apply_deduplication
        (mkReport exC10nh exC10sep exC10nrows exC10chC exC10sep exC10crowsC) exC10hist =
        Except.ok out ∧
      extract_section out casesTitle = zeroLine ++ pstr "\n" ∧
      ∀ acc, baseDocketSetOfBody acc out = acc) := by
  have h := zero_new_sections_collapse_and_empty_history_noop exC10nh exC10sep exC10nrows
    exC10chC exC10sep exC10crowsC exC10hist (by decide)
    (by unfold goodTable; decide) (by unfold goodTable; decide)
    (by decide) (by decide) (by decide) (by decide) (by decide)
  exact ⟨by decide, h.2.1 (by decide), h.2.2 (by decide)⟩

theorem getD_set_ne {α : Type} (l : List α) (k j : Nat) (v d : α) (h : k ≠ j) :
    (l.set k v).getD j d = l.getD j d := by
  simp [List.getD_eq_getElem?_getD, List.getElem?_set_ne h]

theorem mem_enumFrom_of_mem {α : Type} :
    ∀ (l : List α) (n : Nat) (a : α), a ∈ l → ∃ i, (i, a) ∈ List.enumFrom n l := by
  intro l
  induction l with
  | nil => intro n a h; cases h
  | cons b t ih =>
    intro n a h
    rcases List.mem_cons.mp h with rfl | h
    · exact ⟨n, by simp [List.enumFrom]⟩
    · obtain ⟨i, hi⟩ := ih (n + 1) a h
      exact ⟨i, List.mem_cons.mpr (Or.inr hi)⟩

theorem mem_enum_of_mem {α : Type} (l : List α) (a : α) (h : a ∈ l) :
    ∃ i, (i, a) ∈ l.enum :=
  mem_enumFrom_of_mem l 0 a h

theorem noIdxOf_spec (hdr : List PyStr) (k : Nat) (h : noIdxOf hdr = some k) :
    pstr "No." ∈ hdr ∧ k = pyIndexOf hdr (pstr "No.") := by
  unfold noIdxOf at h
  by_cases hm : pstr "No." ∈ hdr
  · rw [if_pos hm] at h
    exact ⟨hm, (Option.some_inj.mp h).symm⟩
  · rw [if_neg hm] at h
    cases h

theorem renumberRow_getD_other (noIdx : Option Nat) (hdr : List PyStr) (col : PyStr)
    (hcol : col ∈ hdr) (hno : noIdx = noIdxOf hdr) (hne : col ≠ pstr "No.")
    (i : Nat) (r : List PyStr) :
    (renumberRow noIdx i r).getD (pyIndexOf hdr col) [] =
      r.getD (pyIndexOf hdr col) [] := by
  rcases hcase : noIdx with _ | k
  · rfl
  · rw [hno] at hcase
    obtain ⟨hmem, hk⟩ := noIdxOf_spec hdr k hcase
    subst hk
    unfold renumberRow
    dsimp only
    exact getD_set_ne r _ _ _ _ (pyIndexOf_ne_of_ne hdr (pstr "No.") col hmem hcol
      (fun hx => hne hx.symm))

theorem second_run_zero_new_aux (nh : List PyStr) (nsep : PyStr) (nrows : List (List PyStr))
    (ch : List PyStr) (csep : PyStr) (crows : List (List PyStr))
    (A D : List PyStr) (body : PyStr)
    (hgtN : goodTable nh nsep nrows) (hgtC : goodTable ch csep crows)
    (hcolN : pstr "제목" ∈ nh) (hcolC : pstr "도켓번호" ∈ ch)
    (hxn : extract_section body newsTitle =
      joinNL (outLines nh nsep (noIdxOf nh) (newRowsN A (pyIndexOf nh (pstr "제목")) nrows)))
    (hxc : extract_section body casesTitle =
      joinNL (outLines ch csep (noIdxOf ch) (newRowsC D (pyIndexOf ch (pstr "도켓번호")) crows)))
    (hurl : ∀ r ∈ nrows, ∃ u,
      extract_article_url (r.getD (pyIndexOf nh (pstr "제목")) []) = some u ∧ u ≠ []) :
    newRowsN (baseArticleSetOfBody A body) (pyIndexOf nh (pstr "제목")) nrows = [] ∧
    newRowsC (baseDocketSetOfBody D body) (pyIndexOf ch (pstr "도켓번호")) crows = [] := by
  constructor
  · unfold newRowsN
    rw [List.filter_eq_nil_iff]
    intro r hr
    obtain ⟨u, hu, hune⟩ := hurl r hr
    have hmem : u ∈ baseArticleSetOfBody A body := by
      by_cases hd : newsDup A (pyIndexOf nh (pstr "제목")) r = true
      · unfold newsDup at hd
        rw [hu] at hd
        dsimp only at hd
        exact baseArticleSetOfBody_sup A body u (of_decide_eq_true hd)
      · have hd' : newsDup A (pyIndexOf nh (pstr "제목")) r = false := Bool.eq_false_iff.mpr hd
        have hrn : r ∈ newRowsN A (pyIndexOf nh (pstr "제목")) nrows :=
          List.mem_filter.mpr ⟨hr, by rw [hd']; rfl⟩
        have hnNne : newRowsN A (pyIndexOf nh (pstr "제목")) nrows ≠ [] :=
          List.ne_nil_of_mem hrn
        have hlen : ¬ (newRowsN A (pyIndexOf nh (pstr "제목")) nrows).length = 0 := by
          intro hx
          exact hnNne (List.length_eq_zero.mp hx)
        have hol : outLines nh nsep (noIdxOf nh)
            (newRowsN A (pyIndexOf nh (pstr "제목")) nrows) =
            tableLines nh nsep (renumbered (noIdxOf nh)
              (newRowsN A (pyIndexOf nh (pstr "제목")) nrows)) := by
          unfold outLines
          rw [if_neg hlen]
        obtain ⟨g1, g2, g3, g4, g5⟩ := renumbered_goodTable nh nsep (noIdxOf nh) nrows
          (newRowsN A (pyIndexOf nh (pstr "제목")) nrows)
          (fun x hx => List.mem_of_mem_filter hx) hgtN hnNne
        have hparse1 : parse_table (extract_section body newsTitle) =
            (nh, renumbered (noIdxOf nh) (newRowsN A (pyIndexOf nh (pstr "제목")) nrows),
              (rowLine nh, nsep)) := by
          rw [hxn, hol]
          exact parse_table_tableLines nh nsep _ g1 g2 g3 g5 g4
        obtain ⟨i, hi⟩ := mem_enum_of_mem _ r hrn
        have hr' : renumberRow (noIdxOf nh) (i + 1) r ∈
            renumbered (noIdxOf nh) (newRowsN A (pyIndexOf nh (pstr "제목")) nrows) := by
          unfold renumbered
          exact List.mem_map.mpr ⟨(i, r), hi, rfl⟩
        have hpres := renumberRow_getD_other (noIdxOf nh) nh (pstr "제목") hcolN rfl
          (by decide) (i + 1) r
        exact baseArticleSetOfBody_adds A body nh _ (rowLine nh, nsep) hparse1 hcolN
          (renumberRow (noIdxOf nh) (i + 1) r) hr' u (by rw [hpres]; exact hu) hune
    unfold newsDup
    rw [hu]
    dsimp only
    simp [hmem]
  · unfold newRowsC
    rw [List.filter_eq_nil_iff]
    intro r hr
    have hmem : r.getD (pyIndexOf ch (pstr "도켓번호")) [] ∈ baseDocketSetOfBody D body := by
      by_cases hd : r.getD (pyIndexOf ch (pstr "도켓번호")) [] ∈ D
      · exact baseDocketSetOfBody_sup D body _ hd
      · have hrn : r ∈ newRowsC D (pyIndexOf ch (pstr "도켓번호")) crows :=
          List.mem_filter.mpr ⟨hr, by rw [decide_eq_false hd]; rfl⟩
        have hnCne : newRowsC D (pyIndexOf ch (pstr "도켓번호")) crows ≠ [] :=
          List.ne_nil_of_mem hrn
        have hlen : ¬ (newRowsC D (pyIndexOf ch (pstr "도켓번호")) crows).length = 0 := by
          intro hx
          exact hnCne (List.length_eq_zero.mp hx)
        have hol : outLines ch csep (noIdxOf ch)
            (newRowsC D (pyIndexOf ch (pstr "도켓번호")) crows) =
            tableLines ch csep (renumbered (noIdxOf ch)
              (newRowsC D (pyIndexOf ch (pstr "도켓번호")) crows)) := by
          unfold outLines
          rw [if_neg hlen]
        obtain ⟨g1, g2, g3, g4, g5⟩ := renumbered_goodTable ch csep (noIdxOf ch) crows
          (newRowsC D (pyIndexOf ch (pstr "도켓번호")) crows)
          (fun x hx => List.mem_of_mem_filter hx) hgtC hnCne
        have hparse1 : parse_table (extract_section body casesTitle) =
            (ch, renumbered (noIdxOf ch) (newRowsC D (pyIndexOf ch (pstr "도켓번호")) crows),
              (rowLine ch, csep)) := by
          rw [hxc, hol]
          exact parse_table_tableLines ch csep _ g1 g2 g3 g5 g4
        obtain ⟨i, hi⟩ := mem_enum_of_mem _ r hrn
        have hr' : renumberRow (noIdxOf ch) (i + 1) r ∈
            renumbered (noIdxOf ch) (newRowsC D (pyIndexOf ch (pstr "도켓번호")) crows) := by
          unfold renumbered
          exact List.mem_map.mpr ⟨(i, r), hi, rfl⟩
        have hpres := renumberRow_getD_other (noIdxOf ch) ch (pstr "도켓번호") hcolC rfl
          (by decide) (i + 1) r
        have hadd := baseDocketSetOfBody_adds D body ch _ (rowLine ch, csep) hparse1 hcolC
          (renumberRow (noIdxOf ch) (i + 1) r) hr'
        rw [hpres] at hadd
        exact hadd
    simp only [Bool.not_eq_true', decide_eq_false_iff_not, not_not]
    exact hmem

set_option maxHeartbeats 2000000 in
/-- C3 (counterexample to the literal claim): `apply_deduplication` is
not idempotent across runs.  A News row whose title cell carries no
markdown link yields no article URL, so it can never enter the
historical identity set: on a second run whose history includes the
first run's output it is counted as new again (1, not 0).  Neither run
crashes — the report has no Cases section — so the counts are real. -/
theorem second_run_still_reports_new_items :
    exC3hist ≠ [] ∧
    Except.map DedupOut.newsNew (dedupRun exC3md (histAfter exC3md exC3hist)) =
      Except.ok 1 := by
  constructor
  · decide
  · decide

set_option maxHeartbeats 4000000 in
/-- C3 (amended): on a well-formed two-section report in the renderer's
shape whose Cases header carries a 케이스명 column (so the
duplicate-logging line cannot raise), if every News row's title cell
yields a nonempty article URL, then a second `apply_deduplication` run
over the same report — with the first run's output appended to the
history — succeeds and reports zero new items in both the News and the
Cases sections. -/
theorem second_run_zero_new_for_link_bearing_reports
    (nh : List PyStr) (nsep : PyStr) (nrows : List (List PyStr))
    (ch : List PyStr) (csep : PyStr) (crows : List (List PyStr)) (comments : List Comment)
    (hne : comments ≠ [])
    (hgtN : goodTable nh nsep nrows) (hgtC : goodTable ch csep crows)
    (hcolN : pstr "제목" ∈ nh) (hcolC : pstr "도켓번호" ∈ ch)
    (hcaseC : pstr "케이스명" ∈ ch)
    (hoccN : containsSub ('\n' :: joinNL (casesHeadingLine :: tableLines ch csep crows))
      (joinNL (tableLines nh nsep nrows)) = false)
    (hoccC : ∀ i,
      i < (joinNL ((newsHeadingLine :: outLines nh nsep (noIdxOf nh)
          (newRowsN (baseArticleSet comments) (pyIndexOf nh (pstr "제목")) nrows)) ++
            [casesHeadingLine]) ++ ['\n']).length →
      (joinNL (tableLines ch csep crows)).isPrefixOf
        (List.drop i
          ((joinNL ((newsHeadingLine :: outLines nh nsep (noIdxOf nh)
              (newRowsN (baseArticleSet comments) (pyIndexOf nh (pstr "제목")) nrows)) ++
                [casesHeadingLine]) ++ ['\n']) ++
            joinNL (tableLines ch csep crows) ++ ([] : PyStr))) = false)
    (hurl : ∀ r ∈ nrows, ∃ u,
      extract_article_url (r.getD (pyIndexOf nh (pstr "제목")) []) = some u ∧ u ≠ []) :
    Except.map DedupOut.newsNew (dedupRun (mkReport nh nsep nrows ch csep crows)
      (histAfter (mkReport nh nsep nrows ch csep crows) comments)) = Except.ok 0 ∧
    Except.map DedupOut.casesNew (dedupRun (mkReport nh nsep nrows ch csep crows)
      (histAfter (mkReport nh nsep nrows ch csep crows) comments)) = Except.ok 0 := by
  have hout := apply_dedup_mkReport nh nsep nrows ch csep crows comments hne hgtN hgtC
    hcolN hcolC hoccN hoccC (Or.inl hcaseC)
  have htn := outLines_facts nh nsep (noIdxOf nh) nrows
    (newRowsN (baseArticleSet comments) (pyIndexOf nh (pstr "제목")) nrows) hgtN
    (fun r hr => List.mem_of_mem_filter hr)
  have htc := outLines_facts ch csep (noIdxOf ch) crows
    (newRowsC (baseDocketSet comments) (pyIndexOf ch (pstr "도켓번호")) crows) hgtC
    (fun r hr => List.mem_of_mem_filter hr)
  obtain ⟨out1, hout1, hxn, hxc⟩ : ∃ out1,
      apply_deduplication (mkReport nh nsep nrows ch csep crows) comments =
        Except.ok out1 ∧
      extract_section out1 newsTitle = joinNL (outLines nh nsep (noIdxOf nh)
        (newRowsN (baseArticleSet comments) (pyIndexOf nh (pstr "제목")) nrows)) ∧
      extract_section out1 casesTitle = joinNL (outLines ch csep (noIdxOf ch)
        (newRowsC (baseDocketSet comments) (pyIndexOf ch (pstr "도켓번호")) crows)) :=
    ⟨_, hout, out_extract_news _ _ _ _ _ _ _ _ htn htc,
      out_extract_cases _ _ _ _ _ _ _ _ htn htc⟩
  have hhist : histAfter (mkReport nh nsep nrows ch csep crows) comments =
      comments ++ [⟨some out1⟩] := by
    have htoOpt : (Except.ok out1 : Except PyStr PyStr).toOption = some out1 := rfl
    unfold histAfter
    rw [hout1, htoOpt]
  obtain ⟨auxN, auxC⟩ := second_run_zero_new_aux nh nsep nrows ch csep crows
    (baseArticleSet comments) (baseDocketSet comments) out1
    hgtN hgtC hcolN hcolC hxn hxc hurl
  have hA' : baseArticleSet (comments ++ [⟨some out1⟩]) =
      baseArticleSetOfBody (baseArticleSet comments) out1 :=
    baseArticleSet_snoc comments _
  have hD' : baseDocketSet (comments ++ [⟨some out1⟩]) =
      baseDocketSetOfBody (baseDocketSet comments) out1 :=
    baseDocketSet_snoc comments _
  obtain ⟨k1, k2, k3, k4, k5⟩ := id hgtC
  have htn2 := outLines_facts nh nsep (noIdxOf nh) nrows
    (newRowsN (baseArticleSet (comments ++ [⟨some out1⟩]))
      (pyIndexOf nh (pstr "제목")) nrows) hgtN
    (fun r hr => List.mem_of_mem_filter hr)
  have hx2 := cases_extract_after
    (outLines nh nsep (noIdxOf nh)
      (newRowsN (baseArticleSet (comments ++ [⟨some out1⟩]))
        (pyIndexOf nh (pstr "제목")) nrows))
    ch csep crows
    (fun l hl => ⟨(htn2 l hl).1, ((htn2 l hl).2 casesTitle _ casesTitle_shape).1,
      ((htn2 l hl).2 casesTitle _ casesTitle_shape).2⟩) hgtC
  have hparse2 : parse_table (extract_section
      (joinNL ((newsHeadingLine :: outLines nh nsep (noIdxOf nh)
        (newRowsN (baseArticleSet (comments ++ [⟨some out1⟩]))
          (pyIndexOf nh (pstr "제목")) nrows)) ++
        casesHeadingLine :: tableLines ch csep crows)) casesTitle) =
      (ch, crows, (rowLine ch, csep)) := by
    rw [hx2]
    exact parse_table_tableLines ch csep crows k1 k2 k3 k5 k4
  constructor
  · rw [hhist]
    unfold dedupRun
    dsimp only
    rw [newsStage_mkReport nh nsep nrows ch csep crows _ hgtN hgtC hcolN hoccN]
    dsimp only
    rw [casesStage_spec _ _ ch crows (rowLine ch, csep) hparse2 hcolC (Or.inl hcaseC)]
    dsimp only [Except.map]
    simp only [hA']
    rw [auxN]
    rfl
  · rw [hhist]
    unfold dedupRun
    dsimp only
    rw [newsStage_mkReport nh nsep nrows ch csep crows _ hgtN hgtC hcolN hoccN]
    dsimp only
    rw [casesStage_spec _ _ ch crows (rowLine ch, csep) hparse2 hcolC (Or.inl hcaseC)]
    dsimp only [Except.map]
    simp only [hD']
    have hdefC2 : crows.filter (fun x =>
        !(decide (x.getD (pyIndexOf ch (pstr "도켓번호")) [] ∈
          baseDocketSetOfBody (baseDocketSet comments) out1))) =
        newRowsC (baseDocketSetOfBody (baseDocketSet comments) out1)
          (pyIndexOf ch (pstr "도켓번호")) crows := rfl
    rw [hdefC2, auxC]
    rfl

set_option maxHeartbeats 2000000 in
/-- Witness for the amended C3: on a concrete link-bearing report (with
a 케이스명 column) and a nonempty history, the second run succeeds and
reports zero new News and Cases items. -/
theorem second_run_zero_new_for_link_bearing_reports_witness :
    exC3hist ≠ [] ∧
    Except.map DedupOut.newsNew
      (dedupRun (mkReport exC3nh exC3sep exC3nrows exC3ch exC3sep exC3crows)
        (histAfter (mkReport exC3nh exC3sep exC3nrows exC3ch exC3sep exC3crows)
          exC3hist)) = Except.ok 0 ∧
    Except.map DedupOut.casesNew
      (dedupRun (mkReport exC3nh exC3sep exC3nrows exC3ch exC3sep exC3crows)
        (histAfter (mkReport exC3nh exC3sep exC3nrows exC3ch exC3sep exC3crows)
          exC3hist)) = Except.ok 0 := by
  have h := second_run_zero_new_for_link_bearing_reports exC3nh exC3sep exC3nrows
    exC3ch exC3sep exC3crows exC3hist (by decide)
    (by unfold goodTable; decide) (by unfold goodTable; decide)
    (by decide) (by decide) (by decide) (by decide) (by decide)
    (by
      intro r hr
      unfold exC3nrows at hr
      rw [List.mem_singleton] at hr
      subst hr
      exact ⟨pstr "http://v", by decide, by decide⟩)
  exact ⟨by decide, h.1, h.2⟩

end AiSuit
